import Mathlib

/-!
# prometheus_cli: response decoding and rendering

A shallow embedding of `client.go`, `response.go` and `util.go`.

The embedding starts where `Client.Query` / `Client.QueryRange` have received the
response body.  The body is given as the JSON document it denotes (`JSON`); the
tokenizer of `encoding/json` is not modelled.  Go strings are Lean strings, a
`float64` read from JSON is a finite binary fraction (`Float64`), a returned
`error` is a `GoError`, and a run-time panic is a `Panic`.
-/

namespace PrometheusCli

/-! ## Values -/

/-- A finite `float64`: the number `(-1)^neg * mant * 2^exp`.  JSON numbers always
decode to finite values, so NaN and the infinities do not occur. -/
structure Float64 where
  neg : Bool
  mant : Nat
  exp : Int
  deriving DecidableEq, Repr

/-- The zero value of `float64`. -/
def Float64.zero : Float64 := ⟨false, 0, 0⟩

/-- The value `interface{}` holds after `json.Unmarshal`: `nil`, `bool`, `float64`,
`string`, `[]interface{}` or `map[string]interface{}`.  The members of an object are
listed in the order in which `json.Marshal` writes them and the decoder reads them. -/
inductive JSON where
  | null
  | bool (b : Bool)
  | num (f : Float64)
  | str (s : String)
  | arr (xs : List JSON)
  | obj (kvs : List (String × JSON))

/-- The word `encoding/json` uses for a JSON value in an `UnmarshalTypeError`. -/
def JSON.kind : JSON → String
  | .null => "null"
  | .bool _ => "bool"
  | .num _ => "number"
  | .str _ => "string"
  | .arr _ => "array"
  | .obj _ => "object"

/-- A Go `error` value returned by the client. -/
inductive GoError where
  /-- An error made by `fmt.Errorf`, with its message. -/
  | errorf (msg : String)
  /-- A `*json.UnmarshalTypeError`: a JSON value of kind `value` met a Go type `goType`. -/
  | unmarshalType (value : String) (goType : String)
  /-- The error `csv.Writer.Write` returns for an invalid `Comma`. -/
  | invalidDelim
  deriving DecidableEq, Repr

/-- A run-time panic. -/
inductive Panic where
  /-- Index `i` used on a slice of length `len`. -/
  | indexOutOfRange (i len : Nat)
  /-- A failed type assertion `x.(want)`. -/
  | interfaceConversion (want : String)
  /-- The call `panic(msg)`. -/
  | explicit (msg : String)
  deriving DecidableEq, Repr

/-- What a call of `Query` or `QueryRange` does: return a response with a `nil` error,
return `nil` with an error, or panic. -/
inductive Outcome (α : Type) where
  | ok (a : α)
  | err (e : GoError)
  | panic (p : Panic)

/-! ## Constants of `response.go` -/

def STATUS_ERROR : String := "error"
def STATUS_SUCCESS : String := "success"
def STRING_TYPE : String := "string"
def SCALAR_TYPE : String := "scalar"
def VECTOR_TYPE : String := "vector"
def MATRIX_TYPE : String := "matrix"
def ERROR_TYPE : String := "error"

/-! ## Types of `response.go` -/

/-- The type `model.Metric`, a map from label name to label value, as the list of its
entries (keys are distinct). -/
abbrev Metric := List (String × String)

structure Data where
  ResultType : String := ""
  Result : JSON := .null

structure BaseResponse where
  RespData : Data := {}
  Status : String := ""
  ErrorType : String := ""
  Error : String := ""

structure ScalarQueryResponse where
  ActualValue : List JSON := []
  Value : String := ""
  Timestamp : Float64 := Float64.zero

/-- The element type of `VectorQueryResponse.Value`. -/
structure VectorEntry where
  Metric : Metric := []
  ActualValue : List JSON := []
  Value : String := ""
  Timestamp : Float64 := Float64.zero

structure VectorQueryResponse where
  Value : List VectorEntry := []

/-- The element type of `MatrixQueryResponse.Value`. -/
structure MatrixEntry where
  Metric : Metric := []
  Values : List (List JSON) := []

structure MatrixQueryResponse where
  Value : List MatrixEntry := []

/-- The interface `QueryResponse` with its three implementations. -/
inductive QueryResponse where
  | scalar (r : ScalarQueryResponse)
  | vector (r : VectorQueryResponse)
  | matrix (r : MatrixQueryResponse)

/-! ## `encoding/json`: decoding into the types above -/

/-- Case folding of `encoding/json` for one character of a key: ASCII letters to upper
case, and the two non-ASCII characters that fold to ASCII letters (U+017F to `S`,
U+212A to `K`). -/
def foldChar (c : Char) : Char :=
  if 97 ≤ c.toNat ∧ c.toNat ≤ 122 then Char.ofNat (c.toNat - 32)
  else if c.toNat = 0x17F then 'S'
  else if c.toNat = 0x212A then 'K'
  else c

def foldName (s : String) : String := String.mk (s.data.map foldChar)

/-- The struct field a JSON key is decoded into: the field with exactly that JSON name,
else the first field, in declaration order, whose name equals the key up to case. -/
def findField (fields : List String) (key : String) : Option String :=
  if key ∈ fields then some key
  else fields.find? (fun f => decide (foldName f = foldName key))

/-- Decode into a `string`: `null` leaves the target as it is, any non-string is a
type error. -/
def decodeString (cur : String) : JSON → Except GoError String
  | .str s => .ok s
  | .null => .ok cur
  | j => .error (.unmarshalType j.kind "string")

/-- Decode into a `float64`. -/
def decodeFloat64 (cur : Float64) : JSON → Except GoError Float64
  | .num f => .ok f
  | .null => .ok cur
  | j => .error (.unmarshalType j.kind "float64")

/-- Decode into a `[]interface{}`: `null` gives the nil slice. -/
def decodeSlice : JSON → Except GoError (List JSON)
  | .arr xs => .ok xs
  | .null => .ok []
  | j => .error (.unmarshalType j.kind "[]interface {}")

/-- The elements of a JSON array decoded in order, each into a fresh slice element. -/
def decodeArray {α : Type} (f : JSON → Except GoError α) : List JSON → Except GoError (List α)
  | [] => .ok []
  | x :: xs =>
    match f x with
    | .error e => .error e
    | .ok a =>
      match decodeArray f xs with
      | .error e => .error e
      | .ok as => .ok (a :: as)

/-- Decode into a `[][]interface{}`. -/
def decodeSliceSlice : JSON → Except GoError (List (List JSON))
  | .arr xs => decodeArray decodeSlice xs
  | .null => .ok []
  | j => .error (.unmarshalType j.kind "[][]interface {}")

/-- Store `k ↦ v` in a map. -/
def Metric.set (m : Metric) (k v : String) : Metric :=
  if m.any (fun p => p.1 == k) then m.map (fun p => if p.1 == k then (k, v) else p)
  else m ++ [(k, v)]

/-- Decode into a fresh `model.LabelValue`, a string type: `null` leaves it empty. -/
def decodeLabelValue : JSON → Except GoError String
  | .str s => .ok s
  | .null => .ok ""
  | j => .error (.unmarshalType j.kind "model.LabelValue")

/-- Decode into a `model.Metric`: an object is merged into the map member by member
(each value a string, `null` giving the empty string), `null` gives the nil map. -/
def decodeMetric (cur : Metric) : JSON → Except GoError Metric
  | .obj kvs => kvs.foldlM (fun m kv =>
      match decodeLabelValue kv.2 with
      | .ok s => .ok (m.set kv.1 s)
      | .error e => .error e) cur
  | .null => .ok []
  | j => .error (.unmarshalType j.kind "model.Metric")

/-- One member `"k": v` of an object decoded into a `Data`. -/
def Data.setMember (d : Data) (kv : String × JSON) : Except GoError Data :=
  match findField ["resultType", "result"] kv.1 with
  | none => .ok d
  | some f =>
    if f = "resultType" then
      match decodeString d.ResultType kv.2 with
      | .ok s => .ok { d with ResultType := s }
      | .error e => .error e
    else .ok { d with Result := kv.2 }

/-- Decode into a `Data`. -/
def decodeData (cur : Data) : JSON → Except GoError Data
  | .obj kvs => kvs.foldlM Data.setMember cur
  | .null => .ok cur
  | j => .error (.unmarshalType j.kind "main.Data")

/-- One member of an object decoded into a `BaseResponse`. -/
def BaseResponse.setMember (r : BaseResponse) (kv : String × JSON) :
    Except GoError BaseResponse :=
  match findField ["data", "status", "errorType", "error"] kv.1 with
  | none => .ok r
  | some f =>
    if f = "data" then
      match decodeData r.RespData kv.2 with
      | .ok d => .ok { r with RespData := d }
      | .error e => .error e
    else if f = "status" then
      match decodeString r.Status kv.2 with
      | .ok s => .ok { r with Status := s }
      | .error e => .error e
    else if f = "errorType" then
      match decodeString r.ErrorType kv.2 with
      | .ok s => .ok { r with ErrorType := s }
      | .error e => .error e
    else
      match decodeString r.Error kv.2 with
      | .ok s => .ok { r with Error := s }
      | .error e => .error e

/-- The call `json.Unmarshal(buf, &r)` for `var r BaseResponse`. -/
def unmarshalBaseResponse : JSON → Except GoError BaseResponse
  | .obj kvs => kvs.foldlM BaseResponse.setMember {}
  | .null => .ok {}
  | j => .error (.unmarshalType j.kind "main.BaseResponse")

/-- The document `json.Marshal` writes for a `Data`. -/
def marshalData (d : Data) : JSON :=
  .obj [("resultType", .str d.ResultType), ("result", d.Result)]

/-- One member of an object decoded into a `ScalarQueryResponse`. -/
def ScalarQueryResponse.setMember (r : ScalarQueryResponse) (kv : String × JSON) :
    Except GoError ScalarQueryResponse :=
  match findField ["result", "Value", "Timestamp"] kv.1 with
  | none => .ok r
  | some f =>
    if f = "result" then
      match decodeSlice kv.2 with
      | .ok xs => .ok { r with ActualValue := xs }
      | .error e => .error e
    else if f = "Value" then
      match decodeString r.Value kv.2 with
      | .ok s => .ok { r with Value := s }
      | .error e => .error e
    else
      match decodeFloat64 r.Timestamp kv.2 with
      | .ok t => .ok { r with Timestamp := t }
      | .error e => .error e

def unmarshalScalar : JSON → Except GoError ScalarQueryResponse
  | .obj kvs => kvs.foldlM ScalarQueryResponse.setMember {}
  | .null => .ok {}
  | j => .error (.unmarshalType j.kind "main.ScalarQueryResponse")

/-- One member of an object decoded into an element of `VectorQueryResponse.Value`. -/
def VectorEntry.setMember (r : VectorEntry) (kv : String × JSON) :
    Except GoError VectorEntry :=
  match findField ["metric", "value", "Value", "Timestamp"] kv.1 with
  | none => .ok r
  | some f =>
    if f = "metric" then
      match decodeMetric r.Metric kv.2 with
      | .ok m => .ok { r with Metric := m }
      | .error e => .error e
    else if f = "value" then
      match decodeSlice kv.2 with
      | .ok xs => .ok { r with ActualValue := xs }
      | .error e => .error e
    else if f = "Value" then
      match decodeString r.Value kv.2 with
      | .ok s => .ok { r with Value := s }
      | .error e => .error e
    else
      match decodeFloat64 r.Timestamp kv.2 with
      | .ok t => .ok { r with Timestamp := t }
      | .error e => .error e

/-- The name `reflect` gives the element type of `VectorQueryResponse.Value`. -/
def vectorEntryType : String :=
  "struct \x7b Metric model.Metric \"json:\\\"metric\\\"\"; " ++
    "ActualValue []interface \x7b\x7d \"json:\\\"value\\\"\"; " ++
    "Value string; Timestamp float64 \x7d"

def decodeVectorEntry : JSON → Except GoError VectorEntry
  | .obj kvs => kvs.foldlM VectorEntry.setMember {}
  | .null => .ok {}
  | j => .error (.unmarshalType j.kind vectorEntryType)

/-- Decode into the slice `VectorQueryResponse.Value`. -/
def decodeVectorEntries : JSON → Except GoError (List VectorEntry)
  | .arr xs => decodeArray decodeVectorEntry xs
  | .null => .ok []
  | j => .error (.unmarshalType j.kind ("[]" ++ vectorEntryType))

def VectorQueryResponse.setMember (r : VectorQueryResponse) (kv : String × JSON) :
    Except GoError VectorQueryResponse :=
  match findField ["result"] kv.1 with
  | none => .ok r
  | some _ =>
    match decodeVectorEntries kv.2 with
    | .ok es => .ok { r with Value := es }
    | .error e => .error e

def unmarshalVector : JSON → Except GoError VectorQueryResponse
  | .obj kvs => kvs.foldlM VectorQueryResponse.setMember {}
  | .null => .ok {}
  | j => .error (.unmarshalType j.kind "main.VectorQueryResponse")

/-- One member of an object decoded into an element of `MatrixQueryResponse.Value`;
the field `Values` has no tag, its JSON name is `Values`. -/
def MatrixEntry.setMember (r : MatrixEntry) (kv : String × JSON) :
    Except GoError MatrixEntry :=
  match findField ["metric", "Values"] kv.1 with
  | none => .ok r
  | some f =>
    if f = "metric" then
      match decodeMetric r.Metric kv.2 with
      | .ok m => .ok { r with Metric := m }
      | .error e => .error e
    else
      match decodeSliceSlice kv.2 with
      | .ok vs => .ok { r with Values := vs }
      | .error e => .error e

/-- The name `reflect` gives the element type of `MatrixQueryResponse.Value`. -/
def matrixEntryType : String :=
  "struct \x7b Metric model.Metric \"json:\\\"metric\\\"\"; " ++
    "Values [][]interface \x7b\x7d \x7d"

def decodeMatrixEntry : JSON → Except GoError MatrixEntry
  | .obj kvs => kvs.foldlM MatrixEntry.setMember {}
  | .null => .ok {}
  | j => .error (.unmarshalType j.kind matrixEntryType)

def decodeMatrixEntries : JSON → Except GoError (List MatrixEntry)
  | .arr xs => decodeArray decodeMatrixEntry xs
  | .null => .ok []
  | j => .error (.unmarshalType j.kind ("[]" ++ matrixEntryType))

def MatrixQueryResponse.setMember (r : MatrixQueryResponse) (kv : String × JSON) :
    Except GoError MatrixQueryResponse :=
  match findField ["result"] kv.1 with
  | none => .ok r
  | some _ =>
    match decodeMatrixEntries kv.2 with
    | .ok es => .ok { r with Value := es }
    | .error e => .error e

def unmarshalMatrix : JSON → Except GoError MatrixQueryResponse
  | .obj kvs => kvs.foldlM MatrixQueryResponse.setMember {}
  | .null => .ok {}
  | j => .error (.unmarshalType j.kind "main.MatrixQueryResponse")

/-! ## `util.go`: `interfaceToStruct` -/

/-- The function `interfaceToStruct(r.RespData, target)` for a `*ScalarQueryResponse`
target: marshal the `Data`, unmarshal the document into the target. -/
def interfaceToStructScalar (i : Data) : Except GoError ScalarQueryResponse :=
  unmarshalScalar (marshalData i)

/-- The function `interfaceToStruct` for a `*VectorQueryResponse` target. -/
def interfaceToStructVector (i : Data) : Except GoError VectorQueryResponse :=
  unmarshalVector (marshalData i)

/-- The function `interfaceToStruct` for a `*MatrixQueryResponse` target. -/
def interfaceToStructMatrix (i : Data) : Except GoError MatrixQueryResponse :=
  unmarshalMatrix (marshalData i)

/-! ## `fmt`: the calls the client makes -/

/-- The flag characters of a format verb. -/
def isFlag (c : Char) : Bool :=
  c = '#' || c = '0' || c = '+' || c = '-' || c = ' '

/-- The loop of `parsenum`: read decimal digits; a number that grew beyond `1e6` makes
the scan give up and jump to the end of the text. -/
def parsenumLoop (num : Nat) (isnum : Bool) : List Char → Bool × List Char
  | [] => (isnum, [])
  | c :: cs =>
    if 48 ≤ c.toNat ∧ c.toNat ≤ 57 then
      if num > 1000000 then (false, [])
      else parsenumLoop (num * 10 + (c.toNat - 48)) true cs
    else (isnum, c :: cs)

/-- The function `parsenum` of `fmt`: whether a number was read, and the text after it. -/
def parsenum (cs : List Char) : Bool × List Char := parsenumLoop 0 false cs

/-- What `argNumber` reports when no operands were passed: whether an index `[n]` was
met (`seen`), whether it parsed (`ok`), and the text after it. -/
structure ArgNumber where
  seen : Bool
  ok : Bool
  rest : List Char

/-- The function `argNumber` of `fmt` (with `parseArgNumber`) when no operands were
passed: every index is out of range. -/
def argNumber (cs : List Char) : ArgNumber :=
  match cs with
  | '[' :: t =>
    if (String.mk cs).utf8ByteSize < 3 then ⟨true, false, t⟩
    else
      match t.span (fun c => c != ']') with
      | (_, []) => ⟨true, false, t⟩
      | (inner, _ :: after) =>
        let n := parsenum inner
        ⟨true, n.1 && n.2.isEmpty, after⟩
  | _ => ⟨false, false, cs⟩

/-- One verb of `doPrintf` when no operands were passed; `cs` is the text after the
`%`.  Returns what is written and the text left.  A `.` starts a precision only when a
character follows it. -/
def verbNoArgs (cs : List Char) : String × List Char :=
  let cs := cs.dropWhile isFlag
  let a1 := argNumber cs
  let w : String × Bool × List Char :=
    match a1.rest with
    | '*' :: t => ("%!(BADWIDTH)", false, t)
    | r => ("", a1.ok, (parsenum r).2)
  let p : String × Bool × Bool × List Char :=
    match w.2.2 with
    | '.' :: c :: t =>
      let a2 := argNumber (c :: t)
      match a2.rest with
      | '*' :: t2 => (w.1 ++ "%!(BADPREC)", a1.seen || a2.seen, false, t2)
      | r => (w.1, a1.seen || a2.seen, a2.ok, (parsenum r).2)
    | r => (w.1, a1.seen, w.2.1, r)
  let a3 : Bool × List Char :=
    if p.2.2.1 then (p.2.1, p.2.2.2)
    else (p.2.1 || (argNumber p.2.2.2).seen, (argNumber p.2.2.2).rest)
  match a3.2 with
  | [] => (p.1 ++ "%!(NOVERB)", [])
  | v :: t =>
    if v = '%' then (p.1 ++ "%", t)
    else if a3.1 then (p.1 ++ "%!" ++ String.singleton v ++ "(BADINDEX)", t)
    else (p.1 ++ "%!" ++ String.singleton v ++ "(MISSING)", t)

/-- The loop of `doPrintf` when no operands were passed: text is copied up to each `%`,
the verb after it is processed, and the `skip` characters it used are passed over. -/
def doPrintfNoArgs : Nat → List Char → String
  | _, [] => ""
  | skip + 1, _ :: cs => doPrintfNoArgs skip cs
  | 0, c :: cs =>
    if c = '%' then
      (verbNoArgs cs).1 ++ doPrintfNoArgs (cs.length - (verbNoArgs cs).2.length) cs
    else String.singleton c ++ doPrintfNoArgs 0 cs

/-- The call `fmt.Errorf(format)` with a format and no operands. -/
def Errorf0 (format : String) : GoError :=
  .errorf (doPrintfNoArgs 0 format.data)

/-- The call `fmt.Sprintf("ErrorType: %s, Error: %s", errorType, error)`: the verb `%s`
writes a string operand as it is. -/
def sprintfApiError (errorType error : String) : String :=
  "ErrorType: " ++ errorType ++ ", Error: " ++ error

/-- The call `fmt.Errorf("invalid response type %s", resultType)`. -/
def errorfInvalidType (resultType : String) : GoError :=
  .errorf ("invalid response type " ++ resultType)

/-! ## `response.go`: `Fill` -/

/-- The index expression `xs[i]`. -/
def index (xs : List JSON) (i : Nat) : Except Panic JSON :=
  match xs[i]? with
  | some x => .ok x
  | none => .error (.indexOutOfRange i xs.length)

/-- The type assertion `x.(float64)`. -/
def assertFloat64 : JSON → Except Panic Float64
  | .num f => .ok f
  | _ => .error (.interfaceConversion "float64")

/-- The type assertion `x.(string)`. -/
def assertString : JSON → Except Panic String
  | .str s => .ok s
  | _ => .error (.interfaceConversion "string")

def ScalarQueryResponse.Fill (r : ScalarQueryResponse) : Except Panic ScalarQueryResponse :=
  match index r.ActualValue 0 with
  | .error p => .error p
  | .ok x0 =>
    match assertFloat64 x0 with
    | .error p => .error p
    | .ok t =>
      match index r.ActualValue 1 with
      | .error p => .error p
      | .ok x1 =>
        match assertString x1 with
        | .error p => .error p
        | .ok v => .ok { r with Timestamp := t, Value := v }

/-- The body of the loop of `VectorQueryResponse.Fill`, on `r.Value[i]`. -/
def VectorEntry.Fill (e : VectorEntry) : Except Panic VectorEntry :=
  match index e.ActualValue 0 with
  | .error p => .error p
  | .ok x0 =>
    match assertFloat64 x0 with
    | .error p => .error p
    | .ok t =>
      match index e.ActualValue 1 with
      | .error p => .error p
      | .ok x1 =>
        match assertString x1 with
        | .error p => .error p
        | .ok v => .ok { e with Timestamp := t, Value := v }

/-- The loop of `VectorQueryResponse.Fill` over the entries from the current one on. -/
def fillEntries : List VectorEntry → Except Panic (List VectorEntry)
  | [] => .ok []
  | e :: es =>
    match e.Fill with
    | .error p => .error p
    | .ok e1 =>
      match fillEntries es with
      | .error p => .error p
      | .ok es1 => .ok (e1 :: es1)

def VectorQueryResponse.Fill (r : VectorQueryResponse) : Except Panic VectorQueryResponse :=
  match fillEntries r.Value with
  | .error p => .error p
  | .ok es => .ok { r with Value := es }

def MatrixQueryResponse.Fill (r : MatrixQueryResponse) : Except Panic MatrixQueryResponse :=
  .ok r

/-- The method `Fill` of the interface `QueryResponse`. -/
def QueryResponse.Fill : QueryResponse → Except Panic QueryResponse
  | .scalar r => match r.Fill with
    | .ok r1 => .ok (.scalar r1)
    | .error p => .error p
  | .vector r => match r.Fill with
    | .ok r1 => .ok (.vector r1)
    | .error p => .error p
  | .matrix r => match r.Fill with
    | .ok r1 => .ok (.matrix r1)
    | .error p => .error p

/-! ## `client.go`: `Query` and `QueryRange` on the received body -/

/-- The last two statements of `Query`: `typedResp.Fill()` and the return. -/
def fillAndReturn (typedResp : QueryResponse) : Outcome QueryResponse :=
  match typedResp.Fill with
  | .error p => .panic p
  | .ok r => .ok r

/-- The method `Client.Query` from the point where the body `buf` has been read. -/
def Query (buf : JSON) : Outcome QueryResponse :=
  match unmarshalBaseResponse buf with
  | .error e => .err e
  | .ok r =>
    if r.Status = STATUS_ERROR then
      .err (Errorf0 (sprintfApiError r.ErrorType r.Error))
    else if r.RespData.ResultType = SCALAR_TYPE ∨ r.RespData.ResultType = STRING_TYPE then
      match interfaceToStructScalar r.RespData with
      | .error e => .err e
      | .ok typedResp => fillAndReturn (.scalar typedResp)
    else if r.RespData.ResultType = VECTOR_TYPE then
      match interfaceToStructVector r.RespData with
      | .error e => .err e
      | .ok typedResp => fillAndReturn (.vector typedResp)
    else if r.RespData.ResultType = MATRIX_TYPE then
      match interfaceToStructMatrix r.RespData with
      | .error e => .err e
      | .ok typedResp => fillAndReturn (.matrix typedResp)
    else .err (errorfInvalidType r.RespData.ResultType)

/-- The method `Client.QueryRange` from the point where the body `buf` has been read. -/
def QueryRange (buf : JSON) : Outcome MatrixQueryResponse :=
  match unmarshalBaseResponse buf with
  | .error e => .err e
  | .ok r =>
    if r.Status = STATUS_ERROR then
      .err (Errorf0 (sprintfApiError r.ErrorType r.Error))
    else if r.RespData.ResultType = MATRIX_TYPE then
      match interfaceToStructMatrix r.RespData with
      | .error e => .err e
      | .ok typedResp => .ok typedResp
    else .err (errorfInvalidType r.RespData.ResultType)

/-! ## Library functions used by the renderers -/

/-- Parts of the Go libraries that are taken as given. -/
structure Lib where
  /-- The function `strconv.IsPrint` on the runes above U+00FF (a Unicode table). -/
  isPrintWide : Char → Bool
  /-- What `fmt` writes for a verb (`'s'` for `%s`, `'f'` for `%.3f`) whose operand is
  not a string, respectively not a `float64`. -/
  fmtOther : Char → JSON → String

/-- The value `|f| * 1000` rounded to the nearest integer, ties to even. -/
def Float64.scaled1000 (f : Float64) : Nat :=
  match f.exp with
  | .ofNat e => f.mant * 2 ^ e * 1000
  | .negSucc e =>
    let d := 2 ^ (e + 1)
    let q := f.mant * 1000 / d
    let r := f.mant * 1000 % d
    if 2 * r > d ∨ (2 * r = d ∧ q % 2 = 1) then q + 1 else q

/-- Three decimal digits of a number below 1000. -/
def pad3 (n : Nat) : String :=
  (if n < 10 then "00" else if n < 100 then "0" else "") ++ toString n

/-- The verb `%.3f` on a `float64`: sign, integer part, point, three digits of the
correctly rounded value. -/
def Float64.fmt3 (f : Float64) : String :=
  (if f.neg then "-" else "") ++ toString (f.scaled1000 / 1000) ++ "." ++
    pad3 (f.scaled1000 % 1000)

/-- The verb `%s` on an `interface{}` operand. -/
def sprintS (lib : Lib) : JSON → String
  | .str s => s
  | j => lib.fmtOther 's' j

/-- The verb `%.3f` on an `interface{}` operand. -/
def sprintF3 (lib : Lib) : JSON → String
  | .num f => f.fmt3
  | j => lib.fmtOther 'f' j

/-- Hexadecimal digits of `n`, `width` of them, lower case. -/
def hexDigits (width n : Nat) : String :=
  String.mk ((List.range width).reverse.map (fun i => Nat.digitChar (n / 16 ^ i % 16)))

/-- The function `strconv.IsPrint`. -/
def isPrint (lib : Lib) (c : Char) : Bool :=
  if c.toNat ≤ 0xFF then
    (0x20 ≤ c.toNat && c.toNat < 0x7F) || (0xA1 ≤ c.toNat && c.toNat != 0xAD)
  else lib.isPrintWide c

/-- One rune of `strconv.Quote`. -/
def quoteRune (lib : Lib) (c : Char) : String :=
  if c.toNat = 34 ∨ c.toNat = 92 then "\\" ++ String.singleton c
  else if isPrint lib c then String.singleton c
  else if c.toNat = 7 then "\\a"
  else if c.toNat = 8 then "\\b"
  else if c.toNat = 12 then "\\f"
  else if c.toNat = 10 then "\\n"
  else if c.toNat = 13 then "\\r"
  else if c.toNat = 9 then "\\t"
  else if c.toNat = 11 then "\\v"
  else if c.toNat < 0x20 ∨ c.toNat = 0x7F then "\\x" ++ hexDigits 2 c.toNat
  else if c.toNat < 0x10000 then "\\u" ++ hexDigits 4 c.toNat
  else "\\U" ++ hexDigits 8 c.toNat

/-- The verb `%q` on a string: `strconv.Quote`. -/
def quote (lib : Lib) (s : String) : String :=
  "\"" ++ String.join (s.data.map (quoteRune lib)) ++ "\""

/-- The constant `model.MetricNameLabel`. -/
def MetricNameLabel : String := "__name__"

/-- The map index expression `m[k]`. -/
def Metric.lookup (m : Metric) (k : String) : Option String :=
  (m.find? (fun p => p.1 == k)).map (fun p => p.2)

/-- The method `model.Metric.String`, which the verb `%s` calls as well. -/
def Metric.String (lib : Lib) (m : Metric) : String :=
  let metricName := (m.lookup MetricNameLabel).getD ""
  let hasName := (m.lookup MetricNameLabel).isSome
  let numLabels := if hasName then m.length - 1 else m.length
  let labelStrings := (m.filter (fun p => p.1 != MetricNameLabel)).map
    (fun p => p.1 ++ "=" ++ quote lib p.2)
  if numLabels = 0 then
    if hasName then metricName else "\x7b\x7d"
  else
    metricName ++ "\x7b" ++
      ", ".intercalate (labelStrings.insertionSort (fun a b => a ≤ b)) ++ "\x7d"

/-! ### `strconv.FormatFloat(t, 'f', -1, 64)`

The call writes the shortest decimal that `strconv.ParseFloat` reads back as `t`, in
positional notation.  `strconv` finds it place by place (`roundShortest`): at the first
decimal place at which `t` cut off, or `t` cut off and raised by one unit of that place,
is a number that rounds to `t`, it rounds `t` to that place, to the nearest of the two
when both round to `t`, to the even digit when they are equally near.

The gaps are those of `float64`: they describe `f` when `|f|` has at most 53 binary digits
from the place `2^-1074` upwards, as every decoded number has. -/

/-- The loop of `bitLen`. -/
def bitLenAux : Nat → Nat → Nat → Nat
  | 0, _, acc => acc
  | fuel + 1, n, acc => if n = 0 then acc else bitLenAux fuel (n / 2) (acc + 1)

/-- The number of binary digits of `n`. -/
def bitLen (n : Nat) : Nat := bitLenAux n n 0

/-- The binary exponent of the gap between `|f|` and the next `float64` above it: a
`float64` has 53 binary digits, and no gap is smaller than `2^-1074`. -/
def Float64.gapExp (f : Float64) : Int := max (f.exp + bitLen f.mant - 53) (-1074)

/-- Whether `|f|` is a power of two above the smallest normal number: the `float64`
below it is then half as far away as the one above. -/
def Float64.binadeStart (f : Float64) : Bool :=
  decide (f.mant = 2 ^ (bitLen f.mant - 1)) && decide (-1074 < f.gapExp)

/-- Whether the 53-digit mantissa `|f| / 2^gapExp` is even: a decimal half way to a
neighbour then rounds to `f`. -/
def Float64.evenMant (f : Float64) : Bool := decide (2 ^ (f.gapExp + 1 - f.exp).toNat ∣ f.mant)

/-- The number `|f|`. -/
def Float64.abs (f : Float64) : ℚ := f.mant * (2 : ℚ) ^ f.exp

/-- Half the distance from `|f|` to the next `float64` above it. -/
def Float64.halfGapUp (f : Float64) : ℚ := (2 : ℚ) ^ (f.gapExp - 1)

/-- Half the distance from `|f|` to the next `float64` below it. -/
def Float64.halfGapDown (f : Float64) : ℚ :=
  if f.binadeStart then (2 : ℚ) ^ (f.gapExp - 2) else (2 : ℚ) ^ (f.gapExp - 1)

/-- The number `d` rounds to `|f|` (to the nearest `float64`, half way to the even
mantissa): what `strconv.ParseFloat` does with a decimal of value `d`. -/
def Float64.readsBack (f : Float64) (d : ℚ) : Prop :=
  if f.evenMant then f.abs - f.halfGapDown ≤ d ∧ d ≤ f.abs + f.halfGapUp
  else f.abs - f.halfGapDown < d ∧ d < f.abs + f.halfGapUp

/-- The number of decimal places of `|f|` written in full. -/
def Float64.fracDigits (f : Float64) : Nat := (-f.exp).toNat

/-- The search for the shortest decimal counts in units of `10^-fracDigits * 2^-fracBits`,
in which `|f|`, both half gaps and every decimal place are natural numbers. -/
def Float64.fracBits (f : Float64) : Nat := (2 - f.gapExp - f.fracDigits).toNat

/-- The unit of the search. -/
def Float64.scale (f : Float64) : ℚ := (10 : ℚ) ^ f.fracDigits * (2 : ℚ) ^ f.fracBits

/-- The number `|f|` in units of the search. -/
def Float64.scaledAbs (f : Float64) : Nat :=
  f.mant * 5 ^ f.fracDigits * 2 ^ (f.exp + f.fracDigits + f.fracBits).toNat

/-- The number `halfGapUp` in units of the search. -/
def Float64.scaledHalfGapUp (f : Float64) : Nat :=
  5 ^ f.fracDigits * 2 ^ (f.gapExp - 1 + f.fracDigits + f.fracBits).toNat

/-- The number `halfGapDown` in units of the search. -/
def Float64.scaledHalfGapDown (f : Float64) : Nat :=
  if f.binadeStart then 5 ^ f.fracDigits * 2 ^ (f.gapExp - 2 + f.fracDigits + f.fracBits).toNat
  else f.scaledHalfGapUp

/-- The decimal place `10^(k - fracDigits)` in units of the search. -/
def Float64.scaledUnit (f : Float64) (k : Nat) : Nat := 10 ^ k * 2 ^ f.fracBits

/-- Whether `d` units of the search round to `|f|`. -/
def Float64.inside (f : Float64) (d : Nat) : Bool :=
  if f.evenMant then
    decide (f.scaledAbs ≤ d + f.scaledHalfGapDown) && decide (d ≤ f.scaledAbs + f.scaledHalfGapUp)
  else
    decide (f.scaledAbs < d + f.scaledHalfGapDown) && decide (d < f.scaledAbs + f.scaledHalfGapUp)

/-- One place of `roundShortest`: `|f|` rounded to the place `10^(k - fracDigits)`, as a
multiple of that place, if rounding down or up gives a number that rounds to `|f|`. -/
def Float64.candidate (f : Float64) (k : Nat) : Option Nat :=
  let p := f.scaledUnit k
  let q := f.scaledAbs / p
  let r := f.scaledAbs % p
  let okdown := decide (0 < q) && f.inside (q * p)
  let okup := f.inside ((q + 1) * p)
  if okdown && okup then
    if 2 * r < p ∨ (2 * r = p ∧ q % 2 = 0) then some q else some (q + 1)
  else if okdown then some q
  else if okup then some (q + 1)
  else none

/-- The places from `10^(k - fracDigits)` downwards; at the place `10^-fracDigits` the
number `|f|` is written in full. -/
def Float64.search (f : Float64) : Nat → Nat × Nat
  | 0 => (f.scaledAbs / f.scaledUnit 0, 0)
  | k + 1 =>
    match f.candidate (k + 1) with
    | some m => (m, k + 1)
    | none => Float64.search f k

/-- The place the search starts at: above every number that rounds to `|f|`. -/
def Float64.startPlace (f : Float64) : Nat := bitLen (f.scaledAbs + f.scaledHalfGapUp)

/-- The shortest decimal `m * 10^j` that rounds to `|f|`, for `f` other than zero. -/
def Float64.shortest (f : Float64) : Nat × Int :=
  ((f.search f.startPlace).1, ((f.search f.startPlace).2 : Int) - f.fracDigits)

/-- The number `n` in `width` decimal digits. -/
def padZeros (width n : Nat) : String :=
  String.mk (List.replicate (width - (toString n).length) '0') ++ toString n

/-- The number `m * 10^j` in positional notation: the digits of the integer part and,
for negative `j`, a point and `-j` further digits. -/
def decimalText (m : Nat) (j : Int) : String :=
  match j with
  | .ofNat k => toString (m * 10 ^ k)
  | .negSucc k => toString (m / 10 ^ (k + 1)) ++ "." ++ padZeros (k + 1) (m % 10 ^ (k + 1))

/-- The call `strconv.FormatFloat(f, 'f', -1, 64)`. -/
def Float64.formatFloat (f : Float64) : String :=
  (if f.neg then "-" else "") ++
    (if f.mant = 0 then "0" else decimalText f.shortest.1 f.shortest.2)

/-- The value of a decimal digit. -/
def digitValue (c : Char) : Option Nat :=
  if 48 ≤ c.toNat ∧ c.toNat ≤ 57 then some (c.toNat - 48) else none

/-- The loop of `readDigits`. -/
def readDigitsAux (acc : Nat) : List Char → Option Nat
  | [] => some acc
  | c :: cs =>
    match digitValue c with
    | none => none
    | some d => readDigitsAux (acc * 10 + d) cs

/-- The number a string of one or more decimal digits denotes. -/
def readDigits : List Char → Option Nat
  | [] => none
  | cs => readDigitsAux 0 cs

/-- The number a decimal in positional notation denotes: digits, or digits, a point and
digits.  Anything else, an exponent included, is not read. -/
def readPositional (cs : List Char) : Option ℚ :=
  match readDigits (cs.takeWhile (fun c => c != '.')), cs.dropWhile (fun c => c != '.') with
  | none, _ => none
  | some a, [] => some a
  | some a, _ :: fs =>
    match readDigits fs with
    | none => none
    | some b => some (a + b / (10 : ℚ) ^ fs.length)

/-- The number a decimal in positional notation with an optional minus sign denotes. -/
def readDecimal (s : String) : Option ℚ :=
  match s.data with
  | [] => none
  | c :: cs =>
    if c = '-' then (readPositional cs).map (fun d => -d) else readPositional (c :: cs)

/-! ## `encoding/csv`: the writer -/

/-- The function `validDelim` of `encoding/csv`; every `Char` is a valid rune. -/
def validDelim (r : Char) : Bool :=
  r.toNat != 0 && r.toNat != 34 && r.toNat != 13 && r.toNat != 10 && r.toNat != 0xFFFD

/-- The function `unicode.IsSpace`. -/
def isSpace (c : Char) : Bool :=
  let n := c.toNat
  if n ≤ 0xFF then n = 9 || n = 10 || n = 11 || n = 12 || n = 13 || n = 32 || n = 0x85 || n = 0xA0
  else n = 0x1680 || (0x2000 ≤ n && n ≤ 0x200A) || n = 0x2028 || n = 0x2029 || n = 0x202F ||
    n = 0x205F || n = 0x3000

/-- The method `fieldNeedsQuotes` of `csv.Writer`. -/
def fieldNeedsQuotes (comma : Char) (field : String) : Bool :=
  if field = "" then false
  else if field = "\\." then true
  else if field.data.any (fun c => c.toNat = 10 || c.toNat = 13 || c.toNat = 34 || c = comma) then
    true
  else
    match field.data with
    | r1 :: _ => isSpace r1
    | [] => false

/-- A quoted field of `csv.Writer.Write` without the surrounding quotes: a double quote
is doubled, every other character is copied (`UseCRLF` is false). -/
def escapeQuotes : List Char → List Char
  | [] => []
  | c :: cs => if c.toNat = 34 then c :: c :: escapeQuotes cs else c :: escapeQuotes cs

/-- One field as `csv.Writer.Write` writes it. -/
def writeField (comma : Char) (field : String) : List Char :=
  if fieldNeedsQuotes comma field then
    Char.ofNat 34 :: (escapeQuotes field.data ++ [Char.ofNat 34])
  else field.data

/-- The fields of a record with the separator before every field but the first. -/
def writeFields (comma : Char) : List String → List Char
  | [] => []
  | [f] => writeField comma f
  | f :: fs => writeField comma f ++ comma :: writeFields comma fs

/-- A `csv.Writer` over a `bytes.Buffer`: the separator, the text written, and the
error of the underlying writer that `Error` reports. -/
structure Writer where
  Comma : Char
  buf : List Char
  err : Option GoError

/-- The method `csv.Writer.Write`: the writer after the call and the returned error.
An invalid separator is refused before anything is written. -/
def Writer.Write (w : Writer) (record : List String) : Writer × Option GoError :=
  if !validDelim w.Comma then (w, some .invalidDelim)
  else
    match w.err with
    | some e => (w, some e)
    | none => ({ w with buf := w.buf ++ writeFields w.Comma record ++ [Char.ofNat 10] }, none)

/-- The method `csv.Writer.Error`. -/
def Writer.Error (w : Writer) : Option GoError := w.err

/-- The method `csv.Writer.Flush`; the text is modelled as written at once. -/
def Writer.Flush (w : Writer) : Writer := w

/-! ## `util.go`: `formatCSV` -/

/-- The loop of `formatCSV`. -/
def formatCSVLoop (w : Writer) : List (List String) → Except Panic Writer
  | [] => .ok w
  | row :: rows =>
    match (w.Write row).1.Error with
    | some _ => .error (.explicit "error formatting CSV")
    | none => formatCSVLoop (w.Write row).1 rows

def formatCSV (rows : List (List String)) (delim : Char) : Except Panic String :=
  match formatCSVLoop ⟨delim, [], none⟩ rows with
  | .error p => .error p
  | .ok w =>
    match w.Flush.Error with
    | some _ => .error (.explicit "error dumping CSV")
    | none => .ok (String.mk w.Flush.buf)

/-! ## `response.go`: `ToText` and `ToCSV` -/

def ScalarQueryResponse.ToCSV (r : ScalarQueryResponse) (delim : Char) : Except Panic String :=
  formatCSV [[r.Value]] delim

def ScalarQueryResponse.ToText (r : ScalarQueryResponse) : String := r.Value

/-- The line `fmt.Sprintf("%s %s@%.3f\n", v.Metric, v.Value, v.Timestamp)`. -/
def VectorEntry.line (lib : Lib) (v : VectorEntry) : String :=
  v.Metric.String lib ++ " " ++ v.Value ++ "@" ++ v.Timestamp.fmt3 ++ "\n"

def VectorQueryResponse.ToText (lib : Lib) (r : VectorQueryResponse) : String :=
  String.join (r.Value.map (VectorEntry.line lib))

/-- The rows `VectorQueryResponse.ToCSV` hands to `formatCSV`. -/
def VectorQueryResponse.rows (lib : Lib) (r : VectorQueryResponse) : List (List String) :=
  r.Value.map (fun v => [v.Metric.String lib, v.Value, v.Timestamp.formatFloat])

def VectorQueryResponse.ToCSV (lib : Lib) (r : VectorQueryResponse) (delim : Char) :
    Except Panic String :=
  formatCSV (r.rows lib) delim

/-- The token `fmt.Sprintf("%s@%.3f" + tail, s[1], s[0])` of one sample of a series. -/
def sampleToken (lib : Lib) (tail : String) (s : List JSON) : Except Panic String :=
  match index s 1 with
  | .error p => .error p
  | .ok s1 =>
    match index s 0 with
    | .error p => .error p
    | .ok s0 => .ok (sprintS lib s1 ++ "@" ++ sprintF3 lib s0 ++ tail)

/-- The inner loop of `MatrixQueryResponse.ToText` and `ToCSV`. -/
def sampleTokens (lib : Lib) (tail : String) : List (List JSON) → Except Panic (List String)
  | [] => .ok []
  | s :: ss =>
    match sampleToken lib tail s with
    | .error p => .error p
    | .ok t =>
      match sampleTokens lib tail ss with
      | .error p => .error p
      | .ok ts => .ok (t :: ts)

/-- The line of one series in `MatrixQueryResponse.ToText`. -/
def MatrixEntry.line (lib : Lib) (v : MatrixEntry) : Except Panic String :=
  match sampleTokens lib " " v.Values with
  | .error p => .error p
  | .ok vals => .ok (v.Metric.String lib ++ " " ++ " ".intercalate vals ++ "\n")

/-- The outer loop of `MatrixQueryResponse.ToText`. -/
def matrixLines (lib : Lib) : List MatrixEntry → Except Panic (List String)
  | [] => .ok []
  | v :: vs =>
    match v.line lib with
    | .error p => .error p
    | .ok l =>
      match matrixLines lib vs with
      | .error p => .error p
      | .ok ls => .ok (l :: ls)

def MatrixQueryResponse.ToText (lib : Lib) (r : MatrixQueryResponse) : Except Panic String :=
  match matrixLines lib r.Value with
  | .error p => .error p
  | .ok lines => .ok (String.join lines)

/-- The row of one series in `MatrixQueryResponse.ToCSV`. -/
def MatrixEntry.row (lib : Lib) (v : MatrixEntry) : Except Panic (List String) :=
  match sampleTokens lib "" v.Values with
  | .error p => .error p
  | .ok vals => .ok [v.Metric.String lib, " ".intercalate vals]

/-- The rows `MatrixQueryResponse.ToCSV` hands to `formatCSV`. -/
def matrixRows (lib : Lib) : List MatrixEntry → Except Panic (List (List String))
  | [] => .ok []
  | v :: vs =>
    match v.row lib with
    | .error p => .error p
    | .ok row =>
      match matrixRows lib vs with
      | .error p => .error p
      | .ok rows => .ok (row :: rows)

def MatrixQueryResponse.ToCSV (lib : Lib) (r : MatrixQueryResponse) (delim : Char) :
    Except Panic String :=
  match matrixRows lib r.Value with
  | .error p => .error p
  | .ok rows => formatCSV rows delim

/-- The method `ToText` of the interface `QueryResponse`. -/
def QueryResponse.ToText (lib : Lib) : QueryResponse → Except Panic String
  | .scalar r => .ok r.ToText
  | .vector r => .ok (r.ToText lib)
  | .matrix r => r.ToText lib

/-- The method `ToCSV` of the interface `QueryResponse`. -/
def QueryResponse.ToCSV (lib : Lib) (delim : Char) : QueryResponse → Except Panic String
  | .scalar r => r.ToCSV delim
  | .vector r => r.ToCSV lib delim
  | .matrix r => r.ToCSV lib delim

/-! ## A reader for RFC 4180 text

The reader is not part of the program: it is the parser that the round-trip property of
`formatCSV` is stated against. -/

/-- Where the reader stands: at the start of a record, at the start of a further field,
inside an unquoted field, inside a quoted field, after a double quote met inside a
quoted field, or after a carriage return that must start a line break. -/
inductive CSVMode where
  | recordStart
  | fieldStart
  | unquoted
  | quoted
  | quoteSeen
  | crSeen
  deriving DecidableEq, Repr

/-- The reader: the records read, the fields read of the current record, the characters
read of the current field. -/
structure CSVState where
  rows : List (List String)
  fields : List String
  cur : List Char
  mode : CSVMode

/-- The current field ends and another field of the same record follows. -/
def CSVState.endField (st : CSVState) : CSVState :=
  { st with fields := st.fields ++ [String.mk st.cur], cur := [], mode := .fieldStart }

/-- The current field ends and with it the record. -/
def CSVState.endRecord (st : CSVState) : CSVState :=
  { rows := st.rows ++ [st.fields ++ [String.mk st.cur]], fields := [], cur := [],
    mode := .recordStart }

/-- One character of RFC 4180 text with separator `comma`: a record is fields split by
the separator and ended by a line break (LF or CRLF); a field is either free of
separator, double quote and line break, or enclosed in double quotes with every double
quote inside written twice.  `none` when the text is not of that form. -/
def csvStep (comma : Char) (st : CSVState) (c : Char) : Option CSVState :=
  match st.mode with
  | .quoted =>
    if c.toNat = 34 then some { st with mode := .quoteSeen }
    else some { st with cur := st.cur ++ [c] }
  | .quoteSeen =>
    if c.toNat = 34 then some { st with cur := st.cur ++ [c], mode := .quoted }
    else if c = comma then some st.endField
    else if c.toNat = 10 then some st.endRecord
    else if c.toNat = 13 then some { st with mode := .crSeen }
    else none
  | .crSeen => if c.toNat = 10 then some st.endRecord else none
  | .unquoted =>
    if c.toNat = 34 then none
    else if c = comma then some st.endField
    else if c.toNat = 10 then some st.endRecord
    else if c.toNat = 13 then some { st with mode := .crSeen }
    else some { st with cur := st.cur ++ [c] }
  | _ =>
    if c.toNat = 34 then some { st with mode := .quoted }
    else if c = comma then some st.endField
    else if c.toNat = 10 then some st.endRecord
    else if c.toNat = 13 then some { st with mode := .crSeen }
    else some { st with cur := st.cur ++ [c], mode := .unquoted }

/-- The reader run over a text. -/
def csvRun (comma : Char) : CSVState → List Char → Option CSVState
  | st, [] => some st
  | st, c :: cs =>
    match csvStep comma st c with
    | none => none
    | some st1 => csvRun comma st1 cs

/-- The end of the text: the last record may lack its line break. -/
def CSVState.finish (st : CSVState) : Option (List (List String)) :=
  match st.mode with
  | .recordStart => some st.rows
  | .quoted => none
  | .crSeen => none
  | _ => some (st.rows ++ [st.fields ++ [String.mk st.cur]])

/-- The records of an RFC 4180 text with separator `comma`. -/
def parseCSV (comma : Char) (text : String) : Option (List (List String)) :=
  match csvRun comma ⟨[], [], [], .recordStart⟩ text.data with
  | none => none
  | some st => st.finish

/-- The text `formatCSV` writes for rows when the separator is valid. -/
def csvText (comma : Char) : List (List String) → List Char
  | [] => []
  | row :: rows => writeFields comma row ++ Char.ofNat 10 :: csvText comma rows

/-- A character that may stand in an unquoted field. -/
def plainChar (comma : Char) (c : Char) : Prop :=
  c.toNat ≠ 34 ∧ c ≠ comma ∧ c.toNat ≠ 10 ∧ c.toNat ≠ 13

/-- The reader has read a whole field: a separator or a line break may follow. -/
def fieldRead (m : CSVMode) (cur : List Char) : Prop :=
  ((m = .recordStart ∨ m = .fieldStart) ∧ cur = []) ∨ m = .unquoted ∨ m = .quoteSeen

/-! ## Wire shapes and example bodies -/

/-- The matrix response decoded from series whose samples are pairs `[t, v]`. -/
def matrixOfSeries (series : List (Metric × List (Float64 × String))) : MatrixQueryResponse :=
  ⟨series.map (fun s => ⟨s.1, s.2.map (fun p => [.num p.1, .str p.2])⟩)⟩

/-- The timestamp `1435781451.781` as a `float64`. -/
def exampleTimestamp : Float64 := ⟨false, 6022103886330855, -22⟩

/-- The envelope with status `success` around a result. -/
def successBody (resultType : String) (result : JSON) : JSON :=
  .obj [("status", .str "success"),
    ("data", .obj [("resultType", .str resultType), ("result", result)])]

/-- The body `{"status":"success","data":{"resultType":"scalar","result":[1435781451.781,"1"]}}`. -/
def scalarBody : JSON := successBody "scalar" (.arr [.num exampleTimestamp, .str "1"])

/-- The body `{"status":"success","data":{"resultType":"vector","result":[]}}`. -/
def emptyVectorBody : JSON := successBody "vector" (.arr [])

/-- The vector body with the one entry `{"metric":{"__name__":"up","job":"api"},
"value":[1435781451.781,"1"]}`. -/
def vectorBody : JSON :=
  successBody "vector" (.arr [.obj [
    ("metric", .obj [("__name__", .str "up"), ("job", .str "api")]),
    ("value", .arr [.num exampleTimestamp, .str "1"])]])

/-- The matrix body with the one series `{"metric":{"__name__":"x"},
"values":[[0,"1"],[1,"2"]]}`. -/
def matrixBody : JSON :=
  successBody "matrix" (.arr [.obj [
    ("metric", .obj [("__name__", .str "x")]),
    ("values", .arr [.arr [.num ⟨false, 0, 0⟩, .str "1"], .arr [.num ⟨false, 1, 0⟩, .str "2"]])]])

/-- The body `{"status":"error","errorType":"bad_data","error":"100%"}`. -/
def percentErrorBody : JSON :=
  .obj [("status", .str "error"), ("errorType", .str "bad_data"), ("error", .str "100%")]

/-- The scalar body with the result `["a","1"]`, whose first element is not a number. -/
def scalarNoNumberBody : JSON := successBody "scalar" (.arr [.str "a", .str "1"])

/-- The vector body with the one entry `{"metric":{},"value":[1435781451.781]}`, whose
sample has one element. -/
def vectorShortBody : JSON :=
  successBody "vector" (.arr [.obj [("metric", .obj []),
    ("value", .arr [.num exampleTimestamp])]])

/-- The matrix body with the one series `{"metric":{},"values":[[1435781451.781]]}`,
whose sample has one element. -/
def matrixShortBody : JSON :=
  successBody "matrix" (.arr [.obj [("metric", .obj []),
    ("values", .arr [.arr [.num exampleTimestamp]])]])

/-- The entry of `vectorBody` on the wire. -/
def upEntry : JSON :=
  .obj [("metric", .obj [("__name__", .str "up"), ("job", .str "api")]),
    ("value", .arr [.num exampleTimestamp, .str "1"])]

/-- The response `interfaceToStruct` decodes from the data of `vectorBody`. -/
def upDecoded : VectorQueryResponse :=
  ⟨[⟨[("__name__", "up"), ("job", "api")], [.num exampleTimestamp, .str "1"], "",
    Float64.zero⟩]⟩

/-- The response `upDecoded` after `Fill`. -/
def upFilled : VectorQueryResponse :=
  ⟨[⟨[("__name__", "up"), ("job", "api")], [.num exampleTimestamp, .str "1"], "1",
    exampleTimestamp⟩]⟩

/-- A `Lib` for evaluating examples that do not depend on it. -/
def exampleLib : Lib := ⟨fun _ => false, fun _ _ => ""⟩

/-- The body `{"status":"success","data":{"resultType":"vector","result":"abc"}}`, whose
result is a string where the vector shape has an array. -/
def vectorStringBody : JSON := successBody "vector" (.str "abc")

/-- The body `{"data":{"resultType":"scalar","result":[1435781451.781,"1"]}}`, which has
no status. -/
def noStatusBody : JSON :=
  .obj [("data", .obj [("resultType", .str "scalar"),
    ("result", .arr [.num exampleTimestamp, .str "1"])])]

/-- The body `{"status":"ok","data":{"resultType":"matrix","result":[]}}`, whose status
is neither `success` nor `error`. -/
def otherStatusBody : JSON :=
  .obj [("status", .str "ok"),
    ("data", .obj [("resultType", .str "matrix"), ("result", .arr [])])]

/-- The body `{"status":"success"}`, which has no data. -/
def noDataBody : JSON := .obj [("status", .str "success")]

/-- The body `{"status":"success","data":null}`. -/
def nullDataBody : JSON := .obj [("status", .str "success"), ("data", .null)]

/-- The struct fields of `BaseResponse` by their JSON names. -/
def baseResponseFields : List String := ["data", "status", "errorType", "error"]

/-- The body `{"status":"success","data":{"resultType":"string","result":[1435781451.781,"\\."]}}`,
whose value is a backslash followed by a dot. -/
def backslashDotBody : JSON :=
  successBody "string" (.arr [.num exampleTimestamp, .str "\\."])

/-- Texts written one after the other, each after one space. -/
def spaced : List String → String
  | [] => ""
  | t :: ts => " " ++ t ++ spaced ts

/-- Texts separated by one space: the first text, then every further text after one
space; nothing before the first and nothing after the last. -/
def joinSpace : List String → String
  | [] => ""
  | t :: ts => t ++ spaced ts

/-! ## `client.go`: the request URL -/

def queryPath : String := "/api/v1/query"
def queryRangePath : String := "/api/v1/query_range"
def metricsPath : String := "/api/v1/metrics"

/-- The call `strings.TrimRight(s, "/")`: `s` without its trailing slashes. -/
def trimRightSlash (s : String) : String :=
  String.mk (s.data.rdropWhile (fun c => decide (c = '/')))

/-- The path of the request URL of `Query`, from the path of the parsed endpoint:
`u.Path = strings.TrimRight(u.Path, "/") + queryPath`. -/
def queryRequestPath (path : String) : String := trimRightSlash path ++ queryPath

/-- The path of the request URL of `QueryRange`. -/
def queryRangeRequestPath (path : String) : String := trimRightSlash path ++ queryRangePath

/-- The path of the request URL of `Metrics`. -/
def metricsRequestPath (path : String) : String := trimRightSlash path ++ metricsPath

/-- The number of places of `text` at which `s` starts. -/
def occurrences (s : List Char) : List Char → Nat
  | [] => 0
  | c :: cs => (if s.isPrefixOf (c :: cs) then 1 else 0) + occurrences s cs

/-- No proper end of `s` is a beginning of `s`: two occurrences of `s` cannot overlap. -/
def borderFree (s : List Char) : Prop :=
  ∀ k, k < s.length → 0 < k → ¬ ((s.drop k).isPrefixOf s = true)

/-! ### `net/url`: the query string

In this part a Go string is the list of its bytes: escaping works byte by byte and an
unescaped text need not be UTF-8. -/

/-- A byte of a Go string. -/
abbrev Byte := Fin 256

/-- A Go string as its bytes. -/
abbrev Bytes := List Byte

/-- The bytes of a text of ASCII characters. -/
def ascii (s : String) : Bytes := s.data.map (fun c => Fin.ofNat c.toNat)

/-- The type `url.Values`, a map from a key to the list of its values, as the list of
its entries (keys are distinct). -/
abbrev Values := List (Bytes × List Bytes)

/-- The keys of the map. -/
def Values.keys (v : Values) : List Bytes := v.map (fun p => p.1)

/-- The map index expression `v[key]`: the values of a key, none for an absent key. -/
def Values.lookup (v : Values) (key : Bytes) : List Bytes :=
  match v.find? (fun p => p.1 == key) with
  | some p => p.2
  | none => []

/-- The method `Values.Set`, `v[key] = []string{value}`: the entry of the key, if any,
is replaced by the entry with the one value. -/
def Values.Set (v : Values) (key value : Bytes) : Values :=
  (key, [value]) :: v.filter (fun p => p.1 != key)

/-- The statement `m[key] = append(m[key], value)` of `parseQuery`. -/
def Values.add (v : Values) (key value : Bytes) : Values :=
  (key, v.lookup key ++ [value]) :: v.filter (fun p => p.1 != key)

/-- The function `ishex` of `net/url`. -/
def ishex (c : Byte) : Bool :=
  (48 ≤ c.val && c.val ≤ 57) || (97 ≤ c.val && c.val ≤ 102) || (65 ≤ c.val && c.val ≤ 70)

/-- The function `unhex` of `net/url`. -/
def unhex (c : Byte) : Nat :=
  if 48 ≤ c.val ∧ c.val ≤ 57 then c.val - 48
  else if 97 ≤ c.val ∧ c.val ≤ 102 then c.val - 97 + 10
  else if 65 ≤ c.val ∧ c.val ≤ 70 then c.val - 65 + 10
  else 0

/-- The digit `"0123456789ABCDEF"[n]`. -/
def upperhex (n : Nat) : Byte :=
  if n < 10 then Fin.ofNat (48 + n) else Fin.ofNat (55 + n)

/-- The function `shouldEscape` of `net/url` for a query component: everything but
letters, digits and `-`, `_`, `.`, `~` is escaped. -/
def shouldEscape (c : Byte) : Bool :=
  !((97 ≤ c.val && c.val ≤ 122) || (65 ≤ c.val && c.val ≤ 90) || (48 ≤ c.val && c.val ≤ 57) ||
    c.val = 45 || c.val = 95 || c.val = 46 || c.val = 126)

/-- One byte as `url.QueryEscape` writes it: itself, `+` for a space, else `%XX`. -/
def escapeByte (c : Byte) : Bytes :=
  if shouldEscape c then
    if c.val = 32 then [43] else [37, upperhex (c.val / 16), upperhex (c.val % 16)]
  else [c]

/-- The function `url.QueryEscape`. -/
def queryEscape : Bytes → Bytes
  | [] => []
  | c :: cs => escapeByte c ++ queryEscape cs

/-- The function `url.QueryUnescape`: `%XX` is the byte with that code, `+` is a space;
`none` stands for the error on a `%` that two hexadecimal digits do not follow. -/
def queryUnescape : Bytes → Option Bytes
  | [] => some []
  | c :: cs =>
    if c.val = 37 then
      match cs with
      | h1 :: h2 :: rest =>
        if ishex h1 && ishex h2 then
          match queryUnescape rest with
          | some r => some (Fin.ofNat (unhex h1 * 16 + unhex h2) :: r)
          | none => none
        else none
      | _ => none
    else
      match queryUnescape cs with
      | some r => some ((if c.val = 43 then 32 else c) :: r)
      | none => none

/-- The pieces of a query string between its `&`, in order. -/
def splitAmp : Bytes → List Bytes
  | [] => [[]]
  | c :: cs =>
    if c.val = 38 then [] :: splitAmp cs
    else
      match splitAmp cs with
      | p :: ps => (c :: p) :: ps
      | [] => [[c]]

/-- The call `strings.Cut(piece, "=")`: the text before the first `=` and the text after
it; without `=` the whole text and the empty text. -/
def cutEq : Bytes → Bytes × Bytes
  | [] => ([], [])
  | c :: cs => if c.val = 61 then ([], cs) else (c :: (cutEq cs).1, (cutEq cs).2)

/-- One turn of the loop of `parseQuery` of `net/url`, on the piece up to the next `&`:
a piece with a `;`, an empty piece and a piece whose key or value does not unescape are
passed over; otherwise the value is appended to the values of the key. -/
def parsePiece (m : Values) (piece : Bytes) : Values :=
  if (59 : Byte) ∈ piece then m
  else if piece = [] then m
  else
    match queryUnescape (cutEq piece).1 with
    | none => m
    | some key =>
      match queryUnescape (cutEq piece).2 with
      | none => m
      | some value => m.add key value

/-- The call `u.Query()`: `url.ParseQuery` on the raw query, its error dropped. -/
def parseQuery (query : Bytes) : Values := (splitAmp query).foldl parsePiece []

/-- The order of Go strings: byte by byte. -/
def bytesLE : Bytes → Bytes → Bool
  | [], _ => true
  | _ :: _, [] => false
  | a :: as, b :: bs => a.val < b.val || (a.val = b.val && bytesLE as bs)

/-- The parameters of the given keys, key by key, each key with its values in order. -/
def Values.paramsOf (v : Values) : List Bytes → List (Bytes × Bytes)
  | [] => []
  | k :: ks => (v.lookup k).map (fun x => (k, x)) ++ Values.paramsOf v ks

/-- The parameters that `Values.Encode` writes, in the order it writes them: the keys
sorted, and for each key its values in their order. -/
def Values.params (v : Values) : List (Bytes × Bytes) :=
  v.paramsOf (v.keys.insertionSort (fun a b => bytesLE a b = true))

/-- One parameter as `Values.Encode` writes it: escaped key, `=`, escaped value. -/
def encodeParam (p : Bytes × Bytes) : Bytes := queryEscape p.1 ++ 61 :: queryEscape p.2

/-- Texts with a `&` between consecutive ones. -/
def joinAmp : List Bytes → Bytes
  | [] => []
  | [p] => p
  | p :: ps => p ++ 38 :: joinAmp ps

/-- The method `Values.Encode`. -/
def Values.Encode (v : Values) : Bytes := joinAmp (v.params.map encodeParam)

/-- The values that a list of parameters carries for a key, in order. -/
def paramValues (ps : List (Bytes × Bytes)) (key : Bytes) : List Bytes :=
  (ps.filter (fun p => p.1 == key)).map (fun p => p.2)

/-- The value `|f| * 10^6` rounded to the nearest integer, ties to even. -/
def Float64.scaled1000000 (f : Float64) : Nat :=
  match f.exp with
  | .ofNat e => f.mant * 2 ^ e * 1000000
  | .negSucc e =>
    let d := 2 ^ (e + 1)
    let q := f.mant * 1000000 / d
    let r := f.mant * 1000000 % d
    if 2 * r > d ∨ (2 * r = d ∧ q % 2 = 1) then q + 1 else q

/-- Six decimal digits of a number below 1000000. -/
def pad6 (n : Nat) : String :=
  String.mk (List.replicate (6 - (toString n).length) '0') ++ toString n

/-- The verb `%f` on a finite `float64`: six fractional digits. -/
def Float64.fmt6 (f : Float64) : String :=
  (if f.neg then "-" else "") ++ toString (f.scaled1000000 / 1000000) ++ "." ++
    pad6 (f.scaled1000000 % 1000000)

/-- A `float64` that a caller passes: a finite value, a NaN or an infinity. -/
inductive FloatArg where
  | finite (f : Float64)
  | nan
  | posInf
  | negInf

/-- The call `fmt.Sprintf("%f", end)`. -/
def sprintfF : FloatArg → String
  | .finite f => f.fmt6
  | .nan => "NaN"
  | .posInf => "+Inf"
  | .negInf => "-Inf"

/-- The raw query of the request URL of `Query`, from the raw query of the endpoint:
`q := u.Query(); q.Set("query", expr); u.RawQuery = q.Encode()`. -/
def queryRawQuery (rawQuery expr : Bytes) : Bytes :=
  ((parseQuery rawQuery).Set (ascii "query") expr).Encode

/-- The raw query of the request URL of `QueryRange`; `rangeSec` and `step` are `uint64`
and written by `%d`. -/
def queryRangeRawQuery (rawQuery expr : Bytes) (end_ : FloatArg) (rangeSec step : Nat) :
    Bytes :=
  (((((parseQuery rawQuery).Set (ascii "query") expr).Set (ascii "end")
    (ascii (sprintfF end_))).Set (ascii "range") (ascii (toString rangeSec))).Set
    (ascii "step") (ascii (toString step))).Encode

/-! ## `Fill` as the in-place update it is -/

/-- The entry `r.Value[i]` as the two assignments of the loop body leave it, and the
panic that stopped them, if any: an assignment whose right-hand side panics does not
take place. -/
def VectorEntry.fillState (e : VectorEntry) : VectorEntry × Option Panic :=
  match index e.ActualValue 0 with
  | .error p => (e, some p)
  | .ok x0 =>
    match assertFloat64 x0 with
    | .error p => (e, some p)
    | .ok t =>
      match index e.ActualValue 1 with
      | .error p => ({ e with Timestamp := t }, some p)
      | .ok x1 =>
        match assertString x1 with
        | .error p => ({ e with Timestamp := t }, some p)
        | .ok v => ({ e with Timestamp := t, Value := v }, none)

/-- The entries as the loop of `VectorQueryResponse.Fill` leaves them, whether it runs
to the end or is stopped by a panic. -/
def fillEntriesState : List VectorEntry → List VectorEntry × Option Panic
  | [] => ([], none)
  | e :: es =>
    match e.fillState with
    | (e1, some p) => (e1 :: es, some p)
    | (e1, none) => (e1 :: (fillEntriesState es).1, (fillEntriesState es).2)

/-- The response as `VectorQueryResponse.Fill` leaves it, and the panic, if any. -/
def VectorQueryResponse.fillState (r : VectorQueryResponse) :
    VectorQueryResponse × Option Panic :=
  ({ r with Value := (fillEntriesState r.Value).1 }, (fillEntriesState r.Value).2)

/-! # Properties -/

/-! ## Result-type dispatch -/

/-- C1 (as the claim states it, refuted): the body
`{"status":"success","data":{"resultType":"vector","result":"abc"}}` parses as an
envelope with status `success` and `resultType` `vector`, and `Query` yields no
vector-shaped response, nor any other: it returns the error of the decoding. -/
theorem query_vector_not_decoded :
    unmarshalBaseResponse vectorStringBody = .ok ⟨⟨"vector", .str "abc"⟩, "success", "", ""⟩ ∧
    "success" ≠ STATUS_ERROR ∧ "vector" = VECTOR_TYPE ∧
    (∃ e, Query vectorStringBody = .err e) ∧
    (∀ resp, Query vectorStringBody ≠ .ok resp) := by
  have h : Query vectorStringBody
      = .err (.unmarshalType "string" ("[]" ++ vectorEntryType)) := rfl
  refine ⟨rfl, by decide, rfl, ⟨_, h⟩, ?_⟩
  intro resp hr
  rw [h] at hr
  cases hr

/-- C1 (amended): for a body that parses as an envelope `r` whose status is not `error`:
with `resultType` `scalar` or `string` every response `Query` returns is scalar-shaped,
`Query` returns the decoded and filled scalar response whenever the data decode into the
scalar shape and `Fill` completes, and it returns no response and the decode error when
the data do not decode; likewise for `vector` and the vector shape and for `matrix` and
the matrix shape; for every other `resultType` X `Query` returns no response and the
error `invalid response type X`. -/
theorem query_dispatch (buf : JSON) (r : BaseResponse)
    (hparse : unmarshalBaseResponse buf = .ok r) (hstatus : r.Status ≠ STATUS_ERROR) :
    (r.RespData.ResultType = SCALAR_TYPE ∨ r.RespData.ResultType = STRING_TYPE →
      (∀ resp, Query buf = .ok resp → ∃ s, resp = .scalar s) ∧
      (∀ s s1, interfaceToStructScalar r.RespData = .ok s → s.Fill = .ok s1 →
        Query buf = .ok (.scalar s1)) ∧
      (∀ e, interfaceToStructScalar r.RespData = .error e → Query buf = .err e)) ∧
    (r.RespData.ResultType = VECTOR_TYPE →
      (∀ resp, Query buf = .ok resp → ∃ v, resp = .vector v) ∧
      (∀ v v1, interfaceToStructVector r.RespData = .ok v → v.Fill = .ok v1 →
        Query buf = .ok (.vector v1)) ∧
      (∀ e, interfaceToStructVector r.RespData = .error e → Query buf = .err e)) ∧
    (r.RespData.ResultType = MATRIX_TYPE →
      (∀ resp, Query buf = .ok resp → ∃ m, resp = .matrix m) ∧
      (∀ m, interfaceToStructMatrix r.RespData = .ok m → Query buf = .ok (.matrix m)) ∧
      (∀ e, interfaceToStructMatrix r.RespData = .error e → Query buf = .err e)) ∧
    (r.RespData.ResultType ≠ SCALAR_TYPE → r.RespData.ResultType ≠ STRING_TYPE →
      r.RespData.ResultType ≠ VECTOR_TYPE → r.RespData.ResultType ≠ MATRIX_TYPE →
      Query buf = .err (.errorf ("invalid response type " ++ r.RespData.ResultType))) := by
  refine ⟨?_, ?_, ?_, ?_⟩
  · intro hrt
    have hq : Query buf = match interfaceToStructScalar r.RespData with
        | .error e => .err e
        | .ok typedResp => fillAndReturn (.scalar typedResp) := by
      simp only [Query, hparse, if_neg hstatus, if_pos hrt]
    refine ⟨?_, ?_, ?_⟩
    · intro resp h
      rw [hq] at h
      cases hd : interfaceToStructScalar r.RespData with
      | error e => rw [hd] at h; cases h
      | ok t =>
        rw [hd] at h
        simp only [fillAndReturn, QueryResponse.Fill] at h
        cases hf : t.Fill with
        | error p => rw [hf] at h; cases h
        | ok t1 => rw [hf] at h; cases h; exact ⟨t1, rfl⟩
    · intro s s1 hs hf
      rw [hq, hs]
      simp only [fillAndReturn, QueryResponse.Fill, hf]
    · intro e he
      rw [hq, he]
  · intro hrt
    have hne : ¬ (r.RespData.ResultType = SCALAR_TYPE ∨ r.RespData.ResultType = STRING_TYPE) := by
      rw [hrt]; decide
    have hq : Query buf = match interfaceToStructVector r.RespData with
        | .error e => .err e
        | .ok typedResp => fillAndReturn (.vector typedResp) := by
      simp only [Query, hparse, if_neg hstatus, if_neg hne, if_pos hrt]
    refine ⟨?_, ?_, ?_⟩
    · intro resp h
      rw [hq] at h
      cases hd : interfaceToStructVector r.RespData with
      | error e => rw [hd] at h; cases h
      | ok t =>
        rw [hd] at h
        simp only [fillAndReturn, QueryResponse.Fill] at h
        cases hf : t.Fill with
        | error p => rw [hf] at h; cases h
        | ok t1 => rw [hf] at h; cases h; exact ⟨t1, rfl⟩
    · intro s s1 hs hf
      rw [hq, hs]
      simp only [fillAndReturn, QueryResponse.Fill, hf]
    · intro e he
      rw [hq, he]
  · intro hrt
    have hne : ¬ (r.RespData.ResultType = SCALAR_TYPE ∨ r.RespData.ResultType = STRING_TYPE) := by
      rw [hrt]; decide
    have hnv : ¬ r.RespData.ResultType = VECTOR_TYPE := by rw [hrt]; decide
    have hq : Query buf = match interfaceToStructMatrix r.RespData with
        | .error e => .err e
        | .ok typedResp => fillAndReturn (.matrix typedResp) := by
      simp only [Query, hparse, if_neg hstatus, if_neg hne, if_neg hnv, if_pos hrt]
    refine ⟨?_, ?_, ?_⟩
    · intro resp h
      rw [hq] at h
      cases hd : interfaceToStructMatrix r.RespData with
      | error e => rw [hd] at h; cases h
      | ok t =>
        rw [hd] at h
        simp only [fillAndReturn, QueryResponse.Fill, MatrixQueryResponse.Fill] at h
        cases h; exact ⟨t, rfl⟩
    · intro m hm
      rw [hq, hm]
      simp only [fillAndReturn, QueryResponse.Fill, MatrixQueryResponse.Fill]
    · intro e he
      rw [hq, he]
  · intro h1 h2 h3 h4
    have hne : ¬ (r.RespData.ResultType = SCALAR_TYPE ∨ r.RespData.ResultType = STRING_TYPE) := by
      rintro (h | h)
      · exact h1 h
      · exact h2 h
    simp only [Query, hparse, if_neg hstatus, if_neg hne, if_neg h3, if_neg h4, errorfInvalidType]

/-- C1 (amended) at the scalar example body: the body parses, its status is not `error`,
and `Query` returns the filled scalar response. -/
theorem query_dispatch_witness :
    unmarshalBaseResponse scalarBody
        = .ok ⟨⟨"scalar", .arr [.num exampleTimestamp, .str "1"]⟩, "success", "", ""⟩ ∧
      "success" ≠ STATUS_ERROR ∧
      Query scalarBody
        = .ok (.scalar ⟨[.num exampleTimestamp, .str "1"], "1", exampleTimestamp⟩) :=
  ⟨rfl, by decide, ((query_dispatch scalarBody
      ⟨⟨"scalar", .arr [.num exampleTimestamp, .str "1"]⟩, "success", "", ""⟩
      rfl (by decide)).1 (Or.inl rfl)).2.1 _ _ rfl rfl⟩

/-- C2: for a body that parses as an envelope whose status is not `error` and whose
`resultType` is any string X other than `matrix`, `QueryRange` returns no response and
the error `invalid response type X`. -/
theorem queryRange_only_matrix (buf : JSON) (r : BaseResponse)
    (hparse : unmarshalBaseResponse buf = .ok r) (hstatus : r.Status ≠ STATUS_ERROR)
    (hrt : r.RespData.ResultType ≠ MATRIX_TYPE) :
    QueryRange buf = .err (.errorf ("invalid response type " ++ r.RespData.ResultType)) := by
  simp only [QueryRange, hparse, if_neg hstatus, if_neg hrt, errorfInvalidType]

/-- C2 at the body `{"status":"success","data":{"resultType":"vector","result":[]}}`:
the error is `invalid response type vector`. -/
theorem queryRange_only_matrix_witness :
    unmarshalBaseResponse emptyVectorBody = .ok ⟨⟨"vector", .arr []⟩, "success", "", ""⟩ ∧
      "success" ≠ STATUS_ERROR ∧ "vector" ≠ MATRIX_TYPE ∧
      QueryRange emptyVectorBody = .err (.errorf "invalid response type vector") :=
  ⟨rfl, by decide, by decide,
    queryRange_only_matrix emptyVectorBody ⟨⟨"vector", .arr []⟩, "success", "", ""⟩ rfl
      (by decide) (by decide)⟩

/-! ## The API error envelope -/

/-- A format without `%` is written as it is. -/
theorem doPrintfNoArgs_plain (cs : List Char) (h : ∀ c ∈ cs, c ≠ '%') :
    doPrintfNoArgs 0 cs = String.mk cs := by
  induction cs with
  | nil => rfl
  | cons c cs ih =>
    have hc : c ≠ '%' := h c (List.mem_cons_self _ _)
    simp only [doPrintfNoArgs, if_neg hc]
    rw [ih (fun x hx => h x (List.mem_cons_of_mem _ hx))]
    rfl

/-- When neither `errorType` nor `error` holds a `%`, the error of an envelope with
status `error` carries both as they are. -/
theorem apiError_plain (errorType error : String)
    (h1 : ∀ c ∈ errorType.data, c ≠ '%') (h2 : ∀ c ∈ error.data, c ≠ '%') :
    Errorf0 (sprintfApiError errorType error)
      = .errorf ("ErrorType: " ++ errorType ++ ", Error: " ++ error) := by
  unfold Errorf0 sprintfApiError
  rw [doPrintfNoArgs_plain]
  intro c hc
  simp only [String.data_append, List.mem_append] at hc
  rcases hc with ((hc | hc) | hc) | hc
  · revert c; decide
  · exact h1 c hc
  · revert c; decide
  · exact h2 c hc

/-- C3 at the body `{"status":"error","errorType":"bad_data","error":"100%"}`: `Query`
and `QueryRange` return the error `ErrorType: bad_data, Error: 100%!(NOVERB)`, which is
not the message `ErrorType: bad_data, Error: 100%` that carries `error` unchanged. -/
theorem apiError_percent :
    Query percentErrorBody = .err (.errorf "ErrorType: bad_data, Error: 100%!(NOVERB)") ∧
    QueryRange percentErrorBody
      = .err (.errorf "ErrorType: bad_data, Error: 100%!(NOVERB)") ∧
    "ErrorType: bad_data, Error: 100%!(NOVERB)" ≠ "ErrorType: bad_data, Error: 100%" :=
  ⟨rfl, rfl, by decide⟩

/-! ## Malformed samples -/

/-- C4 at three malformed bodies: for the scalar result `["a","1"]` `Query` panics on the
type assertion in `Fill`; for a vector sample `[1435781451.781]` it panics on the index
in `Fill`; for a matrix sample `[1435781451.781]` `Query` and `QueryRange` return a
response that holds the one-element sample.  None returns an error. -/
theorem malformed_sample_not_rejected :
    Query scalarNoNumberBody = .panic (.interfaceConversion "float64") ∧
    Query vectorShortBody = .panic (.indexOutOfRange 1 1) ∧
    Query matrixShortBody = .ok (.matrix ⟨[⟨[], [[.num exampleTimestamp]]⟩]⟩) ∧
    QueryRange matrixShortBody = .ok ⟨[⟨[], [[.num exampleTimestamp]]⟩]⟩ :=
  ⟨rfl, rfl, rfl, rfl⟩

/-! ## Sample normalization by `Fill` -/

theorem decodeArray_spec {α : Type} (f : JSON → Except GoError α) (xs : List JSON)
    (as : List α) (h : decodeArray f xs = .ok as) :
    as.length = xs.length ∧
      ∀ (i : Nat) (x : JSON), xs[i]? = some x → ∃ a : α, as[i]? = some a ∧ f x = .ok a := by
  induction xs generalizing as with
  | nil =>
    simp only [decodeArray] at h
    cases h
    simp
  | cons x xs ih =>
    simp only [decodeArray] at h
    cases hx : f x with
    | error e => rw [hx] at h; cases h
    | ok a =>
      rw [hx] at h
      cases hxs : decodeArray f xs with
      | error e => rw [hxs] at h; cases h
      | ok as1 =>
        rw [hxs] at h
        cases h
        obtain ⟨hl, hi⟩ := ih as1 hxs
        refine ⟨by simp [hl], ?_⟩
        intro i y hy
        cases i with
        | zero =>
          simp only [List.getElem?_cons_zero, Option.some.injEq] at hy
          subst hy
          exact ⟨a, by simp, hx⟩
        | succ n =>
          simp only [List.getElem?_cons_succ] at hy
          simpa using hi n y hy

/-- What `interfaceToStruct` does for a vector target when the result is an array. -/
theorem interfaceToStructVector_arr (rt : String) (ws : List JSON) :
    interfaceToStructVector ⟨rt, .arr ws⟩ =
      match decodeArray decodeVectorEntry ws with
      | .ok es => .ok ⟨es⟩
      | .error e => .error e := by
  have h1 : findField ["result"] "resultType" = none := by decide
  have h2 : findField ["result"] "result" = some "result" := by decide
  simp only [interfaceToStructVector, unmarshalVector, marshalData, List.foldlM,
    VectorQueryResponse.setMember, h1, h2, decodeVectorEntries]
  cases decodeArray decodeVectorEntry ws <;> rfl

/-- What `interfaceToStruct` does for a scalar target when the result is an array. -/
theorem interfaceToStructScalar_arr (rt : String) (xs : List JSON) :
    interfaceToStructScalar ⟨rt, .arr xs⟩ = .ok ⟨xs, "", Float64.zero⟩ := by
  have h1 : findField ["result", "Value", "Timestamp"] "resultType" = none := by decide
  have h2 : findField ["result", "Value", "Timestamp"] "result" = some "result" := by decide
  simp only [interfaceToStructScalar, unmarshalScalar, marshalData, List.foldlM,
    ScalarQueryResponse.setMember, h1, h2, decodeSlice]
  rfl

theorem VectorEntry.Fill_pair (e : VectorEntry) (t : Float64) (v : String)
    (h : e.ActualValue = [.num t, .str v]) :
    e.Fill = .ok { e with Timestamp := t, Value := v } := by
  simp [VectorEntry.Fill, h, index, assertFloat64, assertString]

theorem fillEntries_pairs (es : List VectorEntry)
    (h : ∀ e ∈ es, ∃ t v, e.ActualValue = [.num t, .str v]) :
    ∃ es1, fillEntries es = .ok es1 ∧ es1.length = es.length ∧
      ∀ (i : Nat) (e : VectorEntry), es[i]? = some e → ∃ (e1 : VectorEntry) (t : Float64) (v : String), es1[i]? = some e1 ∧
        e.ActualValue = [.num t, .str v] ∧ e1 = { e with Timestamp := t, Value := v } := by
  induction es with
  | nil => exact ⟨[], rfl, rfl, by simp⟩
  | cons e es ih =>
    obtain ⟨t, v, htv⟩ := h e (List.mem_cons_self _ _)
    obtain ⟨es1, h1, h2, h3⟩ := ih (fun x hx => h x (List.mem_cons_of_mem _ hx))
    refine ⟨{ e with Timestamp := t, Value := v } :: es1, ?_, by simp [h2], ?_⟩
    · simp only [fillEntries, VectorEntry.Fill_pair e t v htv, h1]
    · intro i x hx
      cases i with
      | zero =>
        simp only [List.getElem?_cons_zero, Option.some.injEq] at hx
        subst hx
        exact ⟨_, t, v, by simp, htv, rfl⟩
      | succ n =>
        simp only [List.getElem?_cons_succ] at hx
        simpa using h3 n x hx

/-- C5: for a vector response `r` decoded from the wire list `ws` whose raw sample arrays
are pairs `[number, string]`, `Fill` succeeds; the filled response has as many entries
as `ws`; entry `i` is the decoding of wire entry `i` with `Timestamp` and `Value` set to
the first and second element of its pair, metric and raw array unchanged.  For a scalar
response whose result is the pair `[t, v]`, `Fill` sets `Timestamp` to `t` and `Value`
to `v`. -/
theorem fill_normalizes (rt : String) (ws : List JSON) (r : VectorQueryResponse)
    (hdec : interfaceToStructVector ⟨rt, .arr ws⟩ = .ok r)
    (hpair : ∀ e ∈ r.Value, ∃ t v, e.ActualValue = [.num t, .str v]) :
    (∃ r1, r.Fill = .ok r1 ∧ r1.Value.length = ws.length ∧
      ∀ (i : Nat) (w : JSON), ws[i]? = some w → ∃ (e e1 : VectorEntry) (t : Float64) (v : String),
        decodeVectorEntry w = .ok e ∧
        e.ActualValue = [.num t, .str v] ∧ r1.Value[i]? = some e1 ∧
        e1.Timestamp = t ∧ e1.Value = v ∧ e1.Metric = e.Metric ∧
        e1.ActualValue = e.ActualValue) ∧
    (∀ (rt1 : String) (t : Float64) (v : String),
      ∃ s s1, interfaceToStructScalar ⟨rt1, .arr [.num t, .str v]⟩ = .ok s ∧
        s.ActualValue = [.num t, .str v] ∧ s.Fill = .ok s1 ∧
        s1.Timestamp = t ∧ s1.Value = v ∧ s1.ActualValue = [.num t, .str v]) := by
  refine ⟨?_, ?_⟩
  · rw [interfaceToStructVector_arr] at hdec
    cases hes : decodeArray decodeVectorEntry ws with
    | error e => rw [hes] at hdec; cases hdec
    | ok es =>
      rw [hes] at hdec
      cases hdec
      obtain ⟨hlen, hidx⟩ := decodeArray_spec _ _ _ hes
      obtain ⟨es1, h1, h2, h3⟩ := fillEntries_pairs es hpair
      refine ⟨⟨es1⟩, by simp [VectorQueryResponse.Fill, h1], by simp [h2, hlen], ?_⟩
      intro i w hw
      obtain ⟨e, he, hde⟩ := hidx i w hw
      obtain ⟨e1, t, v, he1, htv, heq⟩ := h3 i e he
      exact ⟨e, e1, t, v, hde, htv, he1, by rw [heq], by rw [heq], by rw [heq], by rw [heq]⟩
  · intro rt1 t v
    refine ⟨⟨[.num t, .str v], "", Float64.zero⟩, ⟨[.num t, .str v], v, t⟩,
      interfaceToStructScalar_arr rt1 _, rfl, ?_, rfl, rfl, rfl⟩
    simp [ScalarQueryResponse.Fill, index, assertFloat64, assertString]

/-- C5 at the data of the vector example body: the one decoded entry is filled with
the timestamp `1435781451.781` and the value `1`. -/
theorem fill_normalizes_witness :
    interfaceToStructVector ⟨"vector", .arr [upEntry]⟩ = .ok upDecoded ∧
    (∃ r1, upDecoded.Fill = .ok r1 ∧ r1.Value.length = [upEntry].length ∧
      ∀ (i : Nat) (w : JSON), [upEntry][i]? = some w →
        ∃ (e e1 : VectorEntry) (t : Float64) (v : String), decodeVectorEntry w = .ok e ∧
        e.ActualValue = [.num t, .str v] ∧ r1.Value[i]? = some e1 ∧
        e1.Timestamp = t ∧ e1.Value = v ∧ e1.Metric = e.Metric ∧
        e1.ActualValue = e.ActualValue) :=
  ⟨rfl, (fill_normalizes "vector" [upEntry] upDecoded rfl (by
    intro e he
    simp only [upDecoded, List.mem_singleton] at he
    subst he
    exact ⟨exampleTimestamp, "1", rfl⟩)).1⟩

/-! ## Rendering -/

/-- C6 at the matrix body whose one sample is `[1435781451.781]`: `Query` returns the
response without error, and `ToText` and `ToCSV` panic on the index `s[1]`. -/
theorem render_panics_on_short_sample (lib : Lib) (delim : Char) :
    Query matrixShortBody = .ok (.matrix ⟨[⟨[], [[.num exampleTimestamp]]⟩]⟩) ∧
    QueryResponse.ToText lib (.matrix ⟨[⟨[], [[.num exampleTimestamp]]⟩]⟩)
      = .error (.indexOutOfRange 1 1) ∧
    QueryResponse.ToCSV lib delim (.matrix ⟨[⟨[], [[.num exampleTimestamp]]⟩]⟩)
      = .error (.indexOutOfRange 1 1) :=
  ⟨rfl, rfl, rfl⟩

theorem String.join_cons_eq (a : String) (l : List String) :
    String.join (a :: l) = a ++ String.join l := by
  have h : ∀ (l : List String) (acc : String),
      List.foldl (fun r s => r ++ s) acc l = acc ++ List.foldl (fun r s => r ++ s) "" l := by
    intro l
    induction l with
    | nil => intro acc; simp
    | cons x xs ih =>
      intro acc
      simp only [List.foldl_cons]
      rw [ih (acc ++ x), ih ("" ++ x)]
      simp [String.append_assoc]
  simp only [String.join, List.foldl_cons]
  rw [h]
  simp

theorem sampleTokens_pairs (lib : Lib) (tail : String) (ps : List (Float64 × String)) :
    sampleTokens lib tail (ps.map (fun p => [.num p.1, .str p.2]))
      = .ok (ps.map (fun p => p.2 ++ "@" ++ p.1.fmt3 ++ tail)) := by
  induction ps with
  | nil => rfl
  | cons p ps ih =>
    simp only [List.map_cons, sampleTokens, ih]
    simp [sampleToken, index, sprintS, sprintF3]

theorem matrixLines_pairs (lib : Lib) (series : List (Metric × List (Float64 × String))) :
    matrixLines lib (matrixOfSeries series).Value
      = .ok (series.map (fun s => s.1.String lib ++ " " ++
          " ".intercalate (s.2.map (fun p => p.2 ++ "@" ++ p.1.fmt3 ++ " ")) ++ "\n")) := by
  induction series with
  | nil => rfl
  | cons s series ih =>
    simp only [matrixOfSeries, List.map_cons, matrixLines] at ih ⊢
    rw [ih]
    simp [MatrixEntry.line, sampleTokens_pairs]

/-- C7: for a matrix response whose samples are pairs `[t, v]`, `ToText` is the
concatenation, in series order and without separator, of one line per series: the metric
string, one space, the tokens `<v>@<t> ` (three fractional digits, one trailing space
each) joined by one space, and a newline.  For the series `x` with samples `[0,"1"]`,
`[1,"2"]`, decoded by `Query` from the example body, it is `x 1@0.000  2@1.000 \n`. -/
theorem matrix_toText_format (lib : Lib) (series : List (Metric × List (Float64 × String))) :
    (matrixOfSeries series).ToText lib
      = .ok ((series.map (fun s => s.1.String lib ++ " " ++
          " ".intercalate (s.2.map (fun p => p.2 ++ "@" ++ p.1.fmt3 ++ " ")) ++ "\n")).foldr
            (fun line text => line ++ text) "") ∧
    Query matrixBody
      = .ok (.matrix (matrixOfSeries [([("__name__", "x")], [(⟨false, 0, 0⟩, "1"),
          (⟨false, 1, 0⟩, "2")])])) ∧
    (matrixOfSeries [([("__name__", "x")], [(⟨false, 0, 0⟩, "1"),
        (⟨false, 1, 0⟩, "2")])]).ToText lib = .ok "x 1@0.000  2@1.000 \n" := by
  refine ⟨?_, rfl, rfl⟩
  simp only [MatrixQueryResponse.ToText, matrixLines_pairs]
  congr 1
  generalize (series.map (fun s => s.1.String lib ++ " " ++
          " ".intercalate (s.2.map (fun p => p.2 ++ "@" ++ p.1.fmt3 ++ " ")) ++ "\n")) = lines
  induction lines with
  | nil => rfl
  | cons l ls ih => rw [String.join_cons_eq, ih]; rfl

/-- C8: for every vector response, `ToText` is the concatenation, in entry order and
without separator, of one string `<metric> <v>@<t>\n` per entry, with the entry's metric
string, its `Value` and its `Timestamp` with three fractional digits; for no entries it
is the empty string; for the one entry of the example body, decoded and filled by
`Query`, it is `up{job="api"} 1@1435781451.781\n`. -/
theorem vector_toText_format (lib : Lib) (r : VectorQueryResponse) :
    r.ToText lib
      = (r.Value.map (fun e => e.Metric.String lib ++ " " ++ e.Value ++ "@" ++
          e.Timestamp.fmt3 ++ "\n")).foldr (fun line text => line ++ text) "" ∧
    (r.Value.map (fun e => e.Metric.String lib ++ " " ++ e.Value ++ "@" ++
          e.Timestamp.fmt3 ++ "\n")).length = r.Value.length ∧
    VectorQueryResponse.ToText lib ⟨[]⟩ = "" ∧
    Query vectorBody
      = .ok (.vector ⟨[⟨[("__name__", "up"), ("job", "api")],
          [.num exampleTimestamp, .str "1"], "1", exampleTimestamp⟩]⟩) ∧
    VectorQueryResponse.ToText lib ⟨[⟨[("__name__", "up"), ("job", "api")],
          [.num exampleTimestamp, .str "1"], "1", exampleTimestamp⟩]⟩
      = "up\x7bjob=\"api\"\x7d 1@1435781451.781\n" := by
  refine ⟨?_, by simp, rfl, rfl, rfl⟩
  simp only [VectorQueryResponse.ToText]
  have : VectorEntry.line lib = fun e => e.Metric.String lib ++ " " ++ e.Value ++ "@" ++
          e.Timestamp.fmt3 ++ "\n" := rfl
  rw [this]
  generalize (r.Value.map (fun e => e.Metric.String lib ++ " " ++ e.Value ++ "@" ++
          e.Timestamp.fmt3 ++ "\n")) = lines
  induction lines with
  | nil => rfl
  | cons l ls ih => rw [String.join_cons_eq, ih]; rfl

/-! ## The CSV writer and reader -/

theorem validDelim_ne {comma : Char} (h : validDelim comma = true) :
    comma.toNat ≠ 34 ∧ comma.toNat ≠ 13 ∧ comma.toNat ≠ 10 := by
  simp only [validDelim, Bool.and_eq_true, bne_iff_ne, ne_eq] at h
  exact ⟨h.1.1.1.2, h.1.1.2, h.1.2⟩

theorem csvRun_append (comma : Char) (a b : List Char) (st : CSVState) :
    csvRun comma st (a ++ b) =
      match csvRun comma st a with
      | none => none
      | some st1 => csvRun comma st1 b := by
  induction a generalizing st with
  | nil => rfl
  | cons c cs ih =>
    simp only [List.cons_append, csvRun]
    cases csvStep comma st c with
    | none => rfl
    | some st1 => exact ih st1

theorem csvRun_unquoted (comma : Char) (cs : List Char) (rows : List (List String))
    (fields : List String) (cur : List Char) (hcs : ∀ c ∈ cs, plainChar comma c) :
    csvRun comma ⟨rows, fields, cur, .unquoted⟩ cs = some ⟨rows, fields, cur ++ cs, .unquoted⟩ := by
  induction cs generalizing cur with
  | nil => simp [csvRun]
  | cons c cs ih =>
    obtain ⟨h1, h2, h3, h4⟩ := hcs c (List.mem_cons_self _ _)
    have hstep : csvStep comma ⟨rows, fields, cur, .unquoted⟩ c
        = some ⟨rows, fields, cur ++ [c], .unquoted⟩ := by
      simp [csvStep, h1, h2, h3, h4]
    simp only [csvRun, hstep]
    rw [ih _ (fun x hx => hcs x (List.mem_cons_of_mem _ hx))]
    simp

theorem csvRun_quoted (comma : Char) (cs : List Char) (rows : List (List String))
    (fields : List String) (cur : List Char) :
    csvRun comma ⟨rows, fields, cur, .quoted⟩ (escapeQuotes cs)
      = some ⟨rows, fields, cur ++ cs, .quoted⟩ := by
  induction cs generalizing cur with
  | nil => simp [csvRun, escapeQuotes]
  | cons c cs ih =>
    by_cases hc : c.toNat = 34
    · have h1 : csvStep comma ⟨rows, fields, cur, .quoted⟩ c
          = some ⟨rows, fields, cur, .quoteSeen⟩ := by
        simp [csvStep, hc]
      have h2 : csvStep comma ⟨rows, fields, cur, .quoteSeen⟩ c
          = some ⟨rows, fields, cur ++ [c], .quoted⟩ := by
        simp [csvStep, hc]
      simp only [escapeQuotes, if_pos hc, csvRun, h1, h2]
      rw [ih]
      simp
    · have h1 : csvStep comma ⟨rows, fields, cur, .quoted⟩ c
          = some ⟨rows, fields, cur ++ [c], .quoted⟩ := by
        simp [csvStep, hc]
      simp only [escapeQuotes, if_neg hc, csvRun, h1]
      rw [ih]
      simp

theorem csvStep_comma_of_fieldRead {comma : Char} (hv : validDelim comma = true)
    (rows : List (List String)) (fields : List String) (cur : List Char) (m : CSVMode)
    (h : fieldRead m cur) :
    csvStep comma ⟨rows, fields, cur, m⟩ comma
      = some ⟨rows, fields ++ [String.mk cur], [], .fieldStart⟩ := by
  obtain ⟨h1, -, -⟩ := validDelim_ne hv
  rcases h with ⟨hm | hm, -⟩ | hm | hm <;> subst hm <;>
    simp [csvStep, h1, CSVState.endField]

theorem csvStep_newline_of_fieldRead {comma : Char} (hv : validDelim comma = true)
    (rows : List (List String)) (fields : List String) (cur : List Char) (m : CSVMode)
    (h : fieldRead m cur) :
    csvStep comma ⟨rows, fields, cur, m⟩ (Char.ofNat 10)
      = some ⟨rows ++ [fields ++ [String.mk cur]], [], [], .recordStart⟩ := by
  obtain ⟨-, -, h3⟩ := validDelim_ne hv
  have hne : Char.ofNat 10 ≠ comma := by
    intro h; apply h3; rw [← h]; decide
  have h10 : (Char.ofNat 10).toNat = 10 := by decide
  rcases h with ⟨hm | hm, -⟩ | hm | hm <;> subst hm <;>
    simp [csvStep, hne, h10, CSVState.endRecord]

/-- An unquoted field has only characters that may stand in one. -/
theorem plain_of_not_needsQuotes (comma : Char) (f : String)
    (h : fieldNeedsQuotes comma f = false) : ∀ c ∈ f.data, plainChar comma c := by
  intro c hc
  unfold fieldNeedsQuotes at h
  by_cases h1 : f = ""
  · subst h1; simp at hc
  · rw [if_neg h1] at h
    by_cases h2 : f = "\\."
    · rw [if_pos h2] at h; cases h
    · rw [if_neg h2] at h
      by_cases h3 : f.data.any (fun c => c.toNat = 10 || c.toNat = 13 || c.toNat = 34 || c = comma) = true
      · rw [if_pos h3] at h; cases h
      · rw [List.any_eq_true] at h3
        refine ⟨?_, ?_, ?_, ?_⟩ <;> intro hx <;> apply h3 <;> exact ⟨c, hc, by simp [hx]⟩

/-- Reading a written field from the start of a field leaves the reader with the
field's characters, ready for a separator or a line break. -/
theorem csvRun_writeField (comma : Char) (f : String)
    (rows : List (List String)) (fields : List String) (m : CSVMode)
    (hm : m = .recordStart ∨ m = .fieldStart) :
    ∃ m1, csvRun comma ⟨rows, fields, [], m⟩ (writeField comma f)
        = some ⟨rows, fields, f.data, m1⟩ ∧ fieldRead m1 f.data := by
  unfold writeField
  by_cases hq : fieldNeedsQuotes comma f = true
  · rw [if_pos hq]
    have h34 : (Char.ofNat 34).toNat = 34 := by decide
    have h1 : csvStep comma ⟨rows, fields, [], m⟩ (Char.ofNat 34)
        = some ⟨rows, fields, [], .quoted⟩ := by
      rcases hm with hm | hm <;> subst hm <;> simp [csvStep, h34]
    refine ⟨.quoteSeen, ?_, Or.inr (Or.inr rfl)⟩
    simp only [csvRun, h1]
    rw [csvRun_append, csvRun_quoted]
    simp [csvRun, csvStep, h34]
  · rw [if_neg hq]
    have hplain := plain_of_not_needsQuotes comma f (by simpa using hq)
    cases hd : f.data with
    | nil => exact ⟨m, by simp [csvRun], Or.inl ⟨hm, rfl⟩⟩
    | cons c cs =>
      rw [hd] at hplain
      obtain ⟨p1, p2, p3, p4⟩ := hplain c (List.mem_cons_self _ _)
      have h1 : csvStep comma ⟨rows, fields, [], m⟩ c
          = some ⟨rows, fields, [c], .unquoted⟩ := by
        rcases hm with hm | hm <;> subst hm <;> simp [csvStep, p1, p2, p3, p4]
      refine ⟨.unquoted, ?_, Or.inr (Or.inl rfl)⟩
      simp only [csvRun, h1]
      rw [csvRun_unquoted comma cs rows fields [c]
        (fun x hx => hplain x (List.mem_cons_of_mem _ hx))]
      simp

/-- Reading a written record, line break included, adds the record. -/
theorem csvRun_writeFields {comma : Char} (hv : validDelim comma = true) (f : String)
    (fs : List String) (rows : List (List String)) (fields : List String) (m : CSVMode)
    (hm : m = .recordStart ∨ m = .fieldStart) :
    csvRun comma ⟨rows, fields, [], m⟩ (writeFields comma (f :: fs) ++ [Char.ofNat 10])
      = some ⟨rows ++ [fields ++ f :: fs], [], [], .recordStart⟩ := by
  induction fs generalizing f fields m with
  | nil =>
    obtain ⟨m1, h1, h2⟩ := csvRun_writeField comma f rows fields m hm
    simp only [writeFields]
    rw [csvRun_append, h1]
    simp only [csvRun]
    rw [csvStep_newline_of_fieldRead hv _ _ _ _ h2]
  | cons g gs ih =>
    obtain ⟨m1, h1, h2⟩ := csvRun_writeField comma f rows fields m hm
    simp only [writeFields, List.append_assoc, List.cons_append]
    rw [csvRun_append, h1]
    simp only [csvRun]
    rw [csvStep_comma_of_fieldRead hv _ _ _ _ h2]
    simp only
    have := ih g (fields ++ [f]) .fieldStart (Or.inr rfl)
    simpa using this

theorem formatCSVLoop_valid {comma : Char} (hv : validDelim comma = true)
    (rows : List (List String)) (buf : List Char) :
    formatCSVLoop ⟨comma, buf, none⟩ rows = .ok ⟨comma, buf ++ csvText comma rows, none⟩ := by
  induction rows generalizing buf with
  | nil => simp [formatCSVLoop, csvText]
  | cons row rows ih =>
    simp only [formatCSVLoop, Writer.Write, hv, Writer.Error]
    simp only [Bool.not_true, Bool.false_eq_true, if_false]
    rw [ih]
    simp [csvText]

theorem formatCSV_valid {comma : Char} (hv : validDelim comma = true)
    (rows : List (List String)) :
    formatCSV rows comma = .ok (String.mk (csvText comma rows)) := by
  simp [formatCSV, formatCSVLoop_valid hv, Writer.Flush, Writer.Error]

theorem formatCSVLoop_invalid {comma : Char} (hv : validDelim comma = false)
    (rows : List (List String)) (buf : List Char) :
    formatCSVLoop ⟨comma, buf, none⟩ rows = .ok ⟨comma, buf, none⟩ := by
  induction rows with
  | nil => simp [formatCSVLoop]
  | cons row rows ih =>
    simp only [formatCSVLoop, Writer.Write, hv, Writer.Error]
    simpa using ih

/-- Neither `panic` of `formatCSV` is reached, whatever the rows and the separator. -/
theorem formatCSV_ok (rows : List (List String)) (delim : Char) :
    ∃ text, formatCSV rows delim = .ok text := by
  cases hv : validDelim delim with
  | true => exact ⟨_, formatCSV_valid hv rows⟩
  | false =>
    exact ⟨String.mk [], by simp [formatCSV, formatCSVLoop_invalid hv, Writer.Flush, Writer.Error]⟩

theorem csvRun_csvText {comma : Char} (hv : validDelim comma = true)
    (rows : List (List String)) (hrows : ∀ row ∈ rows, row ≠ []) (done : List (List String)) :
    csvRun comma ⟨done, [], [], .recordStart⟩ (csvText comma rows)
      = some ⟨done ++ rows, [], [], .recordStart⟩ := by
  induction rows generalizing done with
  | nil => simp [csvText, csvRun]
  | cons row rows ih =>
    cases row with
    | nil => exact absurd rfl (hrows [] (List.mem_cons_self _ _))
    | cons f fs =>
      have h := csvRun_writeFields hv f fs done [] .recordStart (Or.inl rfl)
      have e : csvText comma ((f :: fs) :: rows)
          = (writeFields comma (f :: fs) ++ [Char.ofNat 10]) ++ csvText comma rows := by
        simp [csvText]
      rw [e, csvRun_append, h]
      simp only [List.nil_append]
      rw [ih (fun r hr => hrows r (List.mem_cons_of_mem _ hr))]
      simp

theorem parseCSV_csvText {comma : Char} (hv : validDelim comma = true)
    (rows : List (List String)) (hrows : ∀ row ∈ rows, row ≠ []) :
    parseCSV comma (String.mk (csvText comma rows)) = some rows := by
  simp [parseCSV, csvRun_csvText hv rows hrows, CSVState.finish]


theorem formatCSV_round_trip {comma : Char} (hv : validDelim comma = true)
    (rows : List (List String)) (hrows : ∀ row ∈ rows, row ≠ []) :
    ∃ text, formatCSV rows comma = .ok text ∧ parseCSV comma text = some rows :=
  ⟨_, formatCSV_valid hv rows, parseCSV_csvText hv rows hrows⟩

theorem matrixRows_ne_nil (lib : Lib) (vs : List MatrixEntry) (rows : List (List String))
    (h : matrixRows lib vs = .ok rows) : ∀ row ∈ rows, row ≠ [] := by
  induction vs generalizing rows with
  | nil =>
    simp only [matrixRows] at h
    cases h
    simp
  | cons v vs ih =>
    simp only [matrixRows, MatrixEntry.row] at h
    cases ht : sampleTokens lib "" v.Values with
    | error p => rw [ht] at h; cases h
    | ok vals =>
      rw [ht] at h
      cases hr : matrixRows lib vs with
      | error p => rw [hr] at h; cases h
      | ok rows1 =>
        rw [hr] at h
        cases h
        intro row hrow
        rcases List.mem_cons.mp hrow with h1 | h1
        · rw [h1]; simp
        · exact ih rows1 hr row h1

/-- C9: for a valid separator and rows that each have at least one field, `formatCSV`
returns a text from which the RFC 4180 reader with the same separator reads exactly the
rows; a field that holds the separator, a double quote or a newline is written in double
quotes with every double quote inside doubled; so the rows of the scalar, the vector
and the matrix `ToCSV` are read back as they were handed to the writer. -/
theorem csv_round_trip (comma : Char) (rows : List (List String))
    (hv : validDelim comma = true) (hrows : ∀ row ∈ rows, row ≠ []) :
    (∃ text, formatCSV rows comma = .ok text ∧ parseCSV comma text = some rows) ∧
    (∀ f : String, comma ∈ f.data ∨ Char.ofNat 34 ∈ f.data ∨ Char.ofNat 10 ∈ f.data →
      writeField comma f = Char.ofNat 34 :: (escapeQuotes f.data ++ [Char.ofNat 34])) ∧
    (∀ r : ScalarQueryResponse,
      ∃ text, r.ToCSV comma = .ok text ∧ parseCSV comma text = some [[r.Value]]) ∧
    (∀ (lib : Lib) (r : VectorQueryResponse),
      ∃ text, r.ToCSV lib comma = .ok text ∧ parseCSV comma text = some (r.rows lib)) ∧
    (∀ (lib : Lib) (r : MatrixQueryResponse) (mrows : List (List String)),
      matrixRows lib r.Value = .ok mrows →
      ∃ text, r.ToCSV lib comma = .ok text ∧ parseCSV comma text = some mrows) := by
  refine ⟨formatCSV_round_trip hv rows hrows, ?_, ?_, ?_, ?_⟩
  · intro f hf
    have hq : fieldNeedsQuotes comma f = true := by
      by_contra hn
      have hplain := plain_of_not_needsQuotes comma f (by simpa using hn)
      rcases hf with hf | hf | hf
      · exact (hplain comma hf).2.1 rfl
      · exact (hplain _ hf).1 (by decide)
      · exact (hplain _ hf).2.2.1 (by decide)
    simp [writeField, hq]
  · intro r
    exact formatCSV_round_trip hv [[r.Value]] (by simp)
  · intro lib r
    apply formatCSV_round_trip hv
    intro row hrow
    simp only [VectorQueryResponse.rows, List.mem_map] at hrow
    obtain ⟨e, -, he⟩ := hrow
    rw [← he]
    simp
  · intro lib r mrows hm
    simp only [MatrixQueryResponse.ToCSV, hm]
    exact formatCSV_round_trip hv mrows (matrixRows_ne_nil lib _ _ hm)

/-- C9 at the separator `,` and the row `a,b`, `c"d`, `x⏎y`: the written text is read
back as that row. -/
theorem csv_round_trip_witness :
    validDelim ',' = true ∧
    ∃ text, formatCSV [["a,b", "c\"d", "x\ny"]] ',' = .ok text ∧
      parseCSV ',' text = some [["a,b", "c\"d", "x\ny"]] :=
  ⟨by decide, (csv_round_trip ',' [["a,b", "c\"d", "x\ny"]] (by decide) (by simp)).1⟩

/-! ## The shortest decimal of a timestamp -/

theorem bitLenAux_spec : ∀ (fuel n acc : Nat), n ≤ fuel →
    ∃ b, bitLenAux fuel n acc = acc + b ∧ n < 2 ^ b
  | 0, n, acc, h => ⟨0, rfl, by simp; omega⟩
  | fuel + 1, n, acc, h => by
    simp only [bitLenAux]
    split
    · rename_i h0
      subst h0
      exact ⟨0, rfl, by simp⟩
    · obtain ⟨b, h1, h2⟩ := bitLenAux_spec fuel (n / 2) (acc + 1) (by omega)
      refine ⟨b + 1, by rw [h1]; omega, ?_⟩
      rw [pow_succ]
      omega

theorem lt_two_pow_bitLen (n : Nat) : n < 2 ^ bitLen n := by
  obtain ⟨b, h1, h2⟩ := bitLenAux_spec n n 0 (le_refl n)
  unfold bitLen
  rw [h1, Nat.zero_add]
  exact h2

theorem cast_two_pow_toNat (n : Int) (h : 0 ≤ n) : ((2 ^ n.toNat : ℕ) : ℚ) = (2 : ℚ) ^ n := by
  rw [Nat.cast_pow, ← zpow_natCast, Int.toNat_of_nonneg h]
  rfl

theorem Float64.exp_fracDigits_nonneg (f : Float64) : 0 ≤ f.exp + f.fracDigits := by
  have h := Int.self_le_toNat (-f.exp)
  unfold Float64.fracDigits
  omega

theorem Float64.gap_fracBits_nonneg (f : Float64) :
    0 ≤ f.gapExp - 2 + f.fracDigits + f.fracBits := by
  have h := Int.self_le_toNat (2 - f.gapExp - f.fracDigits)
  unfold Float64.fracBits
  omega

theorem Float64.scale_pos (f : Float64) : 0 < f.scale := by
  unfold Float64.scale
  positivity

theorem ten_pow_split (t : Nat) : (10 : ℚ) ^ t = 2 ^ t * 5 ^ t := by
  rw [← mul_pow]
  norm_num

theorem Float64.scaledAbs_cast (f : Float64) : (f.scaledAbs : ℚ) = f.abs * f.scale := by
  have h0 : 0 ≤ f.exp + f.fracDigits + f.fracBits := by
    have := f.exp_fracDigits_nonneg
    omega
  have h2 : (2 : ℚ) ≠ 0 := by norm_num
  unfold Float64.scaledAbs Float64.abs Float64.scale
  rw [Nat.cast_mul, Nat.cast_mul, cast_two_pow_toNat _ h0, zpow_add₀ h2, zpow_add₀ h2,
    zpow_natCast, zpow_natCast, ten_pow_split]
  push_cast
  ring

theorem Float64.scaledHalfGapUp_cast (f : Float64) :
    (f.scaledHalfGapUp : ℚ) = f.halfGapUp * f.scale := by
  have h0 : 0 ≤ f.gapExp - 1 + f.fracDigits + f.fracBits := by
    have := f.gap_fracBits_nonneg
    omega
  have h2 : (2 : ℚ) ≠ 0 := by norm_num
  unfold Float64.scaledHalfGapUp Float64.halfGapUp Float64.scale
  rw [Nat.cast_mul, cast_two_pow_toNat _ h0, zpow_add₀ h2, zpow_add₀ h2,
    zpow_natCast, zpow_natCast, ten_pow_split]
  push_cast
  ring

theorem Float64.scaledHalfGapDown_cast (f : Float64) :
    (f.scaledHalfGapDown : ℚ) = f.halfGapDown * f.scale := by
  have h0 : 0 ≤ f.gapExp - 2 + f.fracDigits + f.fracBits := f.gap_fracBits_nonneg
  have h2 : (2 : ℚ) ≠ 0 := by norm_num
  unfold Float64.scaledHalfGapDown Float64.halfGapDown
  split
  · unfold Float64.scale
    rw [Nat.cast_mul, cast_two_pow_toNat _ h0, zpow_add₀ h2, zpow_add₀ h2,
      zpow_natCast, zpow_natCast, ten_pow_split]
    push_cast
    ring
  · exact f.scaledHalfGapUp_cast

theorem Float64.scaledUnit_cast (f : Float64) (c k : Nat) :
    ((c * f.scaledUnit k : ℕ) : ℚ) = (c * (10 : ℚ) ^ ((k : Int) - f.fracDigits)) * f.scale := by
  have h10 : (10 : ℚ) ≠ 0 := by norm_num
  unfold Float64.scaledUnit Float64.scale
  rw [zpow_sub₀ h10, zpow_natCast, zpow_natCast]
  push_cast
  field_simp
  ring

theorem Float64.scaledHalfGapUp_pos (f : Float64) : 0 < f.scaledHalfGapUp := by
  unfold Float64.scaledHalfGapUp
  positivity

theorem Float64.scaledHalfGapDown_pos (f : Float64) : 0 < f.scaledHalfGapDown := by
  unfold Float64.scaledHalfGapDown
  split
  · positivity
  · exact f.scaledHalfGapUp_pos

theorem Float64.scaledUnit_pos (f : Float64) (k : Nat) : 0 < f.scaledUnit k := by
  unfold Float64.scaledUnit
  positivity

/-- The test `inside` decides `readsBack` on the numbers the search counts in. -/
theorem Float64.readsBack_iff_inside (f : Float64) (q : ℚ) (d : Nat)
    (h : q * f.scale = d) : f.readsBack q ↔ f.inside d = true := by
  have hK := f.scale_pos
  have hV := f.scaledAbs_cast
  have hU := f.scaledHalfGapUp_cast
  have hL := f.scaledHalfGapDown_cast
  have e1 : (f.abs - f.halfGapDown) * f.scale = (f.scaledAbs : ℚ) - f.scaledHalfGapDown := by
    rw [hV, hL]; ring
  have e2 : (f.abs + f.halfGapUp) * f.scale = (f.scaledAbs : ℚ) + f.scaledHalfGapUp := by
    rw [hV, hU]; ring
  have a1 : f.abs - f.halfGapDown ≤ q ↔ f.scaledAbs ≤ d + f.scaledHalfGapDown := by
    rw [← mul_le_mul_right hK, e1, h, sub_le_iff_le_add]
    exact_mod_cast Iff.rfl
  have a2 : q ≤ f.abs + f.halfGapUp ↔ d ≤ f.scaledAbs + f.scaledHalfGapUp := by
    rw [← mul_le_mul_right hK, e2, h]
    exact_mod_cast Iff.rfl
  have a3 : f.abs - f.halfGapDown < q ↔ f.scaledAbs < d + f.scaledHalfGapDown := by
    rw [← mul_lt_mul_right hK, e1, h, sub_lt_iff_lt_add]
    exact_mod_cast Iff.rfl
  have a4 : q < f.abs + f.halfGapUp ↔ d < f.scaledAbs + f.scaledHalfGapUp := by
    rw [← mul_lt_mul_right hK, e2, h]
    exact_mod_cast Iff.rfl
  unfold Float64.readsBack Float64.inside
  cases f.evenMant
  · simp [a3, a4]
  · simp [a1, a2]

/-- The numbers that round to `|f|` form an interval. -/
theorem Float64.readsBack_convex (f : Float64) (a b c : ℚ) (ha : f.readsBack a)
    (hb : f.readsBack b) (hac : a ≤ c) (hcb : c ≤ b) : f.readsBack c := by
  unfold Float64.readsBack at *
  cases hev : f.evenMant
  · simp only [hev, Bool.false_eq_true, if_false] at ha hb ⊢
    exact ⟨lt_of_lt_of_le ha.1 hac, lt_of_le_of_lt hcb hb.2⟩
  · simp only [hev, if_true] at ha hb ⊢
    exact ⟨le_trans ha.1 hac, le_trans hcb hb.2⟩

theorem Float64.inside_prop (f : Float64) (d : Nat) :
    f.inside d = true ↔
      (if f.evenMant = true then
        f.scaledAbs ≤ d + f.scaledHalfGapDown ∧ d ≤ f.scaledAbs + f.scaledHalfGapUp
      else f.scaledAbs < d + f.scaledHalfGapDown ∧ d < f.scaledAbs + f.scaledHalfGapUp) := by
  unfold Float64.inside
  cases f.evenMant <;> simp

theorem Float64.inside_below (f : Float64) (a b : Nat) (ha : f.inside a = true) (hab : a ≤ b)
    (hb : b ≤ f.scaledAbs) : f.inside b = true := by
  have hU := f.scaledHalfGapUp_pos
  rw [Float64.inside_prop] at *
  cases hev : f.evenMant
  · simp only [hev, Bool.false_eq_true, if_false] at *
    omega
  · simp only [hev, if_true] at *
    omega

theorem Float64.inside_above (f : Float64) (a b : Nat) (hb : f.inside b = true) (hab : a ≤ b)
    (ha : f.scaledAbs ≤ a) : f.inside a = true := by
  have hL := f.scaledHalfGapDown_pos
  rw [Float64.inside_prop] at *
  cases hev : f.evenMant
  · simp only [hev, Bool.false_eq_true, if_false] at *
    omega
  · simp only [hev, if_true] at *
    omega

theorem Float64.inside_self (f : Float64) : f.inside f.scaledAbs = true := by
  have hL := f.scaledHalfGapDown_pos
  have hU := f.scaledHalfGapUp_pos
  rw [Float64.inside_prop]
  cases hev : f.evenMant
  · simp only [Bool.false_eq_true, if_false]
    omega
  · simp only [if_true]
    omega

theorem Float64.candidate_some (f : Float64) (k m : Nat) (h : f.candidate k = some m) :
    0 < m ∧ f.inside (m * f.scaledUnit k) = true := by
  unfold Float64.candidate at h
  simp only at h
  split at h
  · rename_i h1
    simp only [Bool.and_eq_true, decide_eq_true_eq] at h1
    split at h
    · injection h with h
      subst h
      exact ⟨h1.1.1, h1.1.2⟩
    · injection h with h
      subst h
      exact ⟨Nat.succ_pos _, h1.2⟩
  · split at h
    · rename_i h1
      simp only [Bool.and_eq_true, decide_eq_true_eq] at h1
      injection h with h
      subst h
      exact h1
    · split at h
      · rename_i h1
        injection h with h
        subst h
        exact ⟨Nat.succ_pos _, h1⟩
      · cases h

theorem Float64.candidate_none (f : Float64) (k : Nat) (h : f.candidate k = none)
    (c : Nat) (hc : 0 < c) : f.inside (c * f.scaledUnit k) = false := by
  have hp := f.scaledUnit_pos k
  have hdiv : f.scaledAbs / f.scaledUnit k * f.scaledUnit k ≤ f.scaledAbs :=
    Nat.div_mul_le_self _ _
  have hlt : f.scaledAbs < (f.scaledAbs / f.scaledUnit k + 1) * f.scaledUnit k := by
    have := Nat.lt_div_mul_add hp (a := f.scaledAbs)
    rw [Nat.add_mul, Nat.one_mul]
    exact this
  unfold Float64.candidate at h
  simp only at h
  split at h
  · split at h <;> cases h
  · split at h
    · cases h
    · split at h
      · cases h
      · rename_i h1 h2 h3
        cases hin : f.inside (c * f.scaledUnit k) with
        | false => rfl
        | true =>
          exfalso
          by_cases hcq : c ≤ f.scaledAbs / f.scaledUnit k
          · apply h2
            have hq : 0 < f.scaledAbs / f.scaledUnit k := lt_of_lt_of_le hc hcq
            have := f.inside_below _ _ hin (Nat.mul_le_mul_right _ hcq) hdiv
            simp [hq, this]
          · apply h3
            have hcq2 : f.scaledAbs / f.scaledUnit k + 1 ≤ c := by omega
            exact f.inside_above _ _ hin (Nat.mul_le_mul_right _ hcq2) (le_of_lt hlt)

theorem Float64.candidate_cases (f : Float64) (k m : Nat) (h : f.candidate k = some m) :
    (m = f.scaledAbs / f.scaledUnit k ∧ 0 < f.scaledAbs / f.scaledUnit k ∧
      f.inside (f.scaledAbs / f.scaledUnit k * f.scaledUnit k) = true ∧
      (f.inside ((f.scaledAbs / f.scaledUnit k + 1) * f.scaledUnit k) = true →
        2 * (f.scaledAbs % f.scaledUnit k) < f.scaledUnit k ∨
        (2 * (f.scaledAbs % f.scaledUnit k) = f.scaledUnit k ∧
          f.scaledAbs / f.scaledUnit k % 2 = 0))) ∨
    (m = f.scaledAbs / f.scaledUnit k + 1 ∧
      f.inside ((f.scaledAbs / f.scaledUnit k + 1) * f.scaledUnit k) = true ∧
      (0 < f.scaledAbs / f.scaledUnit k →
        f.inside (f.scaledAbs / f.scaledUnit k * f.scaledUnit k) = true →
        ¬ (2 * (f.scaledAbs % f.scaledUnit k) < f.scaledUnit k ∨
          (2 * (f.scaledAbs % f.scaledUnit k) = f.scaledUnit k ∧
            f.scaledAbs / f.scaledUnit k % 2 = 0)))) := by
  unfold Float64.candidate at h
  simp only at h
  split at h
  · rename_i h1
    simp only [Bool.and_eq_true, decide_eq_true_eq] at h1
    split at h
    · rename_i h2
      injection h with h
      exact Or.inl ⟨h.symm, h1.1.1, h1.1.2, fun _ => h2⟩
    · rename_i h2
      injection h with h
      exact Or.inr ⟨h.symm, h1.2, fun _ _ => h2⟩
  · rename_i h1
    split at h
    · rename_i h2
      simp only [Bool.and_eq_true, decide_eq_true_eq] at h2
      injection h with h
      refine Or.inl ⟨h.symm, h2.1, h2.2, fun h3 => ?_⟩
      exfalso
      apply h1
      simp [h2.1, h2.2, h3]
    · rename_i h2
      split at h
      · rename_i h3
        injection h with h
        refine Or.inr ⟨h.symm, h3, fun h4 h5 => ?_⟩
        exfalso
        apply h2
        simp [h4, h5]
      · cases h

/-- Among the multiples of a place that round to `|f|`, `candidate` is the nearest to
`|f|`, and the even one of two equally near. -/
theorem Float64.candidate_nearest (f : Float64) (k m : Nat) (h : f.candidate k = some m)
    (c : Nat) (hc : 0 < c) (hin : f.inside (c * f.scaledUnit k) = true) :
    Nat.dist f.scaledAbs (m * f.scaledUnit k) ≤ Nat.dist f.scaledAbs (c * f.scaledUnit k) ∧
    (c ≠ m → Nat.dist f.scaledAbs (c * f.scaledUnit k)
        = Nat.dist f.scaledAbs (m * f.scaledUnit k) → m % 2 = 0) := by
  have hp := f.scaledUnit_pos k
  have hmod : f.scaledAbs % f.scaledUnit k < f.scaledUnit k := Nat.mod_lt _ hp
  have hdm : f.scaledAbs / f.scaledUnit k * f.scaledUnit k + f.scaledAbs % f.scaledUnit k
      = f.scaledAbs := by
    rw [Nat.mul_comm]
    exact Nat.div_add_mod _ _
  have hq1 : (f.scaledAbs / f.scaledUnit k + 1) * f.scaledUnit k
      = f.scaledAbs / f.scaledUnit k * f.scaledUnit k + f.scaledUnit k := by
    rw [Nat.add_mul, Nat.one_mul]
  have hA : c ≤ f.scaledAbs / f.scaledUnit k → 0 < f.scaledAbs / f.scaledUnit k ∧
      f.inside (f.scaledAbs / f.scaledUnit k * f.scaledUnit k) = true := by
    intro hcq
    exact ⟨lt_of_lt_of_le hc hcq,
      f.inside_below _ _ hin (Nat.mul_le_mul_right _ hcq) (by omega)⟩
  have hB : f.scaledAbs / f.scaledUnit k + 1 ≤ c →
      f.inside ((f.scaledAbs / f.scaledUnit k + 1) * f.scaledUnit k) = true := by
    intro hcq
    exact f.inside_above _ _ hin (Nat.mul_le_mul_right _ hcq) (by omega)
  have h1 : c < f.scaledAbs / f.scaledUnit k →
      c * f.scaledUnit k + f.scaledUnit k ≤ f.scaledAbs / f.scaledUnit k * f.scaledUnit k := by
    intro hcq
    have := Nat.mul_le_mul_right (f.scaledUnit k) (Nat.succ_le_of_lt hcq)
    rw [Nat.succ_mul] at this
    exact this
  have h2 : f.scaledAbs / f.scaledUnit k + 1 < c →
      f.scaledAbs / f.scaledUnit k * f.scaledUnit k + f.scaledUnit k + f.scaledUnit k
        ≤ c * f.scaledUnit k := by
    intro hcq
    have := Nat.mul_le_mul_right (f.scaledUnit k) (Nat.succ_le_of_lt hcq)
    rw [Nat.succ_mul, hq1] at this
    exact this
  unfold Nat.dist
  rcases f.candidate_cases k m h with ⟨hm, hq, hd, hu⟩ | ⟨hm, hu, hd⟩
  · subst hm
    rcases Nat.lt_trichotomy c (f.scaledAbs / f.scaledUnit k) with hlt | heq | hgt
    · have := h1 hlt
      constructor
      · omega
      · intro _ _
        omega
    · subst heq
      exact ⟨le_refl _, fun hne => absurd rfl hne⟩
    · have hu1 := hu (hB hgt)
      rcases Nat.eq_or_lt_of_le (Nat.succ_le_of_lt hgt) with heq | hlt
      · have hcp : c * f.scaledUnit k
            = f.scaledAbs / f.scaledUnit k * f.scaledUnit k + f.scaledUnit k := by
          rw [← heq, Nat.succ_mul]
        constructor
        · omega
        · intro _ hdist
          omega
      · have := h2 hlt
        constructor
        · omega
        · intro _ _
          omega
  · subst hm
    rcases Nat.lt_trichotomy c (f.scaledAbs / f.scaledUnit k + 1) with hlt | heq | hgt
    · have hle : c ≤ f.scaledAbs / f.scaledUnit k := Nat.le_of_lt_succ hlt
      have hd1 := hd (hA hle).1 (hA hle).2
      rcases Nat.eq_or_lt_of_le hle with heq | hlt2
      · have hcp : c * f.scaledUnit k = f.scaledAbs / f.scaledUnit k * f.scaledUnit k := by
          rw [heq]
        constructor
        · omega
        · intro _ hdist
          omega
      · have := h1 hlt2
        constructor
        · omega
        · intro _ _
          omega
    · subst heq
      exact ⟨le_refl _, fun hne => absurd rfl hne⟩
    · have := h2 hgt
      constructor
      · omega
      · intro _ _
        omega

theorem Float64.scaledAbs_pos (f : Float64) (h : f.mant ≠ 0) : 0 < f.scaledAbs := by
  unfold Float64.scaledAbs
  have : 0 < f.mant := Nat.pos_of_ne_zero h
  positivity

theorem Float64.scaledUnit_zero_dvd (f : Float64) : f.scaledUnit 0 ∣ f.scaledAbs := by
  have h0 := f.exp_fracDigits_nonneg
  have e : (f.exp + f.fracDigits + f.fracBits).toNat
      = (f.exp + f.fracDigits).toNat + f.fracBits := by
    omega
  unfold Float64.scaledUnit Float64.scaledAbs
  rw [e, pow_add, pow_zero, one_mul]
  exact ⟨f.mant * 5 ^ f.fracDigits * 2 ^ (f.exp + f.fracDigits).toNat, by ring⟩

/-- The search returns a number that rounds to `|f|`, at the highest place at which there
is one, and the nearest to `|f|` at that place. -/
theorem Float64.search_spec (f : Float64) (hm : f.mant ≠ 0) :
    ∀ k : Nat, (∀ c : Nat, 0 < c → f.inside (c * f.scaledUnit (k + 1)) = false) →
      0 < (f.search k).1 ∧ f.inside ((f.search k).1 * f.scaledUnit (f.search k).2) = true ∧
      (∀ c : Nat, 0 < c → f.inside (c * f.scaledUnit ((f.search k).2 + 1)) = false) ∧
      ∀ c : Nat, 0 < c → f.inside (c * f.scaledUnit (f.search k).2) = true →
        Nat.dist f.scaledAbs ((f.search k).1 * f.scaledUnit (f.search k).2)
          ≤ Nat.dist f.scaledAbs (c * f.scaledUnit (f.search k).2) ∧
        (c ≠ (f.search k).1 →
          Nat.dist f.scaledAbs (c * f.scaledUnit (f.search k).2)
            = Nat.dist f.scaledAbs ((f.search k).1 * f.scaledUnit (f.search k).2) →
          (f.search k).1 % 2 = 0)
  | 0, h => by
    have hd := f.scaledUnit_zero_dvd
    have hp := f.scaledUnit_pos 0
    have hV := f.scaledAbs_pos hm
    simp only [Float64.search]
    refine ⟨Nat.div_pos (Nat.le_of_dvd hV hd) hp, ?_, h, ?_⟩
    · rw [Nat.div_mul_cancel hd]
      exact f.inside_self
    · intro c _ _
      rw [Nat.div_mul_cancel hd]
      refine ⟨by simp [Nat.dist], ?_⟩
      intro hne hdist
      exfalso
      apply hne
      have h0 : c * f.scaledUnit 0 = f.scaledAbs := by
        unfold Nat.dist at hdist
        omega
      rw [← Nat.div_mul_cancel hd] at h0
      exact Nat.eq_of_mul_eq_mul_right hp h0
  | k + 1, h => by
    simp only [Float64.search]
    cases hc : f.candidate (k + 1) with
    | some m =>
      have := f.candidate_some _ _ hc
      exact ⟨this.1, this.2, h, fun c hc0 hin => f.candidate_nearest _ _ hc c hc0 hin⟩
    | none => exact Float64.search_spec f hm k (f.candidate_none _ hc)

theorem Float64.startPlace_spec (f : Float64) (c : Nat) (hc : 0 < c) :
    f.inside (c * f.scaledUnit (f.startPlace + 1)) = false := by
  have h1 := lt_two_pow_bitLen (f.scaledAbs + f.scaledHalfGapUp)
  have h2 : 2 ^ f.startPlace ≤ c * f.scaledUnit (f.startPlace + 1) := by
    unfold Float64.scaledUnit
    calc 2 ^ f.startPlace ≤ 10 ^ f.startPlace := Nat.pow_le_pow_left (by norm_num) _
      _ ≤ 10 ^ (f.startPlace + 1) := Nat.pow_le_pow_right (by norm_num) (Nat.le_succ _)
      _ ≤ 10 ^ (f.startPlace + 1) * 2 ^ f.fracBits := Nat.le_mul_of_pos_right _ (by positivity)
      _ ≤ c * (10 ^ (f.startPlace + 1) * 2 ^ f.fracBits) := Nat.le_mul_of_pos_left _ hc
  unfold Float64.startPlace at h2
  cases hin : f.inside (c * f.scaledUnit (f.startPlace + 1)) with
  | false => rfl
  | true =>
    exfalso
    rw [Float64.inside_prop] at hin
    unfold Float64.startPlace at hin
    cases hev : f.evenMant
    · simp only [hev, Bool.false_eq_true, if_false] at hin
      omega
    · simp only [hev, if_true] at hin
      omega

theorem cast_dist (a b : Nat) : ((Nat.dist a b : ℕ) : ℚ) = |(a : ℚ) - b| := by
  unfold Nat.dist
  rcases Nat.le_total a b with h | h
  · have h1 : (a : ℚ) ≤ b := by exact_mod_cast h
    rw [Nat.sub_eq_zero_of_le h, Nat.zero_add, Nat.cast_sub h, abs_of_nonpos (by linarith)]
    ring
  · have h1 : (b : ℚ) ≤ a := by exact_mod_cast h
    rw [Nat.sub_eq_zero_of_le h, Nat.add_zero, Nat.cast_sub h, abs_of_nonneg (by linarith)]

theorem Float64.dist_scaled (f : Float64) (c k : Nat) :
    |f.abs - c * (10 : ℚ) ^ ((k : Int) - f.fracDigits)| * f.scale
      = (Nat.dist f.scaledAbs (c * f.scaledUnit k) : ℕ) := by
  rw [cast_dist, f.scaledAbs_cast, f.scaledUnit_cast, ← sub_mul, abs_mul,
    abs_of_pos f.scale_pos]

/-- The decimal `shortest` rounds to `|f|`; no decimal with fewer digits does, none at a
higher place, and at its place none that is nearer to `|f|`; of two equally near it is
the even one. -/
theorem Float64.shortest_spec (f : Float64) (hm : f.mant ≠ 0) :
    0 < f.shortest.1 ∧
    f.readsBack (f.shortest.1 * (10 : ℚ) ^ f.shortest.2) ∧
    (∀ (n m : Nat) (j : Int), 0 < m → m < 10 ^ n → f.readsBack (m * (10 : ℚ) ^ j) →
      f.shortest.1 < 10 ^ n) ∧
    (∀ c : Nat, 0 < c → ¬ f.readsBack (c * (10 : ℚ) ^ (f.shortest.2 + 1))) ∧
    (∀ c : Nat, 0 < c → f.readsBack (c * (10 : ℚ) ^ f.shortest.2) →
      |f.abs - f.shortest.1 * (10 : ℚ) ^ f.shortest.2|
        ≤ |f.abs - c * (10 : ℚ) ^ f.shortest.2| ∧
      (c ≠ f.shortest.1 →
        |f.abs - c * (10 : ℚ) ^ f.shortest.2|
          = |f.abs - f.shortest.1 * (10 : ℚ) ^ f.shortest.2| →
        f.shortest.1 % 2 = 0)) := by
  obtain ⟨h1, h2, h3, h4⟩ := f.search_spec hm f.startPlace (f.startPlace_spec)
  have h10 : (10 : ℚ) ≠ 0 := by norm_num
  have hin : f.readsBack (f.shortest.1 * (10 : ℚ) ^ f.shortest.2) :=
    (f.readsBack_iff_inside _ _ (f.scaledUnit_cast _ _).symm).2 h2
  have hmax : ∀ c : Nat, 0 < c → ¬ f.readsBack (c * (10 : ℚ) ^ (f.shortest.2 + 1)) := by
    intro c hc hr
    have e : f.shortest.2 + 1 = (((f.search f.startPlace).2 + 1 : ℕ) : Int) - f.fracDigits := by
      simp only [Float64.shortest]
      push_cast
      ring
    rw [e] at hr
    have := (f.readsBack_iff_inside _ _ (f.scaledUnit_cast _ _).symm).1 hr
    rw [h3 c hc] at this
    cases this
  refine ⟨h1, hin, ?_, hmax, ?_⟩
  swap
  · intro c hc hr
    have hK := f.scale_pos
    have hcin := (f.readsBack_iff_inside _ _ (f.scaledUnit_cast _ _).symm).1 hr
    obtain ⟨h5, h6⟩ := h4 c hc hcin
    have e1 := f.dist_scaled (f.search f.startPlace).1 (f.search f.startPlace).2
    have e2 := f.dist_scaled c (f.search f.startPlace).2
    constructor
    · have h7 : ((Nat.dist f.scaledAbs
          ((f.search f.startPlace).1 * f.scaledUnit (f.search f.startPlace).2) : ℕ) : ℚ)
          ≤ (Nat.dist f.scaledAbs (c * f.scaledUnit (f.search f.startPlace).2) : ℕ) := by
        exact_mod_cast h5
      rw [← e1, ← e2] at h7
      exact le_of_mul_le_mul_right h7 hK
    · intro hne hd
      apply h6 hne
      have h8 : ((Nat.dist f.scaledAbs (c * f.scaledUnit (f.search f.startPlace).2) : ℕ) : ℚ)
          = (Nat.dist f.scaledAbs
            ((f.search f.startPlace).1 * f.scaledUnit (f.search f.startPlace).2) : ℕ) := by
        rw [← e1, ← e2]
        exact congrArg (fun x => x * f.scale) hd
      exact_mod_cast h8
  intro n m j hm0 hmn hr
  by_contra hge
  have hge : 10 ^ n ≤ f.shortest.1 := Nat.le_of_not_lt hge
  by_cases hj : f.shortest.2 + 1 ≤ j
  · -- the other decimal is a multiple of a higher place
    apply hmax (m * 10 ^ (j - (f.shortest.2 + 1)).toNat) (by positivity)
    have e : (10 : ℚ) ^ j = 10 ^ (j - (f.shortest.2 + 1)).toNat * 10 ^ (f.shortest.2 + 1) := by
      rw [← zpow_natCast, ← zpow_add₀ h10, Int.toNat_of_nonneg (by omega)]
      congr 1
      ring
    rw [e] at hr
    push_cast
    rw [mul_assoc]
    exact hr
  · -- the power `10^(n + place)` lies between the two decimals
    have hn : 1 ≤ n := by
      rcases Nat.eq_zero_or_pos n with h0 | h0
      · subst h0
        simp at hmn
        omega
      · exact h0
    apply hmax (10 ^ (n - 1)) (by positivity)
    have e : (((10 ^ (n - 1) : ℕ) : ℚ)) * (10 : ℚ) ^ (f.shortest.2 + 1)
        = (10 : ℚ) ^ n * 10 ^ f.shortest.2 := by
      push_cast
      rw [← zpow_natCast, ← zpow_natCast, ← zpow_add₀ h10, ← zpow_add₀ h10]
      congr 1
      have : ((n - 1 : ℕ) : Int) = n - 1 := by omega
      rw [this]
      ring
    rw [e]
    apply f.readsBack_convex _ _ _ hr hin
    · have a1 : (m : ℚ) ≤ 10 ^ n := by exact_mod_cast le_of_lt hmn
      have a2 : (10 : ℚ) ^ j ≤ 10 ^ f.shortest.2 :=
        zpow_le_zpow_right₀ (by norm_num) (by omega)
      have a3 : (0 : ℚ) ≤ 10 ^ j := by positivity
      have a4 : (0 : ℚ) ≤ 10 ^ n := by positivity
      calc (m : ℚ) * 10 ^ j ≤ 10 ^ n * 10 ^ j := mul_le_mul_of_nonneg_right a1 a3
        _ ≤ 10 ^ n * 10 ^ f.shortest.2 := mul_le_mul_of_nonneg_left a2 a4
    · have a1 : (10 : ℚ) ^ n ≤ f.shortest.1 := by exact_mod_cast hge
      exact mul_le_mul_of_nonneg_right a1 (by positivity)

theorem digitChar_spec (k : Nat) (h : k < 10) :
    digitValue (Nat.digitChar k) = some k ∧ Nat.digitChar k ≠ '.' ∧ Nat.digitChar k ≠ '-' := by
  interval_cases k <;> decide

theorem readDigitsAux_append (l1 l2 : List Char) : ∀ acc : Nat,
    readDigitsAux acc (l1 ++ l2) = (readDigitsAux acc l1).bind (fun a => readDigitsAux a l2) := by
  induction l1 with
  | nil => intro acc; simp [readDigitsAux]
  | cons c cs ih =>
    intro acc
    simp only [List.cons_append, readDigitsAux]
    cases digitValue c with
    | none => rfl
    | some d => exact ih _

/-- The digits `Nat.toDigits` writes are read back as the number. -/
theorem toDigitsCore_spec : ∀ (fuel n : Nat) (ds : List Char), n < fuel →
    ∃ l, Nat.toDigitsCore 10 fuel n ds = l ++ ds ∧ l ≠ [] ∧
      (∀ c ∈ l, c ≠ '.' ∧ c ≠ '-') ∧
      ∀ acc, readDigitsAux acc l = some (acc * 10 ^ l.length + n)
  | 0, n, ds, h => by omega
  | fuel + 1, n, ds, h => by
    have hd := digitChar_spec (n % 10) (Nat.mod_lt _ (by norm_num))
    simp only [Nat.toDigitsCore]
    split
    · rename_i h0
      refine ⟨[Nat.digitChar (n % 10)], rfl, by simp, ?_, ?_⟩
      · intro c hc
        simp only [List.mem_singleton] at hc
        subst hc
        exact hd.2
      · intro acc
        have hn : n % 10 = n := by omega
        rw [hn] at hd ⊢
        simp only [readDigitsAux, hd.1, List.length_singleton, pow_one]
    · rename_i h0
      obtain ⟨l, h1, h2, h3, h4⟩ :=
        toDigitsCore_spec fuel (n / 10) (Nat.digitChar (n % 10) :: ds) (by omega)
      refine ⟨l ++ [Nat.digitChar (n % 10)], by rw [h1]; simp, by simp, ?_, ?_⟩
      · intro c hc
        rcases List.mem_append.1 hc with hc | hc
        · exact h3 c hc
        · simp only [List.mem_singleton] at hc
          subst hc
          exact hd.2
      · intro acc
        rw [readDigitsAux_append, h4]
        simp only [Option.some_bind, readDigitsAux, hd.1, List.length_append,
          List.length_singleton, pow_succ]
        congr 1
        have := Nat.div_add_mod n 10
        nlinarith [this]

theorem toString_spec (n : Nat) :
    (toString n).data ≠ [] ∧ (∀ c ∈ (toString n).data, c ≠ '.' ∧ c ≠ '-') ∧
    ∀ acc, readDigitsAux acc (toString n).data
      = some (acc * 10 ^ (toString n).data.length + n) := by
  obtain ⟨l, h1, h2, h3, h4⟩ := toDigitsCore_spec (n + 1) n [] (Nat.lt_succ_self n)
  have e : (toString n).data = l := by
    rw [List.append_nil] at h1
    exact h1
  rw [e]
  exact ⟨h2, h3, h4⟩

theorem readDigits_toString (n : Nat) : readDigits (toString n).data = some n := by
  obtain ⟨h1, -, h3⟩ := toString_spec n
  have := h3 0
  simp only [zero_mul, zero_add] at this
  cases h : (toString n).data with
  | nil => exact absurd h h1
  | cons c cs =>
    rw [h] at this
    simp only [readDigits]
    exact this

theorem readDigitsAux_zeros (z : Nat) (l : List Char) :
    readDigitsAux 0 (List.replicate z '0' ++ l) = readDigitsAux 0 l := by
  induction z with
  | zero => rfl
  | succ z ih =>
    have h0 : digitValue '0' = some 0 := by decide
    simp only [List.replicate_succ, List.cons_append, readDigitsAux, h0]
    exact ih

theorem padZeros_spec (p n : Nat) (hp : 0 < p) (hn : n < 10 ^ p) :
    readDigits (padZeros p n).data = some n ∧ (padZeros p n).data.length = p := by
  have hlen : (toString n).length ≤ p := Nat.repr_length n p hp hn
  obtain ⟨h1, -, h3⟩ := toString_spec n
  have e : (padZeros p n).data
      = List.replicate (p - (toString n).length) '0' ++ (toString n).data := by
    simp [padZeros]
  have hl : (padZeros p n).data.length = p := by
    rw [e, List.length_append, List.length_replicate]
    have : (toString n).data.length = (toString n).length := rfl
    omega
  refine ⟨?_, hl⟩
  have hne : (padZeros p n).data ≠ [] := by
    intro h
    rw [h] at hl
    simp at hl
    omega
  have hr : readDigitsAux 0 (padZeros p n).data = some n := by
    rw [e, readDigitsAux_zeros, h3 0]
    simp
  cases h : (padZeros p n).data with
  | nil => exact absurd h hne
  | cons c cs =>
    rw [h] at hr
    simp only [readDigits]
    exact hr

theorem takeWhile_point (l rest : List Char) (h : ∀ c ∈ l, c ≠ '.' ∧ c ≠ '-') :
    (l ++ '.' :: rest).takeWhile (fun c => c != '.') = l ∧
    (l ++ '.' :: rest).dropWhile (fun c => c != '.') = '.' :: rest := by
  induction l with
  | nil => simp
  | cons c cs ih =>
    have hc := (h c (List.mem_cons_self _ _)).1
    have ih := ih (fun x hx => h x (List.mem_cons_of_mem _ hx))
    simp [hc, ih]

theorem takeWhile_all (l : List Char) (h : ∀ c ∈ l, c ≠ '.' ∧ c ≠ '-') :
    l.takeWhile (fun c => c != '.') = l ∧ l.dropWhile (fun c => c != '.') = [] := by
  induction l with
  | nil => simp
  | cons c cs ih =>
    have hc := (h c (List.mem_cons_self _ _)).1
    have ih := ih (fun x hx => h x (List.mem_cons_of_mem _ hx))
    simp [hc, ih]

/-- The text `decimalText m j` starts with a digit and is read as `m * 10^j`. -/
theorem decimalText_spec (m : Nat) (j : Int) :
    readPositional (decimalText m j).data = some (m * (10 : ℚ) ^ j) ∧
    ∃ c cs, (decimalText m j).data = c :: cs ∧ c ≠ '-' := by
  cases j with
  | ofNat k =>
    obtain ⟨h1, h2, -⟩ := toString_spec (m * 10 ^ k)
    have ht := takeWhile_all _ h2
    constructor
    · simp only [decimalText, readPositional, ht.1, ht.2, readDigits_toString]
      simp
    · simp only [decimalText]
      cases h : (toString (m * 10 ^ k)).data with
      | nil => exact absurd h h1
      | cons c cs =>
        exact ⟨c, cs, rfl, (h2 c (by rw [h]; exact List.mem_cons_self _ _)).2⟩
  | negSucc k =>
    obtain ⟨h1, h2, -⟩ := toString_spec (m / 10 ^ (k + 1))
    have hp : 0 < 10 ^ (k + 1) := by positivity
    obtain ⟨h3, h4⟩ := padZeros_spec (k + 1) (m % 10 ^ (k + 1)) (Nat.succ_pos k)
      (Nat.mod_lt _ hp)
    have e : (decimalText m (Int.negSucc k)).data
        = (toString (m / 10 ^ (k + 1))).data ++
          '.' :: (padZeros (k + 1) (m % 10 ^ (k + 1))).data := by
      simp only [decimalText, String.data_append]
      simp
    have ht := takeWhile_point _ (padZeros (k + 1) (m % 10 ^ (k + 1))).data h2
    constructor
    · rw [e]
      simp only [readPositional, ht.1, ht.2, readDigits_toString, h3, h4]
      congr 1
      have hq : (10 : ℚ) ^ (k + 1) ≠ 0 := by positivity
      have hm : (m : ℚ) = ((m / 10 ^ (k + 1) : ℕ) : ℚ) * 10 ^ (k + 1)
          + ((m % 10 ^ (k + 1) : ℕ) : ℚ) := by
        have := Nat.div_add_mod m (10 ^ (k + 1))
        have h5 : ((10 ^ (k + 1) * (m / 10 ^ (k + 1)) + m % 10 ^ (k + 1) : ℕ) : ℚ) = m := by
          rw [this]
        rw [← h5]
        push_cast
        ring
      rw [Int.negSucc_eq, zpow_neg]
      have hz : (10 : ℚ) ^ ((k : Int) + 1) = 10 ^ (k + 1) := by
        rw [← zpow_natCast]
        congr 1
      rw [hz]
      field_simp
      linarith [hm]
    · rw [e]
      cases h : (toString (m / 10 ^ (k + 1))).data with
      | nil => exact absurd h h1
      | cons c cs =>
        exact ⟨c, _, rfl, (h2 c (by rw [h]; exact List.mem_cons_self _ _)).2⟩

/-- The text `formatFloat` writes is read as the shortest decimal, with the sign of `f`. -/
theorem Float64.readDecimal_formatFloat (f : Float64) (hm : f.mant ≠ 0) :
    readDecimal f.formatFloat
      = some ((if f.neg then -1 else 1) * (f.shortest.1 * (10 : ℚ) ^ f.shortest.2)) := by
  obtain ⟨h1, c, cs, h2, h3⟩ := decimalText_spec f.shortest.1 f.shortest.2
  cases hn : f.neg with
  | true =>
    have e : f.formatFloat.data = '-' :: (decimalText f.shortest.1 f.shortest.2).data := by
      simp [Float64.formatFloat, hn, hm]
    simp only [readDecimal, e, if_true, h1]
    simp
  | false =>
    have e : f.formatFloat.data = c :: cs := by
      rw [← h2]
      simp [Float64.formatFloat, hn, hm]
    rw [h2] at h1
    simp only [readDecimal, e, if_neg h3, h1]
    simp

/-- C10 (as the claim states it, refuted): the separator `"` is one `csv.Writer` refuses.
`formatCSV` drops the error of `Write`, so for the filled one-entry response of the vector
example `ToCSV` is handed one row and returns the empty text, which has no row. -/
theorem vector_toCSV_quote_delim :
    validDelim '"' = false ∧
    Query vectorBody = .ok (.vector upFilled) ∧
    upFilled.Value.length = 1 ∧
    (upFilled.rows exampleLib).length = 1 ∧
    upFilled.ToCSV exampleLib '"' = .ok "" :=
  ⟨by decide, rfl, rfl, rfl, rfl⟩

/-- C10 (amended): for every vector response and separator, `ToCSV` hands `formatCSV` one
row per entry, in entry order, each with the three fields metric string, `Value`, and
`strconv.FormatFloat(Timestamp, 'f', -1, 64)`.  For a timestamp `t` other than zero that
field is the sign of `t` and a decimal `m * 10^j` in positional notation, which is read
as that number, rounds to `t`, and has no more significant digits than any decimal that
rounds to `t`: no multiple of a higher place rounds to `t`, and of the multiples of
`10^j` that do, `m * 10^j` is the nearest to `t`, the even one of two equally near.  For
zero the field is `0` or `-0`.  With a valid separator the text written reads back as
exactly these rows, as many as there are entries.  For the vector example and the
separator `,` the text is `"up{job=""api""}",1,1435781451.781` and a newline. -/
theorem vector_toCSV_rows (lib : Lib) (r : VectorQueryResponse) (delim : Char) :
    r.ToCSV lib delim = formatCSV (r.rows lib) delim ∧
    (r.rows lib).length = r.Value.length ∧
    (∀ (i : Nat) (e : VectorEntry), r.Value[i]? = some e →
      (r.rows lib)[i]? = some [e.Metric.String lib, e.Value, e.Timestamp.formatFloat]) ∧
    (∀ row ∈ r.rows lib, row.length = 3) ∧
    (∀ t : Float64, t.mant ≠ 0 →
      ∃ (m : Nat) (j : Int), 0 < m ∧
        t.formatFloat = (if t.neg then "-" else "") ++ decimalText m j ∧
        readDecimal t.formatFloat = some ((if t.neg then -1 else 1) * (m * (10 : ℚ) ^ j)) ∧
        t.readsBack (m * (10 : ℚ) ^ j) ∧
        (∀ (n m1 : Nat) (j1 : Int), 0 < m1 → m1 < 10 ^ n →
          t.readsBack (m1 * (10 : ℚ) ^ j1) → m < 10 ^ n) ∧
        (∀ c : Nat, 0 < c → ¬ t.readsBack (c * (10 : ℚ) ^ (j + 1))) ∧
        (∀ c : Nat, 0 < c → t.readsBack (c * (10 : ℚ) ^ j) →
          |t.abs - m * (10 : ℚ) ^ j| ≤ |t.abs - c * (10 : ℚ) ^ j| ∧
          (c ≠ m → |t.abs - c * (10 : ℚ) ^ j| = |t.abs - m * (10 : ℚ) ^ j| → m % 2 = 0))) ∧
    (∀ t : Float64, t.mant = 0 → t.formatFloat = if t.neg then "-0" else "0") ∧
    (validDelim delim = true →
      ∃ text rows, r.ToCSV lib delim = .ok text ∧ parseCSV delim text = some rows ∧
        rows = r.rows lib ∧ rows.length = r.Value.length) ∧
    upFilled.ToCSV exampleLib ',' = .ok "\"up\x7bjob=\"\"api\"\"\x7d\",1,1435781451.781\n" := by
  refine ⟨rfl, by simp [VectorQueryResponse.rows], ?_, ?_, ?_, ?_, ?_, ?_⟩
  · intro i e he
    simp [VectorQueryResponse.rows, he]
  · intro row hrow
    simp only [VectorQueryResponse.rows, List.mem_map] at hrow
    obtain ⟨e, -, he⟩ := hrow
    rw [← he]
    rfl
  · intro t ht
    obtain ⟨h1, h2, h3, h4, h5⟩ := t.shortest_spec ht
    refine ⟨t.shortest.1, t.shortest.2, h1, ?_, t.readDecimal_formatFloat ht, h2, h3, h4, h5⟩
    simp [Float64.formatFloat, ht]
  · intro t ht
    cases hn : t.neg <;> simp [Float64.formatFloat, ht, hn]
  · intro hv
    have hne : ∀ row ∈ r.rows lib, row ≠ [] := by
      intro row hrow
      simp only [VectorQueryResponse.rows, List.mem_map] at hrow
      obtain ⟨e, -, he⟩ := hrow
      rw [← he]
      simp
    obtain ⟨text, h1, h2⟩ := formatCSV_round_trip hv (r.rows lib) hne
    exact ⟨text, r.rows lib, h1, h2, rfl, by simp [VectorQueryResponse.rows]⟩
  · have e : exampleTimestamp.formatFloat = "1435781451.781" := by decide
    simp only [VectorQueryResponse.ToCSV, VectorQueryResponse.rows, upFilled, List.map, e]
    rfl

/-- C10 (amended) at the filled response of the vector example, the separator `,` and the
timestamp `1435781451.781`: the text written reads back as one row of three fields, and
the third field is the decimal `1435781451781 * 10^-3`. -/
theorem vector_toCSV_rows_witness :
    validDelim ',' = true ∧ exampleTimestamp.mant ≠ 0 ∧
    (∃ text rows, upFilled.ToCSV exampleLib ',' = .ok text ∧
      parseCSV ',' text = some rows ∧ rows = upFilled.rows exampleLib ∧
      rows.length = upFilled.Value.length) ∧
    (∃ (m : Nat) (j : Int), 0 < m ∧
      exampleTimestamp.formatFloat
        = (if exampleTimestamp.neg then "-" else "") ++ decimalText m j ∧
      readDecimal exampleTimestamp.formatFloat
        = some ((if exampleTimestamp.neg then -1 else 1) * (m * (10 : ℚ) ^ j)) ∧
      exampleTimestamp.readsBack (m * (10 : ℚ) ^ j) ∧
      (∀ (n m1 : Nat) (j1 : Int), 0 < m1 → m1 < 10 ^ n →
        exampleTimestamp.readsBack (m1 * (10 : ℚ) ^ j1) → m < 10 ^ n) ∧
      (∀ c : Nat, 0 < c → ¬ exampleTimestamp.readsBack (c * (10 : ℚ) ^ (j + 1))) ∧
      (∀ c : Nat, 0 < c → exampleTimestamp.readsBack (c * (10 : ℚ) ^ j) →
        |exampleTimestamp.abs - m * (10 : ℚ) ^ j|
          ≤ |exampleTimestamp.abs - c * (10 : ℚ) ^ j| ∧
        (c ≠ m → |exampleTimestamp.abs - c * (10 : ℚ) ^ j|
          = |exampleTimestamp.abs - m * (10 : ℚ) ^ j| → m % 2 = 0))) ∧
    exampleTimestamp.shortest = (1435781451781, -3) :=
  ⟨by decide, by decide,
    (vector_toCSV_rows exampleLib upFilled ',').2.2.2.2.2.2.1 (by decide),
    (vector_toCSV_rows exampleLib upFilled ',').2.2.2.2.1 exampleTimestamp (by decide),
    by decide⟩


/-! ## The status and the data of the envelope -/

/-- The envelope `successBody` parses to. -/
theorem unmarshal_successBody (rt : String) (res : JSON) :
    unmarshalBaseResponse (successBody rt res) = .ok ⟨⟨rt, res⟩, "success", "", ""⟩ := by
  have h1 : findField ["data", "status", "errorType", "error"] "status" = some "status" := by
    decide
  have h2 : findField ["data", "status", "errorType", "error"] "data" = some "data" := by
    decide
  have h3 : findField ["resultType", "result"] "resultType" = some "resultType" := by decide
  have h4 : findField ["resultType", "result"] "result" = some "result" := by decide
  simp only [unmarshalBaseResponse, successBody, List.foldlM, BaseResponse.setMember, h1, h2,
    decodeString, decodeData, Data.setMember, h3, h4]
  rfl

/-- C11 (as the claim states it, refuted): the body
`{"data":{"resultType":"scalar","result":[1435781451.781,"1"]}}` has no status, and
`Query` returns the scalar response, not an error; the body
`{"status":"ok","data":{"resultType":"matrix","result":[]}}` has a status that is
neither `success` nor `error`, and `Query` and `QueryRange` return the matrix response. -/
theorem missing_status_accepted :
    Query noStatusBody
      = .ok (.scalar ⟨[.num exampleTimestamp, .str "1"], "1", exampleTimestamp⟩) ∧
    Query otherStatusBody = .ok (.matrix ⟨[]⟩) ∧
    QueryRange otherStatusBody = .ok ⟨[]⟩ :=
  ⟨rfl, rfl, rfl⟩

/-- C11 (amended): for a body that parses as an envelope whose status is anything but
`error` (missing, empty, or any other string), `Query` and `QueryRange` do exactly what
they do for the envelope with status `success` and the same data. -/
theorem status_other_than_error_is_success (buf : JSON) (r : BaseResponse)
    (hparse : unmarshalBaseResponse buf = .ok r) (hstatus : r.Status ≠ STATUS_ERROR) :
    Query buf = Query (successBody r.RespData.ResultType r.RespData.Result) ∧
    QueryRange buf = QueryRange (successBody r.RespData.ResultType r.RespData.Result) := by
  have hs : ¬ ("success" = STATUS_ERROR) := by decide
  constructor
  · simp only [Query, hparse, unmarshal_successBody, if_neg hstatus, if_neg hs]
  · simp only [QueryRange, hparse, unmarshal_successBody, if_neg hstatus, if_neg hs]

/-- C11 (amended) at the body without status: it is handled like the scalar example
body. -/
theorem status_other_than_error_is_success_witness :
    unmarshalBaseResponse noStatusBody
        = .ok ⟨⟨"scalar", .arr [.num exampleTimestamp, .str "1"]⟩, "", "", ""⟩ ∧
    "" ≠ STATUS_ERROR ∧
    Query noStatusBody = Query scalarBody ∧ QueryRange noStatusBody = QueryRange scalarBody :=
  ⟨rfl, by decide,
    status_other_than_error_is_success noStatusBody
      ⟨⟨"scalar", .arr [.num exampleTimestamp, .str "1"]⟩, "", "", ""⟩ rfl (by decide)⟩

/-- A member that is not a non-null `data` leaves `RespData` as it is. -/
theorem BaseResponse.setMember_RespData (r r1 : BaseResponse) (kv : String × JSON)
    (hnull : findField baseResponseFields kv.1 = some "data" → kv.2 = .null)
    (h : r.setMember kv = .ok r1) : r1.RespData = r.RespData := by
  unfold BaseResponse.setMember at h
  unfold baseResponseFields at hnull
  cases hf : findField ["data", "status", "errorType", "error"] kv.1 with
  | none =>
    rw [hf] at h
    cases h
    rfl
  | some f =>
    rw [hf] at h
    simp only at h
    by_cases h1 : f = "data"
    · subst h1
      rw [hnull hf] at h
      simp only [if_true, decodeData] at h
      cases h
      rfl
    · rw [if_neg h1] at h
      by_cases h2 : f = "status"
      · rw [if_pos h2] at h
        cases hd : decodeString r.Status kv.2 with
        | error e => rw [hd] at h; cases h
        | ok s => rw [hd] at h; cases h; rfl
      · rw [if_neg h2] at h
        by_cases h3 : f = "errorType"
        · rw [if_pos h3] at h
          cases hd : decodeString r.ErrorType kv.2 with
          | error e => rw [hd] at h; cases h
          | ok s => rw [hd] at h; cases h; rfl
        · rw [if_neg h3] at h
          cases hd : decodeString r.Error kv.2 with
          | error e => rw [hd] at h; cases h
          | ok s => rw [hd] at h; cases h; rfl

theorem foldlM_setMember_RespData (kvs : List (String × JSON)) (r r1 : BaseResponse)
    (hnull : ∀ kv ∈ kvs, findField baseResponseFields kv.1 = some "data" → kv.2 = .null)
    (h : kvs.foldlM BaseResponse.setMember r = .ok r1) : r1.RespData = r.RespData := by
  induction kvs generalizing r with
  | nil =>
    simp only [List.foldlM] at h
    cases h
    rfl
  | cons kv kvs ih =>
    simp only [List.foldlM] at h
    cases hs : r.setMember kv with
    | error e =>
      rw [hs] at h
      cases h
    | ok r2 =>
      rw [hs] at h
      have e1 := ih r2 (fun x hx => hnull x (List.mem_cons_of_mem _ hx)) h
      rw [e1]
      exact BaseResponse.setMember_RespData r r2 kv (hnull kv (List.mem_cons_self _ _)) hs

/-- C12: for a body that is an object in which every member decoded into `data` is
`null` (in particular when there is none), that parses as an envelope with status
`success`: `Query` and `QueryRange` return no response and the error
`invalid response type ` with an empty type name. -/
theorem success_without_data (kvs : List (String × JSON)) (r : BaseResponse)
    (hnull : ∀ kv ∈ kvs, findField baseResponseFields kv.1 = some "data" → kv.2 = .null)
    (hparse : unmarshalBaseResponse (.obj kvs) = .ok r) (hstatus : r.Status = STATUS_SUCCESS) :
    Query (.obj kvs) = .err (.errorf "invalid response type ") ∧
    QueryRange (.obj kvs) = .err (.errorf "invalid response type ") := by
  have hd : r.RespData = {} := foldlM_setMember_RespData kvs {} r hnull hparse
  have hrt : r.RespData.ResultType = "" := by rw [hd]
  have hs : ¬ r.Status = STATUS_ERROR := by rw [hstatus]; decide
  have h1 : ¬ (r.RespData.ResultType = SCALAR_TYPE ∨ r.RespData.ResultType = STRING_TYPE) := by
    rw [hrt]; decide
  have h2 : ¬ r.RespData.ResultType = VECTOR_TYPE := by rw [hrt]; decide
  have h3 : ¬ r.RespData.ResultType = MATRIX_TYPE := by rw [hrt]; decide
  constructor
  · simp only [Query, hparse, if_neg hs, if_neg h1, if_neg h2, if_neg h3, errorfInvalidType,
      hrt]
    rfl
  · simp only [QueryRange, hparse, if_neg hs, if_neg h3, errorfInvalidType, hrt]
    rfl

/-- C12 at the bodies `{"status":"success"}` and `{"status":"success","data":null}`. -/
theorem success_without_data_witness :
    (unmarshalBaseResponse noDataBody = .ok ⟨{}, "success", "", ""⟩ ∧
      Query noDataBody = .err (.errorf "invalid response type ") ∧
      QueryRange noDataBody = .err (.errorf "invalid response type ")) ∧
    unmarshalBaseResponse nullDataBody = .ok ⟨{}, "success", "", ""⟩ ∧
    Query nullDataBody = .err (.errorf "invalid response type ") ∧
    QueryRange nullDataBody = .err (.errorf "invalid response type ") :=
  ⟨⟨rfl, success_without_data [("status", .str "success")] ⟨{}, "success", "", ""⟩ (by
      intro kv hkv hf
      simp only [List.mem_singleton] at hkv
      subst hkv
      exact absurd hf (by decide)) rfl rfl⟩,
    rfl, success_without_data [("status", .str "success"), ("data", .null)]
    ⟨{}, "success", "", ""⟩ (by
      intro kv hkv _
      simp only [List.mem_cons, List.mem_singleton, List.not_mem_nil, or_false] at hkv
      rcases hkv with h | h
      · subst h
        rename_i hf
        exact absurd hf (by decide)
      · subst h
        rfl) rfl rfl⟩

/-! ## `Query` and `QueryRange` side by side -/

/-- C18: for a body that parses as an envelope: with status `error` `Query` and
`QueryRange` return the same error; with another status and `resultType` `matrix` they
either return the same decode error or `Query` returns the matrix response that
`QueryRange` returns.  A body that does not parse gives the same error in both. -/
theorem query_queryRange_agree (buf : JSON) :
    (∀ e, unmarshalBaseResponse buf = .error e → Query buf = .err e ∧ QueryRange buf = .err e) ∧
    (∀ r, unmarshalBaseResponse buf = .ok r →
      (r.Status = STATUS_ERROR →
        ∃ e, Query buf = .err e ∧ QueryRange buf = .err e) ∧
      (r.Status ≠ STATUS_ERROR → r.RespData.ResultType = MATRIX_TYPE →
        (∃ e, Query buf = .err e ∧ QueryRange buf = .err e) ∨
        (∃ m, Query buf = .ok (.matrix m) ∧ QueryRange buf = .ok m))) := by
  refine ⟨?_, ?_⟩
  · intro e he
    simp only [Query, QueryRange, he, and_self]
  · intro r hr
    refine ⟨?_, ?_⟩
    · intro hs
      exact ⟨Errorf0 (sprintfApiError r.ErrorType r.Error),
        by simp only [Query, hr, if_pos hs], by simp only [QueryRange, hr, if_pos hs]⟩
    · intro hs hrt
      have h1 : ¬ (r.RespData.ResultType = SCALAR_TYPE ∨ r.RespData.ResultType = STRING_TYPE) := by
        rw [hrt]; decide
      have h2 : ¬ r.RespData.ResultType = VECTOR_TYPE := by rw [hrt]; decide
      cases hd : interfaceToStructMatrix r.RespData with
      | error e =>
        left
        exact ⟨e, by simp only [Query, hr, if_neg hs, if_neg h1, if_neg h2, if_pos hrt, hd],
          by simp only [QueryRange, hr, if_neg hs, if_pos hrt, hd]⟩
      | ok m =>
        right
        refine ⟨m, ?_, by simp only [QueryRange, hr, if_neg hs, if_pos hrt, hd]⟩
        simp only [Query, hr, if_neg hs, if_neg h1, if_neg h2, if_pos hrt, hd, fillAndReturn,
          QueryResponse.Fill, MatrixQueryResponse.Fill]

/-- C18 at the matrix example body: it parses with status `success` and `resultType`
`matrix`, and the two operations return the same error or the same matrix response. -/
theorem query_queryRange_agree_witness :
    "success" ≠ STATUS_ERROR ∧ "matrix" = MATRIX_TYPE ∧
    ((∃ e, Query matrixBody = .err e ∧ QueryRange matrixBody = .err e) ∨
      (∃ m, Query matrixBody = .ok (.matrix m) ∧ QueryRange matrixBody = .ok m)) :=
  ⟨by decide, rfl,
    ((query_queryRange_agree matrixBody).2 _ (unmarshal_successBody _ _)).2 (by decide) rfl⟩

/-! ## `Fill`: frame and idempotence -/

/-- What a successful `Fill` of one entry reads and what it leaves alone. -/
theorem VectorEntry.Fill_entry_ok (e e1 : VectorEntry) (h : e.Fill = .ok e1) :
    e1.Metric = e.Metric ∧ e1.ActualValue = e.ActualValue ∧
      e.ActualValue[0]? = some (.num e1.Timestamp) ∧
      e.ActualValue[1]? = some (.str e1.Value) := by
  unfold VectorEntry.Fill index at h
  cases h0 : e.ActualValue[0]? with
  | none => rw [h0] at h; cases h
  | some x0 =>
    rw [h0] at h
    cases x0 <;> simp only [assertFloat64] at h <;> try cases h
    rename_i t
    cases h1 : e.ActualValue[1]? with
    | none => rw [h1] at h; cases h
    | some x1 =>
      rw [h1] at h
      cases x1 <;> simp only [assertString] at h <;> try cases h
      exact ⟨rfl, rfl, rfl, rfl⟩

theorem VectorEntry.Fill_again (e e1 : VectorEntry) (h : e.Fill = .ok e1) :
    e1.Fill = .ok e1 := by
  obtain ⟨-, h2, h3, h4⟩ := VectorEntry.Fill_entry_ok e e1 h
  rw [← h2] at h3 h4
  simp only [VectorEntry.Fill, index, h3, h4, assertFloat64, assertString]

theorem fillEntries_ok (es es1 : List VectorEntry) (h : fillEntries es = .ok es1) :
    List.Forall₂ (fun e e1 => e.Fill = .ok e1) es es1 := by
  induction es generalizing es1 with
  | nil =>
    simp only [fillEntries] at h
    cases h
    exact List.Forall₂.nil
  | cons e es ih =>
    simp only [fillEntries] at h
    cases he : e.Fill with
    | error p => rw [he] at h; cases h
    | ok e1 =>
      rw [he] at h
      cases hes : fillEntries es with
      | error p => rw [hes] at h; cases h
      | ok es2 =>
        rw [hes] at h
        cases h
        exact List.Forall₂.cons he (ih es2 hes)

theorem fillEntries_again (es es1 : List VectorEntry) (h : fillEntries es = .ok es1) :
    fillEntries es1 = .ok es1 := by
  have hf := fillEntries_ok es es1 h
  clear h
  induction hf with
  | nil => rfl
  | cons he _ ih =>
    simp only [fillEntries, VectorEntry.Fill_again _ _ he, ih]

/-- The in-place view and the functional view of `Fill` agree on one entry. -/
theorem VectorEntry.fillState_spec (e : VectorEntry) :
    (e.fillState.1.Metric = e.Metric ∧ e.fillState.1.ActualValue = e.ActualValue) ∧
    (∀ e1, e.Fill = .ok e1 ↔ e.fillState = (e1, none)) ∧
    (∀ p, e.Fill = .error p ↔ e.fillState.2 = some p) := by
  unfold VectorEntry.fillState VectorEntry.Fill
  cases h0 : index e.ActualValue 0 with
  | error p => simp
  | ok x0 =>
    cases h1 : assertFloat64 x0 with
    | error p => simp [h1]
    | ok t =>
      cases h2 : index e.ActualValue 1 with
      | error p => simp [h1]
      | ok x1 =>
        cases h3 : assertString x1 with
        | error p => simp [h1, h3]
        | ok v => simp [h1, h3]

/-- The in-place view and the functional view of the loop of `Fill` agree, and the loop
leaves metrics and raw arrays alone whether or not it panics. -/
theorem fillEntriesState_spec (es : List VectorEntry) :
    ((fillEntriesState es).1.map (fun e => (e.Metric, e.ActualValue))
        = es.map (fun e => (e.Metric, e.ActualValue))) ∧
    (∀ es1, fillEntries es = .ok es1 ↔ fillEntriesState es = (es1, none)) ∧
    (∀ p, fillEntries es = .error p ↔ (fillEntriesState es).2 = some p) := by
  induction es with
  | nil => simp [fillEntriesState, fillEntries]
  | cons e es ih =>
    obtain ⟨⟨m1, m2⟩, m3, m4⟩ := VectorEntry.fillState_spec e
    obtain ⟨i1, i2, i3⟩ := ih
    cases hs : e.fillState with
    | mk e1 o =>
      rw [hs] at m1 m2 m3 m4
      simp only at m1 m2 m4
      cases o with
      | some p =>
        have hf : e.Fill = .error p := (m4 p).mpr rfl
        simp only [fillEntriesState, hs, fillEntries, hf, List.map_cons, m1, m2]
        simp
      | none =>
        have hf : e.Fill = .ok e1 := (m3 e1).mpr rfl
        simp only [fillEntriesState, hs, fillEntries, hf, List.map_cons, m1, m2, i1]
        refine ⟨trivial, ?_, ?_⟩
        · intro es1
          cases hes : fillEntries es with
          | error p =>
            have := (i3 p).mp hes
            simp [this]
          | ok es2 =>
            have := (i2 es2).mp hes
            simp [this]
        · intro p
          cases hes : fillEntries es with
          | error p2 =>
            have := (i3 p2).mp hes
            simp [this]
          | ok es2 =>
            have := (i2 es2).mp hes
            simp [this]

/-- C16: `Fill` of a vector response, whether it returns or panics, leaves a response
with the same number of entries, each with the metric and the raw value array it had
(the lists of metrics and of raw arrays are equal, in order); when `Fill` returns, the
returned response is that response, and entry `i` has the metric and the raw array of
entry `i` before the call; `Fill` of a matrix response returns the response it was
given. -/
theorem fill_frame (r : VectorQueryResponse) :
    (r.fillState.1.Value.map (fun e => (e.Metric, e.ActualValue))
      = r.Value.map (fun e => (e.Metric, e.ActualValue))) ∧
    r.fillState.1.Value.length = r.Value.length ∧
    (∀ r1, r.Fill = .ok r1 ↔ r.fillState = (r1, none)) ∧
    (∀ r1, r.Fill = .ok r1 →
      r1.Value.map (fun e => (e.Metric, e.ActualValue))
        = r.Value.map (fun e => (e.Metric, e.ActualValue)) ∧
      r1.Value.length = r.Value.length ∧
      ∀ (i : Nat) (e : VectorEntry), r.Value[i]? = some e →
        ∃ e1 : VectorEntry, r1.Value[i]? = some e1 ∧ e1.Metric = e.Metric ∧
          e1.ActualValue = e.ActualValue) ∧
    (∀ m : MatrixQueryResponse, m.Fill = .ok m) := by
  obtain ⟨s1, s2, -⟩ := fillEntriesState_spec r.Value
  have hlen : (fillEntriesState r.Value).1.length = r.Value.length := by
    have := congrArg List.length s1
    simpa using this
  have hiff : ∀ r1, r.Fill = .ok r1 ↔ r.fillState = (r1, none) := by
    intro r1
    unfold VectorQueryResponse.Fill VectorQueryResponse.fillState
    cases hes : fillEntries r.Value with
    | error p =>
      simp only [false_iff, reduceCtorEq]
      intro h
      have h2 := congrArg Prod.snd h
      simp only at h2
      cases hs : fillEntriesState r.Value with
      | mk a b =>
        rw [hs] at h2
        simp only at h2
        subst h2
        have := (s2 a).mpr hs
        rw [hes] at this
        cases this
    | ok es2 =>
      have := (s2 es2).mp hes
      rw [this]
      constructor
      · intro h; cases h; rfl
      · intro h
        have h1 := congrArg Prod.fst h
        simp only at h1
        rw [← h1]
  refine ⟨s1, hlen, hiff, ?_, fun m => rfl⟩
  intro r1 h
  have hst := (hiff r1).mp h
  have e1 : r1 = r.fillState.1 := by rw [hst]
  have hmap : r1.Value.map (fun e => (e.Metric, e.ActualValue))
      = r.Value.map (fun e => (e.Metric, e.ActualValue)) := by
    rw [e1]; exact s1
  refine ⟨hmap, by rw [e1]; exact hlen, ?_⟩
  intro i e he
  have h1 : (r.Value.map (fun e => (e.Metric, e.ActualValue)))[i]?
      = some (e.Metric, e.ActualValue) := by
    simp [he]
  rw [← hmap] at h1
  simp only [List.getElem?_map, Option.map_eq_some'] at h1
  obtain ⟨x, hx, hxe⟩ := h1
  simp only [Prod.mk.injEq] at hxe
  exact ⟨x, hx, hxe.1, hxe.2⟩

/-- C16 at the response decoded from the vector example body: `Fill` returns, and
metric and raw array of the one entry are unchanged. -/
theorem fill_frame_witness :
    upDecoded.Fill = .ok ⟨[⟨[("__name__", "up"), ("job", "api")],
      [.num exampleTimestamp, .str "1"], "1", exampleTimestamp⟩]⟩ ∧
    (([⟨[("__name__", "up"), ("job", "api")], [.num exampleTimestamp, .str "1"], "1",
        exampleTimestamp⟩] : List VectorEntry).map (fun e => (e.Metric, e.ActualValue))
      = upDecoded.Value.map (fun e => (e.Metric, e.ActualValue))) :=
  ⟨rfl, ((fill_frame upDecoded).2.2.2.1 ⟨[⟨[("__name__", "up"), ("job", "api")],
      [.num exampleTimestamp, .str "1"], "1", exampleTimestamp⟩]⟩ rfl).1⟩

/-- What a successful `Fill` of a scalar response reads and what it leaves alone. -/
theorem ScalarQueryResponse.Fill_scalar_ok (r r1 : ScalarQueryResponse) (h : r.Fill = .ok r1) :
    r1.ActualValue = r.ActualValue ∧
      r.ActualValue[0]? = some (.num r1.Timestamp) ∧
      r.ActualValue[1]? = some (.str r1.Value) := by
  unfold ScalarQueryResponse.Fill index at h
  cases h0 : r.ActualValue[0]? with
  | none => rw [h0] at h; cases h
  | some x0 =>
    rw [h0] at h
    cases x0 <;> simp only [assertFloat64] at h <;> try cases h
    rename_i t
    cases h1 : r.ActualValue[1]? with
    | none => rw [h1] at h; cases h
    | some x1 =>
      rw [h1] at h
      cases x1 <;> simp only [assertString] at h <;> try cases h
      exact ⟨rfl, rfl, rfl⟩

/-- C19: when `Fill` of a scalar-shaped or of a vector-shaped response returns, a second
`Fill` returns as well and leaves the response equal to the one after the first call;
so does every further call made through the interface. -/
theorem fill_idempotent :
    (∀ r r1 : ScalarQueryResponse, r.Fill = .ok r1 → r1.Fill = .ok r1) ∧
    (∀ r r1 : VectorQueryResponse, r.Fill = .ok r1 → r1.Fill = .ok r1) ∧
    (∀ r r1 : QueryResponse, r.Fill = .ok r1 → r1.Fill = .ok r1) := by
  have hs : ∀ r r1 : ScalarQueryResponse, r.Fill = .ok r1 → r1.Fill = .ok r1 := by
    intro r r1 h
    obtain ⟨h1, h2, h3⟩ := ScalarQueryResponse.Fill_scalar_ok r r1 h
    rw [← h1] at h2 h3
    simp only [ScalarQueryResponse.Fill, index, h2, h3, assertFloat64, assertString]
  have hv : ∀ r r1 : VectorQueryResponse, r.Fill = .ok r1 → r1.Fill = .ok r1 := by
    intro r r1 h
    unfold VectorQueryResponse.Fill at h
    cases hes : fillEntries r.Value with
    | error p => rw [hes] at h; cases h
    | ok es1 =>
      rw [hes] at h
      cases h
      simp only [VectorQueryResponse.Fill, fillEntries_again _ _ hes]
  refine ⟨hs, hv, ?_⟩
  intro r r1 h
  cases r with
  | scalar s =>
    simp only [QueryResponse.Fill] at h
    cases hf : s.Fill with
    | error p => rw [hf] at h; cases h
    | ok s1 =>
      rw [hf] at h
      cases h
      simp only [QueryResponse.Fill, hs s s1 hf]
  | vector v =>
    simp only [QueryResponse.Fill] at h
    cases hf : v.Fill with
    | error p => rw [hf] at h; cases h
    | ok v1 =>
      rw [hf] at h
      cases h
      simp only [QueryResponse.Fill, hv v v1 hf]
  | matrix m =>
    simp only [QueryResponse.Fill, MatrixQueryResponse.Fill] at h
    cases h
    rfl

/-- C19 at the responses decoded from the scalar and the vector example body: the first
`Fill` returns, and the second returns the same response. -/
theorem fill_idempotent_witness :
    (ScalarQueryResponse.Fill ⟨[.num exampleTimestamp, .str "1"], "", Float64.zero⟩
        = .ok ⟨[.num exampleTimestamp, .str "1"], "1", exampleTimestamp⟩ ∧
      ScalarQueryResponse.Fill ⟨[.num exampleTimestamp, .str "1"], "1", exampleTimestamp⟩
        = .ok ⟨[.num exampleTimestamp, .str "1"], "1", exampleTimestamp⟩) ∧
    (upDecoded.Fill = .ok ⟨[⟨[("__name__", "up"), ("job", "api")],
        [.num exampleTimestamp, .str "1"], "1", exampleTimestamp⟩]⟩ ∧
      VectorQueryResponse.Fill ⟨[⟨[("__name__", "up"), ("job", "api")],
        [.num exampleTimestamp, .str "1"], "1", exampleTimestamp⟩]⟩
        = .ok ⟨[⟨[("__name__", "up"), ("job", "api")],
        [.num exampleTimestamp, .str "1"], "1", exampleTimestamp⟩]⟩) :=
  ⟨⟨rfl, fill_idempotent.1 ⟨[.num exampleTimestamp, .str "1"], "", Float64.zero⟩ _ rfl⟩, rfl,
    fill_idempotent.2.1 upDecoded _ rfl⟩

/-! ## Scalar rendering and matrix rows -/

/-- A field that `csv.Writer` writes without quotes. -/
theorem fieldNeedsQuotes_plain (comma : Char) (v : String) (h1 : v ≠ "\\.")
    (h2 : ∀ c ∈ v.data, c ≠ comma ∧ c.toNat ≠ 34 ∧ c.toNat ≠ 10 ∧ c.toNat ≠ 13)
    (h3 : ∀ (c : Char) (cs : List Char), v.data = c :: cs → isSpace c = false) :
    fieldNeedsQuotes comma v = false := by
  unfold fieldNeedsQuotes
  by_cases h0 : v = ""
  · rw [if_pos h0]
  · rw [if_neg h0, if_neg h1]
    have hany : ¬ (v.data.any
        (fun c => c.toNat = 10 || c.toNat = 13 || c.toNat = 34 || c = comma) = true) := by
      rw [List.any_eq_true]
      rintro ⟨c, hc, hp⟩
      obtain ⟨p1, p2, p3, p4⟩ := h2 c hc
      simp [p1, p2, p3, p4] at hp
    rw [if_neg hany]
    cases hd : v.data with
    | nil => rfl
    | cons c cs => exact h3 c cs hd

/-- C13 (as the claim states it, refuted): `Query` returns for the string body with the
value `\.` a filled scalar response; the value holds no `,`, no double quote, no newline
and no space, and yet `ToCSV(',')` is the quoted text `"\."` and a newline, not the
value and a newline. -/
theorem scalar_toCSV_backslash_dot :
    Query backslashDotBody
      = .ok (.scalar ⟨[.num exampleTimestamp, .str "\\."], "\\.", exampleTimestamp⟩) ∧
    (∀ c ∈ "\\.".data, c ≠ ',' ∧ c.toNat ≠ 34 ∧ c.toNat ≠ 10 ∧ c.toNat ≠ 32) ∧
    ScalarQueryResponse.ToCSV ⟨[.num exampleTimestamp, .str "\\."], "\\.", exampleTimestamp⟩ ','
      = .ok "\"\\.\"\n" ∧
    "\"\\.\"\n" ≠ "\\." ++ "\n" :=
  ⟨rfl, by decide, rfl, by decide⟩

/-- C13 (amended): for every scalar-shaped response with value `v`, `ToText` is `v`;
`ToCSV` hands the writer the one row with the one field `v`, and with a valid separator
the text written reads back as that row; when the separator is valid, `v` is not `\.`,
holds no separator, double quote, newline or carriage return and does not start with
white space, the text is `v` and one newline.  For the scalar example body `ToText` is
`1` and `ToCSV(',')` is `1` and a newline. -/
theorem scalar_rendering (r : ScalarQueryResponse) (delim : Char) :
    r.ToText = r.Value ∧
    r.ToCSV delim = formatCSV [[r.Value]] delim ∧
    (validDelim delim = true →
      ∃ text, r.ToCSV delim = .ok text ∧ parseCSV delim text = some [[r.Value]]) ∧
    (validDelim delim = true → r.Value ≠ "\\." →
      (∀ c ∈ r.Value.data, c ≠ delim ∧ c.toNat ≠ 34 ∧ c.toNat ≠ 10 ∧ c.toNat ≠ 13) →
      (∀ (c : Char) (cs : List Char), r.Value.data = c :: cs → isSpace c = false) →
      r.ToCSV delim = .ok (r.Value ++ "\n")) ∧
    Query scalarBody
      = .ok (.scalar ⟨[.num exampleTimestamp, .str "1"], "1", exampleTimestamp⟩) ∧
    ScalarQueryResponse.ToText ⟨[.num exampleTimestamp, .str "1"], "1", exampleTimestamp⟩
      = "1" ∧
    ScalarQueryResponse.ToCSV ⟨[.num exampleTimestamp, .str "1"], "1", exampleTimestamp⟩ ','
      = .ok "1\n" := by
  refine ⟨rfl, rfl, ?_, ?_, rfl, rfl, rfl⟩
  · intro hv
    exact formatCSV_round_trip hv [[r.Value]] (by simp)
  · intro hv h1 h2 h3
    have hq := fieldNeedsQuotes_plain delim r.Value h1 h2 h3
    simp only [ScalarQueryResponse.ToCSV, formatCSV_valid hv, csvText, writeFields, writeField,
      hq]
    rfl

/-- C13 (amended) at the value `1` and the separator `,`. -/
theorem scalar_rendering_witness :
    validDelim ',' = true ∧
    ScalarQueryResponse.ToCSV ⟨[.num exampleTimestamp, .str "1"], "1", exampleTimestamp⟩ ','
      = .ok ("1" ++ "\n") :=
  ⟨by decide, (scalar_rendering ⟨[.num exampleTimestamp, .str "1"], "1", exampleTimestamp⟩
    ',').2.2.2.1 (by decide) (by decide) (by decide) (by
      intro c cs h
      have hc : c = '1' := by
        have : ("1" : String).data = ['1'] := rfl
        rw [this] at h
        injection h with h1 _
        exact h1.symm
      subst hc
      decide)⟩

theorem intercalate_go_spaced (acc : String) (l : List String) :
    String.intercalate.go acc " " l = acc ++ spaced l := by
  induction l generalizing acc with
  | nil => simp [String.intercalate.go, spaced]
  | cons a as ih =>
    simp only [String.intercalate.go, spaced]
    rw [ih]
    simp [String.append_assoc]

theorem intercalate_eq_joinSpace (l : List String) :
    " ".intercalate l = joinSpace l := by
  cases l with
  | nil => rfl
  | cons a as => simp only [String.intercalate, joinSpace, intercalate_go_spaced]

theorem matrixRows_pairs (lib : Lib) (series : List (Metric × List (Float64 × String))) :
    matrixRows lib (matrixOfSeries series).Value
      = .ok (series.map (fun s => [s.1.String lib,
          joinSpace (s.2.map (fun p => p.2 ++ "@" ++ p.1.fmt3))])) := by
  induction series with
  | nil => rfl
  | cons s series ih =>
    simp only [matrixOfSeries, List.map_cons, matrixRows] at ih ⊢
    rw [ih]
    have := sampleTokens_pairs lib "" s.2
    simp only [String.append_empty] at this
    simp [MatrixEntry.row, this, intercalate_eq_joinSpace]

/-- C14: for a matrix response whose samples are pairs `[t, v]`, `ToCSV` hands
`formatCSV` one row per series, in series order, each with two fields: the metric
string, and the tokens `<v>@<t>` (three fractional digits) with one space between
consecutive tokens, nothing before the first and nothing after the last; a series
without samples has the empty second field; with a valid separator the text written
reads back as these rows.  For the matrix example body the one row is `x` and
`1@0.000 2@1.000`. -/
theorem matrix_toCSV_rows (lib : Lib) (series : List (Metric × List (Float64 × String)))
    (delim : Char) :
    matrixRows lib (matrixOfSeries series).Value
      = .ok (series.map (fun s => [s.1.String lib,
          joinSpace (s.2.map (fun p => p.2 ++ "@" ++ p.1.fmt3))])) ∧
    (matrixOfSeries series).ToCSV lib delim
      = formatCSV (series.map (fun s => [s.1.String lib,
          joinSpace (s.2.map (fun p => p.2 ++ "@" ++ p.1.fmt3))])) delim ∧
    (series.map (fun s => [s.1.String lib,
          joinSpace (s.2.map (fun p => p.2 ++ "@" ++ p.1.fmt3))])).length = series.length ∧
    (∀ m : Metric, matrixRows lib (matrixOfSeries [(m, [])]).Value = .ok [[m.String lib, ""]]) ∧
    (validDelim delim = true →
      ∃ text, (matrixOfSeries series).ToCSV lib delim = .ok text ∧
        parseCSV delim text = some (series.map (fun s => [s.1.String lib,
          joinSpace (s.2.map (fun p => p.2 ++ "@" ++ p.1.fmt3))]))) ∧
    matrixRows lib (matrixOfSeries [([("__name__", "x")], [(⟨false, 0, 0⟩, "1"),
        (⟨false, 1, 0⟩, "2")])]).Value = .ok [["x", "1@0.000 2@1.000"]] := by
  have hrows := matrixRows_pairs lib series
  have hcsv : (matrixOfSeries series).ToCSV lib delim
      = formatCSV (series.map (fun s => [s.1.String lib,
          joinSpace (s.2.map (fun p => p.2 ++ "@" ++ p.1.fmt3))])) delim := by
    simp only [MatrixQueryResponse.ToCSV, hrows]
  refine ⟨hrows, hcsv, by simp, fun m => rfl, ?_, rfl⟩
  intro hv
  rw [hcsv]
  apply formatCSV_round_trip hv
  intro row hrow
  simp only [List.mem_map] at hrow
  obtain ⟨s, -, hs⟩ := hrow
  rw [← hs]
  simp

/-- C14 at the series of the matrix example body and the separator `,`. -/
theorem matrix_toCSV_rows_witness :
    validDelim ',' = true ∧
    ∃ text, (matrixOfSeries [([("__name__", "x")], [(⟨false, 0, 0⟩, "1"),
        (⟨false, 1, 0⟩, "2")])]).ToCSV exampleLib ',' = .ok text ∧
      parseCSV ',' text = some [["x", "1@0.000 2@1.000"]] :=
  ⟨by decide, (matrix_toCSV_rows exampleLib [([("__name__", "x")], [(⟨false, 0, 0⟩, "1"),
        (⟨false, 1, 0⟩, "2")])] ',').2.2.2.2.1 (by decide)⟩

/-! ## The path of the request URL -/

theorem rdropWhile_slash_decomp (l : List Char) :
    ∃ n, l = l.rdropWhile (fun c => decide (c = '/')) ++ List.replicate n '/' := by
  induction l using List.reverseRecOn with
  | nil => exact ⟨0, rfl⟩
  | append_singleton l a ih =>
    obtain ⟨n, hn⟩ := ih
    by_cases ha : a = '/'
    · refine ⟨n + 1, ?_⟩
      rw [List.rdropWhile_concat_pos _ _ _ (by simpa using ha), List.replicate_succ',
        ← List.append_assoc, ← hn, ha]
    · refine ⟨0, ?_⟩
      rw [List.rdropWhile_concat_neg _ _ _ (by simpa using ha)]
      simp

theorem rdropWhile_slash_getLast (l : List Char) :
    (l.rdropWhile (fun c => decide (c = '/'))).getLast? ≠ some '/' := by
  induction l using List.reverseRecOn with
  | nil => simp
  | append_singleton l a ih =>
    by_cases ha : a = '/'
    · rw [List.rdropWhile_concat_pos _ _ _ (by simpa using ha)]
      exact ih
    · rw [List.rdropWhile_concat_neg _ _ _ (by simpa using ha)]
      simp only [List.getLast?_append, List.getLast?_singleton, Option.or_some, ne_eq,
        Option.some.injEq]
      simpa using ha

theorem occurrences_short (s : List Char) (text : List Char) (h : text.length < s.length) :
    occurrences s text = 0 := by
  induction text with
  | nil => rfl
  | cons c cs ih =>
    have h1 : ¬ (s.isPrefixOf (c :: cs) = true) := by
      rw [List.isPrefixOf_iff_prefix]
      intro hp
      have := hp.length_le
      omega
    simp only [occurrences, if_neg h1, zero_add]
    exact ih (by simp only [List.length_cons] at h; omega)

/-- An occurrence that starts before a joined, border-free `s` lies before it. -/
theorem prefix_of_prefix_append_self (s u : List Char) (hs : borderFree s) (hu : u ≠ [])
    (h : s <+: u ++ s) : s <+: u := by
  by_cases hle : s.length ≤ u.length
  · exact List.prefix_of_prefix_length_le h (List.prefix_append u s) hle
  · exfalso
    have hlt : u.length < s.length := by omega
    have hus : u <+: s :=
      List.prefix_of_prefix_length_le (List.prefix_append u s) h (by omega)
    obtain ⟨v, hv⟩ := hus
    obtain ⟨w, hw⟩ := h
    have hvw : v ++ w = s := by
      have : u ++ (v ++ w) = u ++ s := by
        rw [← List.append_assoc, hv, hw]
      exact List.append_cancel_left this
    have hdrop : s.drop u.length = v := by
      rw [← hv, List.drop_left]
    have hpos : 0 < u.length := List.length_pos.mpr hu
    apply hs u.length hlt hpos
    rw [List.isPrefixOf_iff_prefix, hdrop]
    exact ⟨w, hvw⟩

theorem occurrences_append_self (s : List Char) (hs : borderFree s) (hne : s ≠ [])
    (t : List Char) : occurrences s (t ++ s) = occurrences s t + 1 := by
  induction t with
  | nil =>
    cases s with
    | nil => exact absurd rfl hne
    | cons c cs =>
      have h1 : (c :: cs).isPrefixOf (c :: cs) = true := by
        rw [List.isPrefixOf_iff_prefix]
      simp only [List.nil_append, occurrences, h1, if_true]
      rw [occurrences_short (c :: cs) cs (by simp)]
  | cons c t ih =>
    have hiff : (s.isPrefixOf (c :: t ++ s) = true) ↔ (s.isPrefixOf (c :: t) = true) := by
      rw [List.isPrefixOf_iff_prefix, List.isPrefixOf_iff_prefix]
      constructor
      · intro h
        exact prefix_of_prefix_append_self s (c :: t) hs (by simp) h
      · intro h
        exact h.trans (List.prefix_append _ _)
    have e1 : occurrences s (c :: t ++ s)
        = (if s.isPrefixOf (c :: t ++ s) = true then 1 else 0) + occurrences s (t ++ s) := rfl
    have e2 : occurrences s (c :: t)
        = (if s.isPrefixOf (c :: t) = true then 1 else 0) + occurrences s t := rfl
    rw [e1, e2, ih]
    by_cases hp : s.isPrefixOf (c :: t) = true
    · rw [if_pos hp, if_pos (hiff.mpr hp)]
      omega
    · rw [if_neg hp, if_neg (fun h => hp (hiff.mp h))]
      omega

theorem borderFree_paths :
    borderFree queryPath.data ∧ borderFree queryRangePath.data ∧
      borderFree metricsPath.data := by
  refine ⟨?_, ?_, ?_⟩ <;> unfold borderFree <;> decide

/-- C15 (as the claim states it, refuted): for the endpoint path `/api/v1/query`, which
has no trailing slash, `Query` builds the path `/api/v1/query/api/v1/query`, in which
the sub-path `/api/v1/query` occurs twice. -/
theorem request_path_twice :
    queryRequestPath "/api/v1/query" = "/api/v1/query/api/v1/query" ∧
    occurrences queryPath.data (queryRequestPath "/api/v1/query").data = 2 :=
  ⟨by decide, by decide⟩

/-- C15 (amended): every endpoint path `p` is `trimRightSlash p` followed by slashes
only, and `trimRightSlash p` does not end with a slash; the paths built by `Query`,
`QueryRange` and `Metrics` are `trimRightSlash p` followed by the sub-path, so they end
with the sub-path and the character before it is not a slash; and the sub-path occurs
in the built path once more than in `trimRightSlash p`, hence exactly once if and only
if it does not occur in `trimRightSlash p`. -/
theorem request_path_join (p : String) :
    (∃ n, p.data = (trimRightSlash p).data ++ List.replicate n '/') ∧
    (trimRightSlash p).data.getLast? ≠ some '/' ∧
    (queryRequestPath p = trimRightSlash p ++ queryPath ∧
      queryRangeRequestPath p = trimRightSlash p ++ queryRangePath ∧
      metricsRequestPath p = trimRightSlash p ++ metricsPath) ∧
    (queryPath.data <:+ (queryRequestPath p).data ∧
      queryRangePath.data <:+ (queryRangeRequestPath p).data ∧
      metricsPath.data <:+ (metricsRequestPath p).data) ∧
    (occurrences queryPath.data (queryRequestPath p).data
        = occurrences queryPath.data (trimRightSlash p).data + 1 ∧
      occurrences queryRangePath.data (queryRangeRequestPath p).data
        = occurrences queryRangePath.data (trimRightSlash p).data + 1 ∧
      occurrences metricsPath.data (metricsRequestPath p).data
        = occurrences metricsPath.data (trimRightSlash p).data + 1) ∧
    ((occurrences queryPath.data (queryRequestPath p).data = 1
        ↔ occurrences queryPath.data (trimRightSlash p).data = 0) ∧
      (occurrences queryRangePath.data (queryRangeRequestPath p).data = 1
        ↔ occurrences queryRangePath.data (trimRightSlash p).data = 0) ∧
      (occurrences metricsPath.data (metricsRequestPath p).data = 1
        ↔ occurrences metricsPath.data (trimRightSlash p).data = 0)) := by
  obtain ⟨b1, b2, b3⟩ := borderFree_paths
  have o1 := occurrences_append_self queryPath.data b1 (by decide) (trimRightSlash p).data
  have o2 := occurrences_append_self queryRangePath.data b2 (by decide) (trimRightSlash p).data
  have o3 := occurrences_append_self metricsPath.data b3 (by decide) (trimRightSlash p).data
  refine ⟨rdropWhile_slash_decomp p.data, rdropWhile_slash_getLast p.data, ⟨rfl, rfl, rfl⟩,
    ⟨?_, ?_, ?_⟩, ⟨?_, ?_, ?_⟩, ⟨?_, ?_, ?_⟩⟩
  · exact ⟨(trimRightSlash p).data, by simp [queryRequestPath]⟩
  · exact ⟨(trimRightSlash p).data, by simp [queryRangeRequestPath]⟩
  · exact ⟨(trimRightSlash p).data, by simp [metricsRequestPath]⟩
  · simpa [queryRequestPath] using o1
  · simpa [queryRangeRequestPath] using o2
  · simpa [metricsRequestPath] using o3
  · simp only [queryRequestPath, String.data_append, o1]; omega
  · simp only [queryRangeRequestPath, String.data_append, o2]; omega
  · simp only [metricsRequestPath, String.data_append, o3]; omega

/-! ## The parameters of the request URL -/

theorem Values.lookup_filter_ne (v : Values) (key k : Bytes) (hk : k ≠ key) :
    Values.lookup (v.filter (fun p => p.1 != key)) k = Values.lookup v k := by
  unfold Values.lookup
  induction v with
  | nil => rfl
  | cons p v ih =>
    by_cases hp : p.1 = key
    · have h2 : (key == k) = false := by simpa using fun h => hk h.symm
      simp only [List.filter_cons, hp, bne_self_eq_false, Bool.false_eq_true, if_false,
        List.find?_cons]
      rw [h2]
      exact ih
    · have h0 : (p.1 != key) = true := by simpa using hp
      simp only [List.filter_cons, h0, if_true, List.find?_cons]
      cases hpk : (p.1 == k) with
      | true => rfl
      | false => exact ih

theorem Values.lookup_Set (v : Values) (key value k : Bytes) :
    (v.Set key value).lookup k = if k = key then [value] else v.lookup k := by
  by_cases hk : k = key
  · subst hk
    simp [Values.Set, Values.lookup]
  · rw [if_neg hk, ← Values.lookup_filter_ne v key k hk]
    have h2 : (key == k) = false := by simpa using fun h => hk h.symm
    simp only [Values.Set, Values.lookup, List.find?_cons, h2]

theorem Values.lookup_add (v : Values) (key value k : Bytes) :
    (v.add key value).lookup k = if k = key then v.lookup key ++ [value] else v.lookup k := by
  by_cases hk : k = key
  · subst hk
    simp [Values.add, Values.lookup]
  · rw [if_neg hk, ← Values.lookup_filter_ne v key k hk]
    have h2 : (key == k) = false := by simpa using fun h => hk h.symm
    simp only [Values.add, Values.lookup, List.find?_cons, h2]

theorem Values.keys_cons_filter_nodup (v : Values) (key : Bytes) (vals : List Bytes)
    (h : v.keys.Nodup) :
    Values.keys ((key, vals) :: v.filter (fun p => p.1 != key)) |>.Nodup := by
  unfold Values.keys at h ⊢
  simp only [List.map_cons, List.nodup_cons, List.mem_map, List.mem_filter,
    not_exists, not_and]
  refine ⟨?_, ?_⟩
  · rintro p ⟨-, hp⟩ hpk
    simp [hpk] at hp
  · exact (List.filter_sublist v).map _ |>.nodup h

theorem Values.keys_Set_nodup (v : Values) (key value : Bytes) (h : v.keys.Nodup) :
    (v.Set key value).keys.Nodup :=
  Values.keys_cons_filter_nodup v key _ h

theorem Values.keys_add_nodup (v : Values) (key value : Bytes) (h : v.keys.Nodup) :
    (v.add key value).keys.Nodup :=
  Values.keys_cons_filter_nodup v key _ h

theorem Values.lookup_of_not_mem (v : Values) (k : Bytes) (h : k ∉ v.keys) :
    v.lookup k = [] := by
  unfold Values.lookup
  have : v.find? (fun p => p.1 == k) = none := by
    rw [List.find?_eq_none]
    intro p hp hpk
    apply h
    simp only [Values.keys, List.mem_map]
    exact ⟨p, hp, by simpa using hpk⟩
  rw [this]

theorem paramValues_append (a b : List (Bytes × Bytes)) (k : Bytes) :
    paramValues (a ++ b) k = paramValues a k ++ paramValues b k := by
  simp [paramValues]

theorem paramValues_map_key (k0 k : Bytes) (xs : List Bytes) :
    paramValues (xs.map (fun x => (k0, x))) k = if k0 = k then xs else [] := by
  by_cases h : k0 = k
  · subst h
    simp [paramValues, List.filter_map, Function.comp_def]
  · rw [if_neg h]
    simp [paramValues, List.filter_map, Function.comp_def, h]

theorem paramValues_paramsOf (v : Values) (ks : List Bytes) (hks : ks.Nodup) (k : Bytes) :
    paramValues (v.paramsOf ks) k = if k ∈ ks then v.lookup k else [] := by
  induction ks with
  | nil => simp [Values.paramsOf, paramValues]
  | cons k0 ks ih =>
    rw [List.nodup_cons] at hks
    simp only [Values.paramsOf, paramValues_append, paramValues_map_key, ih hks.2]
    by_cases h : k0 = k
    · subst h
      simp [hks.1]
    · have h1 : ¬ k = k0 := fun e => h e.symm
      simp [h, h1]

/-- The values written for a key are the values the map holds for it. -/
theorem paramValues_params (v : Values) (hv : v.keys.Nodup) (k : Bytes) :
    paramValues v.params k = v.lookup k := by
  have hperm := List.perm_insertionSort (fun a b : Bytes => bytesLE a b = true) v.keys
  rw [Values.params, paramValues_paramsOf v _ (hperm.nodup_iff.mpr hv)]
  by_cases hk : k ∈ v.keys
  · rw [if_pos (hperm.mem_iff.mpr hk)]
  · rw [if_neg (fun h => hk (hperm.mem_iff.mp h)), Values.lookup_of_not_mem v k hk]

set_option maxRecDepth 100000 in
/-- A byte that is written as it is, is none of `%`, `+`, `&`, `=`, `;`. -/
theorem plain_byte_facts : ∀ c : Byte, shouldEscape c = false →
    c.val ≠ 37 ∧ c.val ≠ 43 ∧ c.val ≠ 38 ∧ c.val ≠ 61 ∧ c ≠ 59 := by
  decide

set_option maxRecDepth 100000 in
/-- The two digits written for a byte are hexadecimal digits, none of `&`, `=`, `;`, and
read back as the byte. -/
theorem hex_byte_facts : ∀ c : Byte,
    ishex (upperhex (c.val / 16)) = true ∧ ishex (upperhex (c.val % 16)) = true ∧
    (Fin.ofNat (unhex (upperhex (c.val / 16)) * 16 + unhex (upperhex (c.val % 16))) : Byte) = c ∧
    (upperhex (c.val / 16)).val ≠ 38 ∧ (upperhex (c.val / 16)).val ≠ 61 ∧
    upperhex (c.val / 16) ≠ 59 ∧
    (upperhex (c.val % 16)).val ≠ 38 ∧ (upperhex (c.val % 16)).val ≠ 61 ∧
    upperhex (c.val % 16) ≠ 59 := by
  decide

/-- An escaped text holds none of `&`, `=`, `;`. -/
theorem queryEscape_no_special (s : Bytes) :
    ∀ b ∈ queryEscape s, b.val ≠ 38 ∧ b.val ≠ 61 ∧ b ≠ 59 := by
  induction s with
  | nil => intro b hb; simp [queryEscape] at hb
  | cons c cs ih =>
    intro b hb
    simp only [queryEscape, List.mem_append] at hb
    rcases hb with hb | hb
    · unfold escapeByte at hb
      by_cases hs : shouldEscape c = true
      · rw [if_pos hs] at hb
        by_cases h32 : c.val = 32
        · rw [if_pos h32] at hb
          simp only [List.mem_singleton] at hb
          subst hb
          decide
        · rw [if_neg h32] at hb
          obtain ⟨-, -, -, a1, a2, a3, b1, b2, b3⟩ := hex_byte_facts c
          simp only [List.mem_cons, List.mem_singleton, List.not_mem_nil, or_false] at hb
          rcases hb with hb | hb | hb
          · subst hb; decide
          · subst hb; exact ⟨a1, a2, a3⟩
          · subst hb; exact ⟨b1, b2, b3⟩
      · rw [if_neg hs] at hb
        simp only [List.mem_singleton] at hb
        subst hb
        obtain ⟨-, -, p3, p4, p5⟩ := plain_byte_facts b (by simpa using hs)
        exact ⟨p3, p4, p5⟩
    · exact ih b hb

theorem queryUnescape_percent (h1 h2 : Byte) (rest r : Bytes)
    (hh1 : ishex h1 = true) (hh2 : ishex h2 = true) (hr : queryUnescape rest = some r) :
    queryUnescape (37 :: h1 :: h2 :: rest)
      = some (Fin.ofNat (unhex h1 * 16 + unhex h2) :: r) := by
  have h37 : (37 : Byte).val = 37 := rfl
  rw [queryUnescape, if_pos h37]
  simp only [hh1, hh2, Bool.and_self, if_true, hr]

theorem queryUnescape_plain (c : Byte) (cs r : Bytes) (h1 : c.val ≠ 37)
    (hr : queryUnescape cs = some r) :
    queryUnescape (c :: cs) = some ((if c.val = 43 then 32 else c) :: r) := by
  rw [queryUnescape.eq_def]
  simp only [if_neg h1, hr]

/-- Unescaping undoes escaping. -/
theorem queryUnescape_queryEscape (s : Bytes) : queryUnescape (queryEscape s) = some s := by
  induction s with
  | nil => rfl
  | cons c cs ih =>
    simp only [queryEscape]
    unfold escapeByte
    by_cases hs : shouldEscape c = true
    · rw [if_pos hs]
      by_cases h32 : c.val = 32
      · rw [if_pos h32]
        have hc : c = 32 := Fin.ext h32
        subst hc
        exact queryUnescape_plain 43 _ _ (by decide) ih
      · rw [if_neg h32]
        obtain ⟨x1, x2, x3, -⟩ := hex_byte_facts c
        have := queryUnescape_percent _ _ _ _ x1 x2 ih
        rw [x3] at this
        exact this
    · rw [if_neg hs]
      obtain ⟨p1, p2, -⟩ := plain_byte_facts c (by simpa using hs)
      have := queryUnescape_plain c _ _ p1 ih
      rw [if_neg p2] at this
      exact this

theorem cutEq_append (a b : Bytes) (ha : ∀ x ∈ a, x.val ≠ 61) :
    cutEq (a ++ 61 :: b) = (a, b) := by
  induction a with
  | nil =>
    have h61 : (61 : Byte).val = 61 := rfl
    simp only [List.nil_append]
    rw [cutEq, if_pos h61]
  | cons c cs ih =>
    have hc : c.val ≠ 61 := ha c (List.mem_cons_self _ _)
    rw [List.cons_append, cutEq, if_neg hc,
      ih (fun x hx => ha x (List.mem_cons_of_mem _ hx))]

theorem splitAmp_ne_nil (s : Bytes) : splitAmp s ≠ [] := by
  induction s with
  | nil => simp [splitAmp]
  | cons c cs ih =>
    simp only [splitAmp]
    by_cases hc : c.val = 38
    · simp [hc]
    · rw [if_neg hc]
      cases hsp : splitAmp cs with
      | nil => simp
      | cons p ps => simp

theorem splitAmp_plain (p : Bytes) (hp : ∀ x ∈ p, x.val ≠ 38) : splitAmp p = [p] := by
  induction p with
  | nil => rfl
  | cons c cs ih =>
    have hc : c.val ≠ 38 := hp c (List.mem_cons_self _ _)
    simp only [splitAmp, if_neg hc, ih (fun x hx => hp x (List.mem_cons_of_mem _ hx))]

theorem splitAmp_append (p rest : Bytes) (hp : ∀ x ∈ p, x.val ≠ 38) :
    splitAmp (p ++ 38 :: rest) = p :: splitAmp rest := by
  induction p with
  | nil =>
    have h38 : (38 : Byte).val = 38 := rfl
    rw [List.nil_append, splitAmp, if_pos h38]
  | cons c cs ih =>
    have hc : c.val ≠ 38 := hp c (List.mem_cons_self _ _)
    rw [List.cons_append, splitAmp, if_neg hc,
      ih (fun x hx => hp x (List.mem_cons_of_mem _ hx))]

theorem splitAmp_joinAmp (ps : List Bytes) (hne : ps ≠ [])
    (hps : ∀ p ∈ ps, ∀ x ∈ p, x.val ≠ 38) : splitAmp (joinAmp ps) = ps := by
  induction ps with
  | nil => exact absurd rfl hne
  | cons p ps ih =>
    cases ps with
    | nil =>
      simp only [joinAmp]
      exact splitAmp_plain p (hps p (List.mem_cons_self _ _))
    | cons q qs =>
      simp only [joinAmp]
      rw [splitAmp_append p _ (hps p (List.mem_cons_self _ _)),
        ih (by simp) (fun x hx => hps x (List.mem_cons_of_mem _ hx))]

/-- A written parameter is read as its key and value. -/
theorem parsePiece_encodeParam (m : Values) (p : Bytes × Bytes) :
    parsePiece m (encodeParam p) = m.add p.1 p.2 := by
  unfold parsePiece encodeParam
  have h59 : ¬ ((59 : Byte) ∈ queryEscape p.1 ++ 61 :: queryEscape p.2) := by
    intro h
    simp only [List.mem_append, List.mem_cons] at h
    rcases h with h | h | h
    · exact (queryEscape_no_special p.1 _ h).2.2 rfl
    · exact absurd h (by decide)
    · exact (queryEscape_no_special p.2 _ h).2.2 rfl
  have hne : ¬ (queryEscape p.1 ++ 61 :: queryEscape p.2 = []) := by simp
  rw [if_neg h59, if_neg hne,
    cutEq_append _ _ (fun x hx => (queryEscape_no_special p.1 x hx).2.1)]
  simp only [queryUnescape_queryEscape]

theorem foldl_parsePiece_encode (ps : List (Bytes × Bytes)) (m : Values) :
    (ps.map encodeParam).foldl parsePiece m = ps.foldl (fun m p => m.add p.1 p.2) m := by
  induction ps generalizing m with
  | nil => rfl
  | cons p ps ih =>
    simp only [List.map_cons, List.foldl_cons, parsePiece_encodeParam, ih]

theorem lookup_foldl_add (ps : List (Bytes × Bytes)) (m : Values) (k : Bytes) :
    Values.lookup (ps.foldl (fun m p => m.add p.1 p.2) m) k
      = m.lookup k ++ paramValues ps k := by
  induction ps generalizing m with
  | nil => simp [paramValues]
  | cons p ps ih =>
    simp only [List.foldl_cons]
    rw [ih, Values.lookup_add]
    by_cases hk : k = p.1
    · subst hk
      simp [paramValues, List.filter_cons]
    · have h2 : (p.1 == k) = false := by simpa using fun h => hk h.symm
      simp [paramValues, List.filter_cons, hk, h2]

theorem encodeParam_no_amp (p : Bytes × Bytes) : ∀ x ∈ encodeParam p, x.val ≠ 38 := by
  intro x hx
  simp only [encodeParam, List.mem_append, List.mem_cons] at hx
  rcases hx with h | h | h
  · exact (queryEscape_no_special p.1 x h).1
  · subst h; decide
  · exact (queryEscape_no_special p.2 x h).1

/-- What `url.ParseQuery` reads from a list of written parameters. -/
theorem parseQuery_joinAmp (ps : List (Bytes × Bytes)) (k : Bytes) :
    (parseQuery (joinAmp (ps.map encodeParam))).lookup k = paramValues ps k := by
  unfold parseQuery
  cases ps with
  | nil => rfl
  | cons p ps =>
    rw [splitAmp_joinAmp _ (by simp), foldl_parsePiece_encode, lookup_foldl_add]
    · rfl
    · intro q hq
      simp only [List.mem_map] at hq
      obtain ⟨a, -, ha⟩ := hq
      rw [← ha]
      exact encodeParam_no_amp a

/-- Reading what `Encode` wrote gives back the values of every key. -/
theorem parseQuery_Encode (v : Values) (hv : v.keys.Nodup) (k : Bytes) :
    (parseQuery v.Encode).lookup k = v.lookup k := by
  rw [Values.Encode, parseQuery_joinAmp, paramValues_params v hv]

theorem foldl_parsePiece_nodup (pieces : List Bytes) (m : Values) (hm : m.keys.Nodup) :
    (pieces.foldl parsePiece m).keys.Nodup := by
  induction pieces generalizing m with
  | nil => exact hm
  | cons p ps ih =>
    simp only [List.foldl_cons]
    apply ih
    unfold parsePiece
    split
    · exact hm
    · split
      · exact hm
      · split
        · exact hm
        · split
          · exact hm
          · exact Values.keys_add_nodup _ _ _ hm

/-- The map `u.Query()` returns has distinct keys. -/
theorem parseQuery_nodup (query : Bytes) : (parseQuery query).keys.Nodup :=
  foldl_parsePiece_nodup _ [] (by simp [Values.keys])

/-- C17: the parameters of a query string are what `url.ParseQuery` reads from it, as
`u.Query()` does for the endpoint.  For every raw query of the endpoint: the raw query
that `Query` builds carries for every key other than `query` exactly the values the
endpoint carried for it, in order and with duplicates, and for `query` the one value
`expr`; the raw query that `QueryRange` builds carries for every key other than `query`,
`end`, `range`, `step` exactly the values of the endpoint, and for each of these four
keys the one value the operation sets.  Every map of parameters is carried by the query
string `Encode` writes for it, and for the endpoint query `a=1&a=2&query=old&z=9` and
the expression `up` the raw query built is `a=1&a=2&query=up&z=9`. -/
theorem query_params_isolation (rawQuery expr : Bytes) (end_ : FloatArg)
    (rangeSec step : Nat) :
    (∀ k, k ≠ ascii "query" →
      (parseQuery (queryRawQuery rawQuery expr)).lookup k = (parseQuery rawQuery).lookup k) ∧
    (parseQuery (queryRawQuery rawQuery expr)).lookup (ascii "query") = [expr] ∧
    (∀ k, k ≠ ascii "query" → k ≠ ascii "end" → k ≠ ascii "range" → k ≠ ascii "step" →
      (parseQuery (queryRangeRawQuery rawQuery expr end_ rangeSec step)).lookup k
        = (parseQuery rawQuery).lookup k) ∧
    (parseQuery (queryRangeRawQuery rawQuery expr end_ rangeSec step)).lookup (ascii "query")
      = [expr] ∧
    (parseQuery (queryRangeRawQuery rawQuery expr end_ rangeSec step)).lookup (ascii "end")
      = [ascii (sprintfF end_)] ∧
    (parseQuery (queryRangeRawQuery rawQuery expr end_ rangeSec step)).lookup (ascii "range")
      = [ascii (toString rangeSec)] ∧
    (parseQuery (queryRangeRawQuery rawQuery expr end_ rangeSec step)).lookup (ascii "step")
      = [ascii (toString step)] ∧
    (∀ v : Values, v.keys.Nodup → ∀ k, (parseQuery v.Encode).lookup k = v.lookup k) ∧
    queryRawQuery (ascii "a=1&a=2&query=old&z=9") (ascii "up")
      = ascii "a=1&a=2&query=up&z=9" := by
  have n0 := parseQuery_nodup rawQuery
  have n1 := Values.keys_Set_nodup _ (ascii "query") expr n0
  have n2 := Values.keys_Set_nodup _ (ascii "end") (ascii (sprintfF end_)) n1
  have n3 := Values.keys_Set_nodup _ (ascii "range") (ascii (toString rangeSec)) n2
  have n4 := Values.keys_Set_nodup _ (ascii "step") (ascii (toString step)) n3
  refine ⟨?_, ?_, ?_, ?_, ?_, ?_, ?_, parseQuery_Encode, by decide⟩
  · intro k hk
    rw [queryRawQuery, parseQuery_Encode _ n1, Values.lookup_Set, if_neg hk]
  · rw [queryRawQuery, parseQuery_Encode _ n1, Values.lookup_Set, if_pos rfl]
  · intro k h1 h2 h3 h4
    rw [queryRangeRawQuery, parseQuery_Encode _ n4, Values.lookup_Set, if_neg h4,
      Values.lookup_Set, if_neg h3, Values.lookup_Set, if_neg h2, Values.lookup_Set,
      if_neg h1]
  · rw [queryRangeRawQuery, parseQuery_Encode _ n4, Values.lookup_Set, if_neg (by decide),
      Values.lookup_Set, if_neg (by decide), Values.lookup_Set, if_neg (by decide),
      Values.lookup_Set, if_pos rfl]
  · rw [queryRangeRawQuery, parseQuery_Encode _ n4, Values.lookup_Set, if_neg (by decide),
      Values.lookup_Set, if_neg (by decide), Values.lookup_Set, if_pos rfl]
  · rw [queryRangeRawQuery, parseQuery_Encode _ n4, Values.lookup_Set, if_neg (by decide),
      Values.lookup_Set, if_pos rfl]
  · rw [queryRangeRawQuery, parseQuery_Encode _ n4, Values.lookup_Set, if_pos rfl]

/-- C17 at the endpoint query `a=1&a=2&query=old&z=9` and the expression `up`: the
endpoint carries the values `1`, `2` for `a` and `old` for `query`; the request carries
`1`, `2` for `a` and the one value `up` for `query`. -/
theorem query_params_isolation_witness :
    (parseQuery (ascii "a=1&a=2&query=old&z=9")).lookup (ascii "a") = [ascii "1", ascii "2"] ∧
    (parseQuery (ascii "a=1&a=2&query=old&z=9")).lookup (ascii "query") = [ascii "old"] ∧
    (parseQuery (queryRawQuery (ascii "a=1&a=2&query=old&z=9") (ascii "up"))).lookup (ascii "a")
      = (parseQuery (ascii "a=1&a=2&query=old&z=9")).lookup (ascii "a") ∧
    (parseQuery (queryRawQuery (ascii "a=1&a=2&query=old&z=9") (ascii "up"))).lookup
      (ascii "query") = [ascii "up"] :=
  ⟨by decide, by decide,
    (query_params_isolation (ascii "a=1&a=2&query=old&z=9") (ascii "up") .nan 0 0).1
      (ascii "a") (by decide),
    (query_params_isolation (ascii "a=1&a=2&query=old&z=9") (ascii "up") .nan 0 0).2.1⟩
end PrometheusCli
